import Mathlib

/-!
Verification of the process/thread identity tracker
(src/trace_processor/importers/common/process_tracker.cc).

The state of the tracker is shallowly embedded as a Lean structure and every
public method of `ProcessTracker` becomes an executable Lean function on that
structure.  Row tables are lists indexed by UTID/UPID, the hash maps
(`tids_`, `pids_`, `trusted_pids_`, the namespace maps) are functions
`Nat -> Option _` (absent key = `none`), and the pending-association buffers
are lists of pairs, mutated by exactly the swap-with-last scans of the source.
-/

set_option autoImplicit false

namespace PerfettoProcessTracker

/-- Interned string handle.  `StringId.is_null()` of the source corresponds to
the reserved value 0. -/
abbrev StringId := Nat

/-- The null string id (`StringId::is_null()` holds exactly for it). -/
def nullStringId : StringId := 0

/-- Numeric value of `ThreadNamePriority::kOther`, the lowest priority.
Modelled from the spec: the enum lives in process_tracker.h which is not part
of the sources; the spec fixes the order
Other < FtraceSystemInfo < OtherKernelRecord < FtraceCommit < ProcessTree <
TrustedProducerName < TraceProcessorConstant, so priorities are embedded as
plain naturals with kOther = 0. -/
def kOther : Nat := 0

/-- Numeric value of `ThreadNamePriority::kTraceProcessorConstant`, the highest
priority (see `kOther`). -/
def kTraceProcessorConstant : Nat := 6

/-- Numeric value of `ThreadNamePriority::kProcessTree` (see `kOther`). -/
def kProcessTree : Nat := 4

/-- One row of the `thread` table. -/
structure ThreadRow where
  tid : Nat
  upid : Option Nat := none
  start_ts : Option Int := none
  end_ts : Option Int := none
  name : Option StringId := none
  is_main_thread : Option Bool := none
deriving DecidableEq

/-- One row of the `process` table. -/
structure ProcessRow where
  pid : Nat
  parent_upid : Option Nat := none
  start_ts : Option Int := none
  end_ts : Option Int := none
  name : Option StringId := none
  cmdline : Option StringId := none
  uid : Option Nat := none
  android_appid : Option Nat := none
deriving DecidableEq

/-- Value of the `namespaced_processes_` map.  The source stores `threads` as a
`std::set<uint32_t>` (iterated in ascending order); the embedding keeps the
registration order (deduplicated) and sorts at query time, which preserves the
observable behaviour while remembering in which order threads were added. -/
structure NamespacedProcess where
  pid : Nat
  nspid : List Nat
  threads : List Nat
deriving DecidableEq

/-- Value of the `namespaced_threads_` map. -/
structure NamespacedThread where
  pid : Nat
  tid : Nat
  nstid : List Nat
deriving DecidableEq

/-- Whole mutable state of a `ProcessTracker` instance, together with the two
row tables it mutates through the context and the
`process_tracker_errors` stat counter. -/
structure State where
  threads : List ThreadRow
  processes : List ProcessRow
  tids : Nat → Option (List Nat)
  pids : Nat → Option Nat
  thread_name_priorities : List Nat
  pending_assocs : List (Nat × Nat)
  pending_parent_assocs : List (Nat × Nat)
  trusted_pids : Nat → Option Nat
  namespaced_processes : Nat → Option NamespacedProcess
  namespaced_threads : Nat → Option NamespacedThread
  process_tracker_errors : Nat

/-- Point update of a map embedded as a function. -/
def fupd {α : Type} (f : Nat → α) (k : Nat) (v : α) : Nat → α :=
  fun x => if x = k then v else f x

/-- Default thread row used by the total list indexing (never observable on
indices produced by the tracker itself). -/
def dfltThread : ThreadRow := { tid := 0 }

/-- Default process row used by the total list indexing. -/
def dfltProcess : ProcessRow := { pid := 0 }

/-- Default namespaced process: the aggregate value-initialisation performed by
`namespaced_processes_[pid]` when the key is absent. -/
def dfltNsProcess : NamespacedProcess := { pid := 0, nspid := [], threads := [] }

/-- Default namespaced thread: the aggregate value-initialisation performed by
`namespaced_threads_[tid]` when the key is absent. -/
def dfltNsThread : NamespacedThread := { pid := 0, tid := 0, nstid := [] }

/-- Row of the thread table at index `u`. -/
def State.threadRow (s : State) (u : Nat) : ThreadRow := s.threads.getD u dfltThread

/-- Row of the process table at index `p`. -/
def State.procRow (s : State) (p : Nat) : ProcessRow := s.processes.getD p dfltProcess

/-- Column accessor `thread_table->tid()[u]`. -/
def State.threadTid (s : State) (u : Nat) : Nat := (s.threadRow u).tid

/-- Column accessor `thread_table->upid()[u]`. -/
def State.threadUpid (s : State) (u : Nat) : Option Nat := (s.threadRow u).upid

/-- Column accessor `thread_table->end_ts()[u]`. -/
def State.threadEndTs (s : State) (u : Nat) : Option Int := (s.threadRow u).end_ts

/-- Column accessor `thread_table->start_ts()[u]`. -/
def State.threadStartTs (s : State) (u : Nat) : Option Int := (s.threadRow u).start_ts

/-- Column accessor `thread_table->name()[u]`. -/
def State.threadName (s : State) (u : Nat) : Option StringId := (s.threadRow u).name

/-- Column accessor `thread_table->is_main_thread()[u]`. -/
def State.threadIsMain (s : State) (u : Nat) : Option Bool := (s.threadRow u).is_main_thread

/-- Column accessor `process_table->pid()[p]`. -/
def State.procPid (s : State) (p : Nat) : Nat := (s.procRow p).pid

/-- Column accessor `process_table->end_ts()[p]`. -/
def State.procEndTs (s : State) (p : Nat) : Option Int := (s.procRow p).end_ts

/-- Column accessor `process_table->start_ts()[p]`. -/
def State.procStartTs (s : State) (p : Nat) : Option Int := (s.procRow p).start_ts

/-- Column accessor `process_table->name()[p]`. -/
def State.procName (s : State) (p : Nat) : Option StringId := (s.procRow p).name

/-- Column accessor `process_table->parent_upid()[p]`. -/
def State.procParent (s : State) (p : Nat) : Option Nat := (s.procRow p).parent_upid

/-- Entry of `thread_name_priorities_` at index `u`. -/
def State.prioAt (s : State) (u : Nat) : Nat := s.thread_name_priorities.getD u 0

/-- In-place mutation of a single thread row (a typed-column `Set`). -/
def State.setThread (s : State) (u : Nat) (f : ThreadRow → ThreadRow) : State :=
  { s with threads := s.threads.set u (f (s.threads.getD u dfltThread)) }

/-- In-place mutation of a single process row (a typed-column `Set`). -/
def State.setProc (s : State) (p : Nat) (f : ProcessRow → ProcessRow) : State :=
  { s with processes := s.processes.set p (f (s.processes.getD p dfltProcess)) }

/-- State built by the `ProcessTracker` constructor: the reserved
swapper/idle rows utid 0 (tid 0, upid 0, main thread) and upid 0 (pid 0), plus
the matching `kOther` entry of `thread_name_priorities_`.  The `tids_` and
`pids_` maps start empty. -/
def initState : State :=
  { threads := [{ tid := 0, upid := some 0, is_main_thread := some true }]
    processes := [{ pid := 0 }]
    tids := fun _ => none
    pids := fun _ => none
    thread_name_priorities := [kOther]
    pending_assocs := []
    pending_parent_assocs := []
    trusted_pids := fun _ => none
    namespaced_processes := fun _ => none
    namespaced_threads := fun _ => none
    process_tracker_errors := 0 }

/-- `ProcessTracker::StartNewThread`: append a thread row, push the new utid
onto `tids_[tid]`, extend `thread_name_priorities_` with `kOther`. -/
def startNewThread (s : State) (timestamp : Option Int) (tid : Nat) : Nat × State :=
  let new_utid := s.threads.length
  (new_utid,
    { s with
      threads := s.threads ++ [{ tid := tid, start_ts := timestamp }]
      tids := fupd s.tids tid (some ((s.tids tid).getD [] ++ [new_utid]))
      thread_name_priorities := s.thread_name_priorities ++ [kOther] })

/-- `ProcessTracker::IsThreadAlive`. -/
def isThreadAlive (s : State) (utid : Nat) : Bool :=
  if (s.threadEndTs utid).isSome then false
  else
    match s.threadUpid utid with
    | none => true
    | some current_upid =>
      if (s.procEndTs current_upid).isSome then false
      else
        match s.pids (s.procPid current_upid) with
        | some other_upid => other_upid == current_upid
        | none => true

/-- Backwards traversal of `tids_[tid]` performed by the two-argument
`ProcessTracker::GetThreadOrNull`; the argument list is already reversed, so
its head is the newest utid. -/
def getThreadLoop (s : State) (pid : Option Nat) : List Nat → Option Nat
  | [] => none
  | current_utid :: rest =>
    if !isThreadAlive s current_utid then getThreadLoop s pid rest
    else
      match s.threadUpid current_utid with
      | none => some current_utid
      | some current_upid =>
        if pid.isNone || (s.procPid current_upid == pid.getD 0) then some current_utid
        else getThreadLoop s pid rest

/-- `ProcessTracker::GetThreadOrNull(tid, pid)` (two-argument overload). -/
def getThreadOrNull (s : State) (tid : Nat) (pid : Option Nat) : Option Nat :=
  match s.tids tid with
  | none => none
  | some vector => getThreadLoop s pid vector.reverse

/-- `ProcessTracker::GetThreadOrNull(tid)` (single-argument overload; the
release build only adds debug assertions on top of the two-argument one). -/
def getThreadOrNull1 (s : State) (tid : Nat) : Option Nat :=
  getThreadOrNull s tid none

/-- `ProcessTracker::GetOrCreateThread`. -/
def getOrCreateThread (s : State) (tid : Nat) : Nat × State :=
  match getThreadOrNull1 s tid with
  | some utid => (utid, s)
  | none => startNewThread s none tid

/-- `ProcessTracker::EndThread`: set `end_ts`, drop the utid from `tids_[tid]`
and, if the thread is the main thread of a live process, finish the process
and erase `pids_[tid]`.  The element removal
`vector.erase(std::remove(...))` is embedded as a filter: a utid is pushed
onto exactly one `tids_` vector exactly once, so at the (single) occurrence
the two coincide. -/
def endThread (s : State) (timestamp : Int) (tid : Nat) : State :=
  match getThreadOrNull1 s tid with
  | none => s
  | some utid =>
    let s1 := s.setThread utid (fun r => { r with end_ts := some timestamp })
    let s2 := { s1 with
      tids := fupd s1.tids tid (some (((s1.tids tid).getD []).filter (fun u => u ≠ utid))) }
    match s2.threadUpid utid with
    | none => s2
    | some opt_upid =>
      if s2.procPid opt_upid ≠ tid then s2
      else
        let s3 := s2.setProc opt_upid (fun r => { r with end_ts := some timestamp })
        { s3 with pids := fupd s3.pids tid none }

/-- `ProcessTracker::UpdateThreadNameByUtid`. -/
def updateThreadNameByUtid (s : State) (utid : Nat) (thread_name_id : StringId)
    (priority : Nat) : State :=
  if thread_name_id = nullStringId then s
  else if s.prioAt utid ≤ priority then
    { s with
      threads := s.threads.set utid
        { (s.threads.getD utid dfltThread) with name := some thread_name_id }
      thread_name_priorities := s.thread_name_priorities.set utid priority }
  else s

/-- `ProcessTracker::UpdateThreadName`. -/
def updateThreadName (s : State) (tid : Nat) (thread_name_id : StringId)
    (priority : Nat) : Nat × State :=
  let pr := getOrCreateThread s tid
  (pr.1, updateThreadNameByUtid pr.2 pr.1 thread_name_id priority)

/-- `ProcessTracker::AssociateThreadToProcess`: write `upid` and recompute
`is_main_thread`. -/
def associateThreadToProcess (s : State) (utid upid : Nat) : State :=
  let main_thread := s.threadTid utid == s.procPid upid
  s.setThread utid (fun r => { r with upid := some upid, is_main_thread := some main_thread })

/-- One step of the swap-with-last scans of
`ProcessTracker::ResolvePendingAssociations`: examine the head of the active
region; on a match the processed entry is replaced by the last element of the
active region (exactly what swapping with the back and popping does).  Returns
the surviving entries (in their final order) and the processed entries (in
processing order).  The fuel always equals the length of the active region, so
the fuel-exhaustion branch is unreachable. -/
def scanGo (pm : Nat × Nat → Bool) : Nat → List (Nat × Nat) →
    List (Nat × Nat) × List (Nat × Nat)
  | _, [] => ([], [])
  | 0, l => (l, [])
  | fuel + 1, x :: xs =>
    if pm x then
      match xs.getLast? with
      | none => ([], [x])
      | some lastEntry =>
        let r := scanGo pm fuel (lastEntry :: xs.dropLast)
        (r.1, x :: r.2)
    else
      let r := scanGo pm fuel xs
      (x :: r.1, r.2)

/-- Swap-with-last removal scan over a pending buffer (see `scanGo`). -/
def scanRemove (pm : Nat × Nat → Bool) (l : List (Nat × Nat)) :
    List (Nat × Nat) × List (Nat × Nat) :=
  scanGo pm l.length l

/-- Body of one iteration of the worklist loop of
`ProcessTracker::ResolvePendingAssociations` for the popped utid `utid`:
drain `pending_parent_assocs_` entries whose parent is `utid` (setting the
parent upid of the child process to `upid`), then drain `pending_assocs_`
entries containing `utid`, associating every partner thread to `upid`.
Returns the new state and the partner utids to push onto the worklist. -/
def resolveStep (upid : Nat) (s : State) (utid : Nat) : State × List Nat :=
  let pp := scanRemove (fun e => e.1 == utid) s.pending_parent_assocs
  let s1 := { s with pending_parent_assocs := pp.1 }
  let s2 := pp.2.foldl
    (fun st e => st.setProc e.2 (fun r => { r with parent_upid := some upid })) s1
  let pa := scanRemove (fun e => e.1 == utid || e.2 == utid) s2.pending_assocs
  let others := pa.2.map (fun e => if e.1 == utid then e.2 else e.1)
  let s3 := { s2 with pending_assocs := pa.1 }
  (others.foldl (fun st o => associateThreadToProcess st o upid) s3, others)

/-- Worklist loop of `ProcessTracker::ResolvePendingAssociations`.  The
worklist is a stack with its top at the head.  Each iteration consumes one
worklist element and converts at most `k` pending-assoc entries into `k`
pushed utids, so `w.length + 2 * pending_assocs.length` strictly decreases
and is an adequate fuel. -/
def resolveGo (upid : Nat) : Nat → State → List Nat → State
  | _, s, [] => s
  | 0, s, _ :: _ => s
  | fuel + 1, s, utid :: rest =>
    let pr := resolveStep upid s utid
    resolveGo upid fuel pr.1 (pr.2.reverse ++ rest)

/-- Worklist loop of `ProcessTracker::ResolvePendingAssociations` started on an
arbitrary worklist, with adequate fuel. -/
def resolveLoop (upid : Nat) (s : State) (w : List Nat) : State :=
  resolveGo upid (w.length + 2 * s.pending_assocs.length) s w

/-- `ProcessTracker::ResolvePendingAssociations`. -/
def resolvePendingAssociations (s : State) (utid upid : Nat) : State :=
  resolveLoop upid s [utid]

/-- `ProcessTracker::UpdateThread` as invoked by
`ProcessTracker::GetOrCreateProcess` right after `pids_[pid]` was inserted:
at that call site `GetOrCreateProcess(pid)` necessarily takes its early-return
branch and is just the map lookup, which breaks the (depth-two) mutual
recursion of the source. -/
def updateThreadNested (s : State) (tid pid : Nat) : Nat × State :=
  let found := getThreadOrNull s tid (some pid)
  let utid := found.getD s.threads.length
  let s1 := if found.isSome then s else (startNewThread s none tid).2
  let s2 :=
    if (s1.threadUpid utid).isNone then
      match s1.pids pid with
      | some upid => associateThreadToProcess s1 utid upid
      | none => s1
    else s1
  (utid, resolvePendingAssociations s2 utid ((s2.threadUpid utid).getD 0))

/-- `ProcessTracker::GetOrCreateProcess`: return the live upid from `pids_`
when present; otherwise insert a fresh process row, record it in `pids_` and
create/associate the main thread through `UpdateThread(pid, pid)`. -/
def getOrCreateProcess (s : State) (pid : Nat) : Nat × State :=
  match s.pids pid with
  | some upid => (upid, s)
  | none =>
    let upid := s.processes.length
    let s1 := { s with
      pids := fupd s.pids pid (some upid)
      processes := s.processes ++ [{ pid := pid }] }
    (upid, (updateThreadNested s1 pid pid).2)

/-- `ProcessTracker::UpdateThread`. -/
def updateThread (s : State) (tid pid : Nat) : Nat × State :=
  let found := getThreadOrNull s tid (some pid)
  let utid := found.getD s.threads.length
  let s1 := if found.isSome then s else (startNewThread s none tid).2
  let s2 :=
    if (s1.threadUpid utid).isNone then
      let pr := getOrCreateProcess s1 pid
      associateThreadToProcess pr.2 utid pr.1
    else s1
  (utid, resolvePendingAssociations s2 utid ((s2.threadUpid utid).getD 0))

/-- `ProcessTracker::AssociateThreads`. -/
def associateThreads (s : State) (utid1 utid2 : Nat) : State :=
  let opt_upid1 := s.threadUpid utid1
  let opt_upid2 := s.threadUpid utid2
  if opt_upid1.isSome && !opt_upid2.isSome then
    let s1 := associateThreadToProcess s utid2 (opt_upid1.getD 0)
    resolvePendingAssociations s1 utid2 (opt_upid1.getD 0)
  else if opt_upid2.isSome && !opt_upid1.isSome then
    let s1 := associateThreadToProcess s utid1 (opt_upid2.getD 0)
    resolvePendingAssociations s1 utid1 (opt_upid2.getD 0)
  else if opt_upid1.isSome && opt_upid1 ≠ opt_upid2 then
    { s with process_tracker_errors := s.process_tracker_errors + 1 }
  else
    { s with pending_assocs := s.pending_assocs ++ [(utid1, utid2)] }

/-- `ProcessTracker::StartNewProcess`. -/
def startNewProcess (s : State) (timestamp : Option Int) (parent_tid : Option Nat)
    (pid : Nat) (main_thread_name : StringId) (priority : Nat) : Nat × State :=
  let s0 := { s with pids := fupd s.pids pid none }
  let pr1 := startNewThread s0 timestamp pid
  let utid := pr1.1
  let s1 := updateThreadNameByUtid pr1.2 utid main_thread_name priority
  let pr2 := getOrCreateProcess s1 pid
  let upid := pr2.1
  let s2 := pr2.2
  let s3 :=
    match timestamp with
    | some ts => s2.setProc upid (fun r => { r with start_ts := some ts })
    | none => s2
  let s4 := s3.setProc upid (fun r => { r with name := some main_thread_name })
  match parent_tid with
  | none => (upid, s4)
  | some ptid =>
    let pr3 := getOrCreateThread s4 ptid
    let parent_utid := pr3.1
    let s5 := pr3.2
    match s5.threadUpid parent_utid with
    | some parent_upid =>
      (upid, s5.setProc upid (fun r => { r with parent_upid := some parent_upid }))
    | none =>
      (upid, { s5 with
        pending_parent_assocs := s5.pending_parent_assocs ++ [(parent_utid, upid)] })

/-- `ProcessTracker::SetProcessMetadata`.  The interned ids of `name` and
`cmdline` are taken as arguments (interning is an opaque collaborator). -/
def setProcessMetadata (s : State) (pid : Nat) (ppid : Option Nat)
    (name cmdline : StringId) : Nat × State :=
  let prParent :=
    match ppid with
    | some pp =>
      let pr := getOrCreateProcess s pp
      (some pr.1, pr.2)
    | none => (none, s)
  let pupid := prParent.1
  let pr := getOrCreateProcess prParent.2 pid
  let upid := pr.1
  let s2 := pr.2.setProc upid (fun r => { r with name := some name, cmdline := some cmdline })
  match pupid with
  | some pu => (upid, s2.setProc upid (fun r => { r with parent_upid := some pu }))
  | none => (upid, s2)

/-- `ProcessTracker::SetProcessUid`. -/
def setProcessUid (s : State) (upid uid : Nat) : State :=
  s.setProc upid (fun r => { r with uid := some uid, android_appid := some (uid % 100000) })

/-- `ProcessTracker::SetProcessNameIfUnset`. -/
def setProcessNameIfUnset (s : State) (upid : Nat) (process_name_id : StringId) : State :=
  if (s.procName upid).isSome then s
  else s.setProc upid (fun r => { r with name := some process_name_id })

/-- `ProcessTracker::SetStartTsIfUnset`. -/
def setStartTsIfUnset (s : State) (upid : Nat) (start_ts : Int) : State :=
  if (s.procStartTs upid).isSome then s
  else s.setProc upid (fun r => { r with start_ts := some start_ts })

/-- `ProcessTracker::UpdateThreadNameAndMaybeProcessName`. -/
def updateThreadNameAndMaybeProcessName (s : State) (tid : Nat)
    (thread_name : StringId) (priority : Nat) : State :=
  let pr := updateThreadName s tid thread_name priority
  let utid := pr.1
  let s1 := pr.2
  match s1.threadUpid utid with
  | none => s1
  | some opt_upid =>
    if s1.procPid opt_upid == tid then
      s1.setProc opt_upid (fun r => { r with name := some thread_name })
    else s1

/-- `ProcessTracker::UpdateTrustedPid`. -/
def updateTrustedPid (s : State) (trusted_pid uuid : Nat) : State :=
  { s with trusted_pids := fupd s.trusted_pids uuid (some trusted_pid) }

/-- `ProcessTracker::GetTrustedPid`. -/
def getTrustedPid (s : State) (uuid : Nat) : Option Nat :=
  s.trusted_pids uuid

/-- Interned id of the constant string "swapper". -/
def swapperStringId : StringId := 1

/-- `ProcessTracker::SetPidZeroIsUpidZeroIdleProcess`.  The two
`FlatHashMap::Insert` calls do not overwrite an existing key. -/
def setPidZeroIsUpidZeroIdleProcess (s : State) : State :=
  let s1 := if (s.tids 0).isNone then { s with tids := fupd s.tids 0 (some [0]) } else s
  let s2 := if (s1.pids 0).isNone then { s1 with pids := fupd s1.pids 0 (some 0) } else s1
  (updateThreadName s2 0 swapperStringId kTraceProcessorConstant).2

/-- Insert a key into a registration-ordered duplicate-free list
(`std::set::emplace`: no effect when the key is present). -/
def emplaceKey (k : Nat) (l : List Nat) : List Nat :=
  if k ∈ l then l else l ++ [k]

/-- `ProcessTracker::UpdateNamespacedProcess`: overwrite the entry, emptying
the thread set. -/
def updateNamespacedProcess (s : State) (pid : Nat) (nspid : List Nat) : State :=
  let entry : NamespacedProcess := { pid := pid, nspid := nspid, threads := [] }
  { s with namespaced_processes := fupd s.namespaced_processes pid (some entry) }

/-- `ProcessTracker::UpdateNamespacedThread`: `namespaced_processes_[pid]`
value-initialises a missing entry (the debug build would assert the process is
registered), the thread is added to the set and indexed. -/
def updateNamespacedThread (s : State) (pid tid : Nat) (nstid : List Nat) : State :=
  let p := (s.namespaced_processes pid).getD dfltNsProcess
  let pEntry : NamespacedProcess := { p with threads := emplaceKey tid p.threads }
  let tEntry : NamespacedThread := { pid := pid, tid := tid, nstid := nstid }
  { s with
    namespaced_processes := fupd s.namespaced_processes pid (some pEntry)
    namespaced_threads := fupd s.namespaced_threads tid (some tEntry) }

/-- Insertion of a key into an ascending list. -/
def insertAsc (x : Nat) : List Nat → List Nat
  | [] => [x]
  | y :: ys => if x ≤ y then x :: y :: ys else y :: insertAsc x ys

/-- Ascending sort; applied to the registration-ordered duplicate-free
`threads` list it yields exactly the iteration order of the source's
`std::set<uint32_t>`. -/
def sortAsc (l : List Nat) : List Nat := l.foldr insertAsc []

/-- `ProcessTracker::ResolveNamespacedTid`.  `root_level_pid` is a `uint32_t`,
so `root_level_pid <= 0` holds exactly for 0.  `nspid.back()` and
`nstid[ns_level]` are embedded with default 0 (the debug build asserts they
are in range). -/
def resolveNamespacedTid (s : State) (root_level_pid tid : Nat) : Option Nat :=
  if root_level_pid = 0 then none
  else
    match s.namespaced_processes root_level_pid with
    | none => none
    | some process =>
      let ns_level := process.nspid.length - 1
      let pid_local := process.nspid.getLastD 0
      if pid_local = tid then some root_level_pid
      else
        match (sortAsc process.threads).find? (fun root_level_tid =>
            (((s.namespaced_threads root_level_tid).getD dfltNsThread).nstid.getD ns_level 0)
              == tid) with
        | some root_level_tid =>
          some ((s.namespaced_threads root_level_tid).getD dfltNsThread).tid
        | none => none

/-- Public mutating calls of the tracker, used to quantify over "any sequence
of public calls".  Read-only queries (`GetThreadOrNull`, `IsThreadAlive`,
`GetTrustedPid`, `ResolveNamespacedTid`) do not change the state and are
therefore not commands.  `NotifyEndOfFile` and `AddArgsTo` only touch the
opaque args accumulator and are omitted likewise. -/
inductive Cmd where
  | startNewThread (ts : Option Int) (tid : Nat)
  | endThread (ts : Int) (tid : Nat)
  | getOrCreateThread (tid : Nat)
  | updateThreadName (tid : Nat) (name : StringId) (prio : Nat)
  | updateThreadNameByUtid (utid : Nat) (name : StringId) (prio : Nat)
  | updateThread (tid pid : Nat)
  | updateTrustedPid (trusted_pid uuid : Nat)
  | startNewProcess (ts : Option Int) (parent_tid : Option Nat) (pid : Nat)
      (name : StringId) (prio : Nat)
  | setProcessMetadata (pid : Nat) (ppid : Option Nat) (name cmdline : StringId)
  | setProcessUid (upid uid : Nat)
  | setProcessNameIfUnset (upid : Nat) (name : StringId)
  | setStartTsIfUnset (upid : Nat) (ts : Int)
  | updateThreadNameAndMaybeProcessName (tid : Nat) (name : StringId) (prio : Nat)
  | getOrCreateProcess (pid : Nat)
  | associateThreads (utid1 utid2 : Nat)
  | setPidZeroIsUpidZeroIdleProcess
  | updateNamespacedProcess (pid : Nat) (nspid : List Nat)
  | updateNamespacedThread (pid tid : Nat) (nstid : List Nat)
deriving DecidableEq

/-- Effect of one public call on the state. -/
def step (s : State) : Cmd → State
  | .startNewThread ts tid => (startNewThread s ts tid).2
  | .endThread ts tid => endThread s ts tid
  | .getOrCreateThread tid => (getOrCreateThread s tid).2
  | .updateThreadName tid name prio => (updateThreadName s tid name prio).2
  | .updateThreadNameByUtid utid name prio => updateThreadNameByUtid s utid name prio
  | .updateThread tid pid => (updateThread s tid pid).2
  | .updateTrustedPid tp uuid => updateTrustedPid s tp uuid
  | .startNewProcess ts ptid pid name prio => (startNewProcess s ts ptid pid name prio).2
  | .setProcessMetadata pid ppid name cmdline => (setProcessMetadata s pid ppid name cmdline).2
  | .setProcessUid upid uid => setProcessUid s upid uid
  | .setProcessNameIfUnset upid name => setProcessNameIfUnset s upid name
  | .setStartTsIfUnset upid ts => setStartTsIfUnset s upid ts
  | .updateThreadNameAndMaybeProcessName tid name prio =>
      updateThreadNameAndMaybeProcessName s tid name prio
  | .getOrCreateProcess pid => (getOrCreateProcess s pid).2
  | .associateThreads u1 u2 => associateThreads s u1 u2
  | .setPidZeroIsUpidZeroIdleProcess => setPidZeroIsUpidZeroIdleProcess s
  | .updateNamespacedProcess pid nspid => updateNamespacedProcess s pid nspid
  | .updateNamespacedThread pid tid nstid => updateNamespacedThread s pid tid nstid

/-- A command is valid when every raw UTID/UPID argument is in range of the
corresponding table (out-of-range indices would be undefined behaviour in the
source, which indexes the columnar tables directly). -/
def validCmd (s : State) : Cmd → Bool
  | .updateThreadNameByUtid utid _ _ => utid < s.threads.length
  | .setProcessUid upid _ => upid < s.processes.length
  | .setProcessNameIfUnset upid _ => upid < s.processes.length
  | .setStartTsIfUnset upid _ => upid < s.processes.length
  | .associateThreads u1 u2 => u1 < s.threads.length && u2 < s.threads.length
  | _ => true

/-- Run a sequence of public calls. -/
def run (s : State) : List Cmd → State
  | [] => s
  | c :: cs => run (step s c) cs

/-- Validity of a whole call sequence, each command checked in the state it
executes in. -/
def validSeq (s : State) : List Cmd → Bool
  | [] => true
  | c :: cs => validCmd s c && validSeq (step s c) cs

/-- Modelled from the spec: `IsThreadAlive(u)` is false if `thread.end_ts[u]`
is set, or if `thread.upid[u]` is set and the referenced process has `end_ts`,
or if `thread.upid[u]` is set and `pids[process.pid[upid]]` exists but refers
to a different UPID; otherwise true. -/
def isThreadAliveSpec (s : State) (u : Nat) : Bool :=
  (s.threadEndTs u).isNone &&
    (match s.threadUpid u with
     | none => true
     | some P => (s.procEndTs P).isNone &&
         (match s.pids (s.procPid P) with
          | none => true
          | some Q => Q == P))

/-- Modelled from the spec: `GetThreadOrNull(tid, pid?)` traverses `tids[tid]`
from newest to oldest and returns the first UTID that is alive and either has
no upid, or no pid was given, or satisfies
`process.pid[thread.upid[u]] == pid`; nullopt if no such UTID exists. -/
def getThreadOrNullSpec (s : State) (tid : Nat) (pid : Option Nat) : Option Nat :=
  ((s.tids tid).getD []).reverse.find? (fun u =>
    isThreadAliveSpec s u &&
      (pid.isNone || (s.threadUpid u).isNone
        || (s.procPid ((s.threadUpid u).getD 0) == pid.getD 0)))

/-- Modelled from the spec: like `resolveNamespacedTid`, but iterating the
process's threads in the order in which they were registered ("the first
registered thread"), instead of the ascending-`root_tid` order in which the
source's `std::set<uint32_t>` is iterated. -/
def resolveNamespacedTidSpec (s : State) (root_level_pid tid : Nat) : Option Nat :=
  if root_level_pid = 0 then none
  else
    match s.namespaced_processes root_level_pid with
    | none => none
    | some process =>
      let ns_level := process.nspid.length - 1
      let pid_local := process.nspid.getLastD 0
      if pid_local = tid then some root_level_pid
      else
        match process.threads.find? (fun root_level_tid =>
            (((s.namespaced_threads root_level_tid).getD dfltNsThread).nstid.getD ns_level 0)
              == tid) with
        | some root_level_tid =>
          some ((s.namespaced_threads root_level_tid).getD dfltNsThread).tid
        | none => none

/-- Pointwise order between the recorded thread-name priorities of two
states. -/
def PrioLE (s t : State) : Prop := ∀ u, s.prioAt u ≤ t.prioAt u

/-! ### List helper lemmas -/

theorem getD_set_self {α : Type} (l : List α) (i : Nat) (a d : α) (h : i < l.length) :
    (l.set i a).getD i d = a := by
  induction l generalizing i with
  | nil => simp at h
  | cons x xs ih =>
    cases i with
    | zero => rfl
    | succ n => simpa using ih n (by simpa using h)

theorem getD_set_ne {α : Type} (l : List α) (i j : Nat) (a d : α) (h : j ≠ i) :
    (l.set i a).getD j d = l.getD j d := by
  induction l generalizing i j with
  | nil => rfl
  | cons x xs ih =>
    cases i with
    | zero =>
      cases j with
      | zero => exact absurd rfl h
      | succ m => rfl
    | succ n =>
      cases j with
      | zero => rfl
      | succ m => simpa using ih n m (fun hc => h (by rw [hc]))

theorem set_oob {α : Type} (l : List α) (i : Nat) (a : α) (h : l.length ≤ i) :
    l.set i a = l := by
  induction l generalizing i with
  | nil => rfl
  | cons x xs ih =>
    cases i with
    | zero => simp at h
    | succ n => simpa using ih n (by simpa using h)

theorem getD_append_left {α : Type} (l m : List α) (i : Nat) (d : α) (h : i < l.length) :
    (l ++ m).getD i d = l.getD i d :=
  List.getD_append l m d i h

theorem getD_append_len {α : Type} (l : List α) (a d : α) :
    (l ++ [a]).getD l.length d = a := by
  rw [List.getD_append_right l [a] d l.length (Nat.le_refl _), Nat.sub_self]
  rfl

/-! ### Swap-with-last scan lemmas -/

theorem rotate_length {α : Type} {xs : List α} {lastE : α} (h : xs.getLast? = some lastE) :
    (lastE :: xs.dropLast).length = xs.length := by
  have h2 : xs.dropLast ++ [lastE] = xs := List.dropLast_append_getLast? lastE h
  have h3 : xs.dropLast.length + 1 = xs.length := by
    conv_rhs => rw [← h2]
    simp
  simpa using h3

theorem rotate_mem {α : Type} {xs : List α} {lastE : α} (h : xs.getLast? = some lastE)
    (a : α) : a ∈ lastE :: xs.dropLast ↔ a ∈ xs := by
  have h2 : xs.dropLast ++ [lastE] = xs := List.dropLast_append_getLast? lastE h
  constructor
  · intro hm
    rw [← h2]
    rcases List.mem_cons.mp hm with h3 | h3
    · exact List.mem_append.mpr (Or.inr (by simp [h3]))
    · exact List.mem_append.mpr (Or.inl h3)
  · intro hm
    rw [← h2] at hm
    rcases List.mem_append.mp hm with h3 | h3
    · exact List.mem_cons.mpr (Or.inr h3)
    · simp only [List.mem_singleton] at h3
      exact List.mem_cons.mpr (Or.inl h3)

theorem scanRemove_nil (pm : Nat × Nat → Bool) : scanRemove pm [] = ([], []) := rfl

theorem scanRemove_cons_neg (pm : Nat × Nat → Bool) (x : Nat × Nat) (xs : List (Nat × Nat))
    (h : pm x = false) :
    scanRemove pm (x :: xs) = ((x :: (scanRemove pm xs).1, (scanRemove pm xs).2)) := by
  simp [scanRemove, scanGo, h]

theorem scanRemove_cons_pos_nil (pm : Nat × Nat → Bool) (x : Nat × Nat) (h : pm x = true) :
    scanRemove pm [x] = ([], [x]) := by
  simp [scanRemove, scanGo, h]

theorem scanRemove_cons_pos (pm : Nat × Nat → Bool) (x lastE : Nat × Nat)
    (xs : List (Nat × Nat)) (h : pm x = true) (hl : xs.getLast? = some lastE) :
    scanRemove pm (x :: xs) =
      ((scanRemove pm (lastE :: xs.dropLast)).1,
        x :: (scanRemove pm (lastE :: xs.dropLast)).2) := by
  have hlen : (lastE :: xs.dropLast).length = xs.length := rotate_length hl
  simp only [scanRemove, List.length_cons, scanGo, h, hl, if_true, ← hlen]

theorem scanRemove_main (pm : Nat × Nat → Bool) : ∀ (n : Nat) (l : List (Nat × Nat)),
    l.length ≤ n →
    ((scanRemove pm l).1.length + (scanRemove pm l).2.length = l.length
      ∧ (∀ a, a ∈ (scanRemove pm l).1 ↔ a ∈ l ∧ pm a = false)
      ∧ (∀ a, a ∈ (scanRemove pm l).2 ↔ a ∈ l ∧ pm a = true)) := by
  intro n
  induction n with
  | zero =>
    intro l hl
    have : l = [] := List.length_eq_zero.mp (Nat.le_zero.mp hl)
    subst this
    simp [scanRemove_nil]
  | succ n ih =>
    intro l hl
    match l with
    | [] => simp [scanRemove_nil]
    | x :: xs =>
      by_cases hx : pm x = true
      · match hxl : xs.getLast? with
        | none =>
          have hxs : xs = [] := List.getLast?_eq_none_iff.mp hxl
          subst hxs
          rw [scanRemove_cons_pos_nil pm x hx]
          simp [hx]
        | some lastE =>
          rw [scanRemove_cons_pos pm x lastE xs hx hxl]
          have hlen : (lastE :: xs.dropLast).length = xs.length := rotate_length hxl
          have hle : (lastE :: xs.dropLast).length ≤ n := by
            rw [hlen]
            exact Nat.le_of_succ_le_succ (by simpa using hl)
          obtain ⟨ihlen, ihkeep, ihproc⟩ := ih (lastE :: xs.dropLast) hle
          refine ⟨?_, ?_, ?_⟩
          · rw [hlen] at ihlen
            simp only [List.length_cons]
            omega
          · intro a
            rw [ihkeep a, rotate_mem hxl a]
            constructor
            · intro ⟨h1, h2⟩
              exact ⟨List.mem_cons.mpr (Or.inr h1), h2⟩
            · intro ⟨h1, h2⟩
              rcases List.mem_cons.mp h1 with h3 | h3
              · subst h3
                rw [hx] at h2
                cases h2
              · exact ⟨h3, h2⟩
          · intro a
            simp only [List.mem_cons, ihproc a, rotate_mem hxl a]
            constructor
            · rintro (h1 | ⟨h1, h2⟩)
              · exact ⟨Or.inl h1, h1 ▸ hx⟩
              · exact ⟨Or.inr h1, h2⟩
            · rintro ⟨h1 | h1, h2⟩
              · exact Or.inl h1
              · exact Or.inr ⟨h1, h2⟩
      · have hx2 : pm x = false := eq_false_of_ne_true hx
        rw [scanRemove_cons_neg pm x xs hx2]
        have hle : xs.length ≤ n := Nat.le_of_succ_le_succ (by simpa using hl)
        obtain ⟨ihlen, ihkeep, ihproc⟩ := ih xs hle
        refine ⟨?_, ?_, ?_⟩
        · simp only [List.length_cons]
          omega
        · intro a
          simp only [List.mem_cons, ihkeep a]
          constructor
          · rintro (h1 | ⟨h1, h2⟩)
            · exact ⟨Or.inl h1, h1 ▸ hx2⟩
            · exact ⟨Or.inr h1, h2⟩
          · rintro ⟨h1 | h1, h2⟩
            · exact Or.inl h1
            · exact Or.inr ⟨h1, h2⟩
        · intro a
          rw [ihproc a]
          constructor
          · intro ⟨h1, h2⟩
            exact ⟨List.mem_cons.mpr (Or.inr h1), h2⟩
          · intro ⟨h1, h2⟩
            rcases List.mem_cons.mp h1 with h3 | h3
            · subst h3
              rw [hx2] at h2
              cases h2
            · exact ⟨h3, h2⟩

theorem scanRemove_length (pm : Nat × Nat → Bool) (l : List (Nat × Nat)) :
    (scanRemove pm l).1.length + (scanRemove pm l).2.length = l.length :=
  (scanRemove_main pm l.length l (Nat.le_refl _)).1

theorem scanRemove_mem_keep (pm : Nat × Nat → Bool) (l : List (Nat × Nat)) (a : Nat × Nat) :
    a ∈ (scanRemove pm l).1 ↔ a ∈ l ∧ pm a = false :=
  (scanRemove_main pm l.length l (Nat.le_refl _)).2.1 a

theorem scanRemove_mem_proc (pm : Nat × Nat → Bool) (l : List (Nat × Nat)) (a : Nat × Nat) :
    a ∈ (scanRemove pm l).2 ↔ a ∈ l ∧ pm a = true :=
  (scanRemove_main pm l.length l (Nat.le_refl _)).2.2 a

theorem scanRemove_all_neg (pm : Nat × Nat → Bool) : ∀ (n : Nat) (l : List (Nat × Nat)),
    l.length ≤ n → (∀ a ∈ l, pm a = false) → scanRemove pm l = (l, []) := by
  intro n
  induction n with
  | zero =>
    intro l hl _
    have : l = [] := List.length_eq_zero.mp (Nat.le_zero.mp hl)
    subst this
    rfl
  | succ n ih =>
    intro l hl hneg
    match l with
    | [] => rfl
    | x :: xs =>
      have hx : pm x = false := hneg x (List.mem_cons_self x xs)
      rw [scanRemove_cons_neg pm x xs hx,
        ih xs (Nat.le_of_succ_le_succ (by simpa using hl))
          (fun a ha => hneg a (List.mem_cons.mpr (Or.inr ha)))]

/-! ### State field bookkeeping -/

@[simp] theorem setThread_processes (s : State) (u : Nat) (f : ThreadRow → ThreadRow) :
    (s.setThread u f).processes = s.processes := rfl

@[simp] theorem setThread_tids (s : State) (u : Nat) (f : ThreadRow → ThreadRow) :
    (s.setThread u f).tids = s.tids := rfl

@[simp] theorem setThread_pids (s : State) (u : Nat) (f : ThreadRow → ThreadRow) :
    (s.setThread u f).pids = s.pids := rfl

@[simp] theorem setThread_prios (s : State) (u : Nat) (f : ThreadRow → ThreadRow) :
    (s.setThread u f).thread_name_priorities = s.thread_name_priorities := rfl

@[simp] theorem setThread_passocs (s : State) (u : Nat) (f : ThreadRow → ThreadRow) :
    (s.setThread u f).pending_assocs = s.pending_assocs := rfl

@[simp] theorem setThread_ppar (s : State) (u : Nat) (f : ThreadRow → ThreadRow) :
    (s.setThread u f).pending_parent_assocs = s.pending_parent_assocs := rfl

@[simp] theorem setThread_trusted (s : State) (u : Nat) (f : ThreadRow → ThreadRow) :
    (s.setThread u f).trusted_pids = s.trusted_pids := rfl

@[simp] theorem setThread_nsp (s : State) (u : Nat) (f : ThreadRow → ThreadRow) :
    (s.setThread u f).namespaced_processes = s.namespaced_processes := rfl

@[simp] theorem setThread_nst (s : State) (u : Nat) (f : ThreadRow → ThreadRow) :
    (s.setThread u f).namespaced_threads = s.namespaced_threads := rfl

@[simp] theorem setThread_errors (s : State) (u : Nat) (f : ThreadRow → ThreadRow) :
    (s.setThread u f).process_tracker_errors = s.process_tracker_errors := rfl

@[simp] theorem setThread_tlen (s : State) (u : Nat) (f : ThreadRow → ThreadRow) :
    (s.setThread u f).threads.length = s.threads.length := by
  simp [State.setThread]

@[simp] theorem setProc_threads (s : State) (p : Nat) (f : ProcessRow → ProcessRow) :
    (s.setProc p f).threads = s.threads := rfl

@[simp] theorem setProc_tids (s : State) (p : Nat) (f : ProcessRow → ProcessRow) :
    (s.setProc p f).tids = s.tids := rfl

@[simp] theorem setProc_pids (s : State) (p : Nat) (f : ProcessRow → ProcessRow) :
    (s.setProc p f).pids = s.pids := rfl

@[simp] theorem setProc_prios (s : State) (p : Nat) (f : ProcessRow → ProcessRow) :
    (s.setProc p f).thread_name_priorities = s.thread_name_priorities := rfl

@[simp] theorem setProc_passocs (s : State) (p : Nat) (f : ProcessRow → ProcessRow) :
    (s.setProc p f).pending_assocs = s.pending_assocs := rfl

@[simp] theorem setProc_ppar (s : State) (p : Nat) (f : ProcessRow → ProcessRow) :
    (s.setProc p f).pending_parent_assocs = s.pending_parent_assocs := rfl

@[simp] theorem setProc_trusted (s : State) (p : Nat) (f : ProcessRow → ProcessRow) :
    (s.setProc p f).trusted_pids = s.trusted_pids := rfl

@[simp] theorem setProc_nsp (s : State) (p : Nat) (f : ProcessRow → ProcessRow) :
    (s.setProc p f).namespaced_processes = s.namespaced_processes := rfl

@[simp] theorem setProc_nst (s : State) (p : Nat) (f : ProcessRow → ProcessRow) :
    (s.setProc p f).namespaced_threads = s.namespaced_threads := rfl

@[simp] theorem setProc_errors (s : State) (p : Nat) (f : ProcessRow → ProcessRow) :
    (s.setProc p f).process_tracker_errors = s.process_tracker_errors := rfl

@[simp] theorem setProc_plen (s : State) (p : Nat) (f : ProcessRow → ProcessRow) :
    (s.setProc p f).processes.length = s.processes.length := by
  simp [State.setProc]

theorem threadRow_setThread (s : State) (u : Nat) (f : ThreadRow → ThreadRow) (v : Nat) :
    (s.setThread u f).threadRow v =
      if v = u ∧ u < s.threads.length then f (s.threadRow u) else s.threadRow v := by
  by_cases h1 : v = u
  · subst h1
    by_cases h2 : v < s.threads.length
    · simp only [h2, and_true, if_pos rfl, State.setThread, State.threadRow]
      exact getD_set_self _ _ _ _ h2
    · simp only [h2, and_false, if_false, State.setThread, State.threadRow]
      rw [set_oob _ _ _ (Nat.le_of_not_lt h2)]
  · simp only [h1, false_and, if_false, State.setThread, State.threadRow]
    exact getD_set_ne _ _ _ _ _ h1

theorem procRow_setProc (s : State) (p : Nat) (f : ProcessRow → ProcessRow) (q : Nat) :
    (s.setProc p f).procRow q =
      if q = p ∧ p < s.processes.length then f (s.procRow p) else s.procRow q := by
  by_cases h1 : q = p
  · subst h1
    by_cases h2 : q < s.processes.length
    · simp only [h2, and_true, if_pos rfl, State.setProc, State.procRow]
      exact getD_set_self _ _ _ _ h2
    · simp only [h2, and_false, if_false, State.setProc, State.procRow]
      rw [set_oob _ _ _ (Nat.le_of_not_lt h2)]
  · simp only [h1, false_and, if_false, State.setProc, State.procRow]
    exact getD_set_ne _ _ _ _ _ h1

theorem threadRow_setProc (s : State) (p : Nat) (f : ProcessRow → ProcessRow) (v : Nat) :
    (s.setProc p f).threadRow v = s.threadRow v := rfl

theorem procRow_setThread (s : State) (u : Nat) (f : ThreadRow → ThreadRow) (q : Nat) :
    (s.setThread u f).procRow q = s.procRow q := rfl

/-- Generic preservation of a state projection by a left fold. -/
theorem foldl_proj {α β : Type} (proj : State → β) (g : State → α → State)
    (h : ∀ st a, proj (g st a) = proj st) :
    ∀ (l : List α) (st : State), proj (l.foldl g st) = proj st := by
  intro l
  induction l with
  | nil => intro st; rfl
  | cons x xs ih => intro st; rw [List.foldl_cons, ih, h]

/-! ### The frame of `ResolvePendingAssociations` -/

/-- Canonical value of a thread row after it was associated to process `P`
(what `AssociateThreadToProcess` writes). -/
def boundRow (s : State) (P u : Nat) : ThreadRow :=
  { s.threadRow u with
    upid := some P
    is_main_thread := some (s.threadTid u == s.procPid P) }

/-- Abstract description of everything `ResolvePendingAssociations` (and each
of its iterations) can do to the state while resolving towards upid `P`:
only thread rows (rebound to `P`), process parent links (set to `P`) and the
two pending buffers (entries removed) change. -/
structure Frame (P : Nat) (s t : State) : Prop where
  tids : t.tids = s.tids
  pids : t.pids = s.pids
  prios : t.thread_name_priorities = s.thread_name_priorities
  trusted : t.trusted_pids = s.trusted_pids
  nsp : t.namespaced_processes = s.namespaced_processes
  nst : t.namespaced_threads = s.namespaced_threads
  errors : t.process_tracker_errors = s.process_tracker_errors
  tlen : t.threads.length = s.threads.length
  plen : t.processes.length = s.processes.length
  trow : ∀ u, t.threadRow u = s.threadRow u ∨
    (u < s.threads.length ∧ t.threadRow u = boundRow s P u)
  prow : ∀ p, t.procRow p = s.procRow p ∨
    (p < s.processes.length ∧ t.procRow p = { s.procRow p with parent_upid := some P })
  passoc : ∀ e, e ∈ t.pending_assocs → e ∈ s.pending_assocs
  ppar : ∀ e, e ∈ t.pending_parent_assocs → e ∈ s.pending_parent_assocs

theorem Frame.refl (P : Nat) (s : State) : Frame P s s :=
  ⟨rfl, rfl, rfl, rfl, rfl, rfl, rfl, rfl, rfl,
    fun _ => Or.inl rfl, fun _ => Or.inl rfl, fun _ h => h, fun _ h => h⟩

theorem Frame.threadTid_eq {P : Nat} {s t : State} (fr : Frame P s t) (u : Nat) :
    t.threadTid u = s.threadTid u := by
  rcases fr.trow u with h | ⟨_, h⟩ <;>
    simp [State.threadTid, h, boundRow]

theorem Frame.threadEndTs_eq {P : Nat} {s t : State} (fr : Frame P s t) (u : Nat) :
    t.threadEndTs u = s.threadEndTs u := by
  rcases fr.trow u with h | ⟨_, h⟩ <;>
    simp [State.threadEndTs, h, boundRow]

theorem Frame.threadStartTs_eq {P : Nat} {s t : State} (fr : Frame P s t) (u : Nat) :
    t.threadStartTs u = s.threadStartTs u := by
  rcases fr.trow u with h | ⟨_, h⟩ <;>
    simp [State.threadStartTs, h, boundRow]

theorem Frame.threadName_eq {P : Nat} {s t : State} (fr : Frame P s t) (u : Nat) :
    t.threadName u = s.threadName u := by
  rcases fr.trow u with h | ⟨_, h⟩ <;>
    simp [State.threadName, h, boundRow]

theorem Frame.procPid_eq {P : Nat} {s t : State} (fr : Frame P s t) (p : Nat) :
    t.procPid p = s.procPid p := by
  rcases fr.prow p with h | ⟨_, h⟩ <;>
    simp [State.procPid, h]

theorem Frame.procEndTs_eq {P : Nat} {s t : State} (fr : Frame P s t) (p : Nat) :
    t.procEndTs p = s.procEndTs p := by
  rcases fr.prow p with h | ⟨_, h⟩ <;>
    simp [State.procEndTs, h]

theorem Frame.threadUpid_cases {P : Nat} {s t : State} (fr : Frame P s t) (u : Nat) :
    t.threadUpid u = s.threadUpid u ∨ t.threadUpid u = some P := by
  rcases fr.trow u with h | ⟨_, h⟩
  · exact Or.inl (by simp [State.threadUpid, h])
  · exact Or.inr (by simp [State.threadUpid, h, boundRow])

theorem Frame.threadUpid_bound {P : Nat} {s t : State} (fr : Frame P s t) (u : Nat)
    (h : s.threadUpid u = some P) : t.threadUpid u = some P := by
  rcases fr.threadUpid_cases u with h2 | h2
  · rw [h2, h]
  · exact h2

theorem boundRow_congr {P : Nat} {s t : State} (fr : Frame P s t) (u : Nat) :
    boundRow t P u = boundRow s P u := by
  unfold boundRow State.threadTid
  rcases fr.trow u with h | ⟨_, h⟩
  · rw [h, fr.procPid_eq P]
  · rw [h, fr.procPid_eq P]
    simp [boundRow]

theorem Frame.trans {P : Nat} {s t v : State} (f1 : Frame P s t) (f2 : Frame P t v) :
    Frame P s v := by
  refine ⟨f2.tids.trans f1.tids, f2.pids.trans f1.pids, f2.prios.trans f1.prios,
    f2.trusted.trans f1.trusted, f2.nsp.trans f1.nsp, f2.nst.trans f1.nst,
    f2.errors.trans f1.errors, f2.tlen.trans f1.tlen, f2.plen.trans f1.plen,
    ?_, ?_, fun e he => f1.passoc e (f2.passoc e he),
    fun e he => f1.ppar e (f2.ppar e he)⟩
  · intro u
    rcases f2.trow u with h | ⟨hu, h⟩
    · rw [h]
      exact f1.trow u
    · right
      refine ⟨by rw [← f1.tlen]; exact hu, ?_⟩
      rw [h, boundRow_congr f1 u]
  · intro p
    rcases f2.prow p with h | ⟨hp, h⟩
    · rw [h]
      exact f1.prow p
    · right
      refine ⟨by rw [← f1.plen]; exact hp, ?_⟩
      rw [h]
      rcases f1.prow p with h2 | ⟨_, h2⟩
      · rw [h2]
      · rw [h2]

theorem assoc_one_frame (P : Nat) (st : State) (x : Nat) :
    Frame P st (associateThreadToProcess st x P) := by
  refine ⟨rfl, rfl, rfl, rfl, rfl, rfl, rfl, by simp [associateThreadToProcess], rfl,
    ?_, fun _ => Or.inl rfl, fun _ h => h, fun _ h => h⟩
  intro v
  rw [associateThreadToProcess, threadRow_setThread]
  by_cases h : v = x ∧ x < st.threads.length
  · rw [if_pos h]
    right
    refine ⟨h.1 ▸ h.2, ?_⟩
    rw [h.1]
    rfl
  · rw [if_neg h]
    exact Or.inl rfl

theorem assoc_one_row_self (P : Nat) (st : State) (x : Nat) (h : x < st.threads.length) :
    (associateThreadToProcess st x P).threadRow x = boundRow st P x := by
  rw [associateThreadToProcess, threadRow_setThread, if_pos ⟨rfl, h⟩]
  rfl

theorem assoc_one_row_ne (P : Nat) (st : State) (x v : Nat) (h : v ≠ x) :
    (associateThreadToProcess st x P).threadRow v = st.threadRow v := by
  rw [associateThreadToProcess, threadRow_setThread, if_neg (fun hc => h hc.1)]

/-- Effect of the fold that associates every worklist partner to `P`. -/
theorem assocFold (P : Nat) : ∀ (l : List Nat) (st : State),
    Frame P st (l.foldl (fun st o => associateThreadToProcess st o P) st)
    ∧ (∀ u, u ∉ l →
        (l.foldl (fun st o => associateThreadToProcess st o P) st).threadRow u = st.threadRow u)
    ∧ (∀ u, u ∈ l → u < st.threads.length →
        (l.foldl (fun st o => associateThreadToProcess st o P) st).threadRow u = boundRow st P u) := by
  intro l
  induction l with
  | nil =>
    intro st
    exact ⟨Frame.refl P st, fun _ _ => rfl, fun u hu => absurd hu (List.not_mem_nil u)⟩
  | cons x xs ih =>
    intro st
    rw [List.foldl_cons]
    obtain ⟨ihf, ihun, ihbd⟩ := ih (associateThreadToProcess st x P)
    have f1 : Frame P st (associateThreadToProcess st x P) := assoc_one_frame P st x
    refine ⟨Frame.trans f1 ihf, ?_, ?_⟩
    · intro v hv
      have hvx : v ≠ x := fun hc => hv (hc ▸ List.mem_cons_self x xs)
      have hvxs : v ∉ xs := fun hc => hv (List.mem_cons.mpr (Or.inr hc))
      rw [ihun v hvxs, assoc_one_row_ne P st x v hvx]
    · intro v hv hlt
      by_cases hvxs : v ∈ xs
      · have hlt2 : v < (associateThreadToProcess st x P).threads.length := by
          rw [f1.tlen]
          exact hlt
        rw [ihbd v hvxs hlt2, boundRow_congr f1 v]
      · have hvx : v = x := by
          rcases List.mem_cons.mp hv with h | h
          · exact h
          · exact absurd h hvxs
        subst hvx
        rw [ihun v hvxs, assoc_one_row_self P st v hlt]

/-- Effect of the fold that sets the parent upid of every pending child to `P`. -/
theorem parentFold (P : Nat) : ∀ (l : List (Nat × Nat)) (st : State),
    Frame P st
      (l.foldl (fun st e => st.setProc e.2 (fun r => { r with parent_upid := some P })) st) := by
  intro l
  induction l with
  | nil => intro st; exact Frame.refl P st
  | cons x xs ih =>
    intro st
    rw [List.foldl_cons]
    refine Frame.trans ?_ (ih _)
    refine ⟨rfl, rfl, rfl, rfl, rfl, rfl, rfl, rfl, by simp,
      fun _ => Or.inl rfl, ?_, fun _ h => h, fun _ h => h⟩
    intro q
    rw [procRow_setProc]
    by_cases h : q = x.2 ∧ x.2 < st.processes.length
    · rw [if_pos h]
      right
      exact ⟨h.1 ▸ h.2, by rw [h.1]⟩
    · rw [if_neg h]
      exact Or.inl rfl

/-- The predicate used by the `pending_assocs_` scan of the loop body. -/
def paPred (u : Nat) : Nat × Nat → Bool := fun e => e.1 == u || e.2 == u

/-- The predicate used by the `pending_parent_assocs_` scan of the loop body. -/
def ppPred (u : Nat) : Nat × Nat → Bool := fun e => e.1 == u

/-- The partner utid of a processed pending-assoc entry. -/
def pickOther (u : Nat) (e : Nat × Nat) : Nat := if e.1 == u then e.2 else e.1

theorem resolveStep_facts (P : Nat) (s : State) (u : Nat) :
    Frame P s (resolveStep P s u).1
    ∧ (resolveStep P s u).1.pending_assocs.length + (resolveStep P s u).2.length
        = s.pending_assocs.length
    ∧ (∀ e, e ∈ (resolveStep P s u).1.pending_assocs ↔
        e ∈ s.pending_assocs ∧ paPred u e = false)
    ∧ (∀ e, e ∈ (resolveStep P s u).1.pending_parent_assocs ↔
        e ∈ s.pending_parent_assocs ∧ ppPred u e = false)
    ∧ (∀ x, x ∈ (resolveStep P s u).2 ↔
        ∃ e, e ∈ s.pending_assocs ∧ paPred u e = true ∧ x = pickOther u e)
    ∧ (∀ x, x ∈ (resolveStep P s u).2 → x < s.threads.length →
        (resolveStep P s u).1.threadUpid x = some P)
    ∧ (∀ v, v ∉ (resolveStep P s u).2 →
        (resolveStep P s u).1.threadRow v = s.threadRow v) := by
  set pp := scanRemove (ppPred u) s.pending_parent_assocs with hpp
  set s1 : State := { s with pending_parent_assocs := pp.1 } with hs1
  set s2 := pp.2.foldl
    (fun st e => st.setProc e.2 (fun r => { r with parent_upid := some P })) s1 with hs2
  have hs2passoc : s2.pending_assocs = s.pending_assocs := by
    rw [hs2]
    exact foldl_proj State.pending_assocs
      (fun st e => st.setProc e.2 (fun r => { r with parent_upid := some P }))
      (fun _ _ => rfl) pp.2 s1
  have hs2ppar : s2.pending_parent_assocs = pp.1 := by
    rw [hs2]
    exact foldl_proj State.pending_parent_assocs
      (fun st e => st.setProc e.2 (fun r => { r with parent_upid := some P }))
      (fun _ _ => rfl) pp.2 s1
  have hs2threads : s2.threads = s.threads := by
    rw [hs2]
    exact foldl_proj State.threads
      (fun st e => st.setProc e.2 (fun r => { r with parent_upid := some P }))
      (fun _ _ => rfl) pp.2 s1
  set pa := scanRemove (paPred u) s2.pending_assocs with hpa
  set others := pa.2.map (pickOther u) with hothers
  set s3 : State := { s2 with pending_assocs := pa.1 } with hs3
  set s4 := others.foldl (fun st o => associateThreadToProcess st o P) s3 with hs4
  have hfst : (resolveStep P s u).1 = s4 := rfl
  have hsnd : (resolveStep P s u).2 = others := rfl
  rw [hfst, hsnd]
  have frame1 : Frame P s s1 := by
    refine ⟨rfl, rfl, rfl, rfl, rfl, rfl, rfl, rfl, rfl,
      fun _ => Or.inl rfl, fun _ => Or.inl rfl, fun e he => he, ?_⟩
    intro e he
    exact ((scanRemove_mem_keep (ppPred u) s.pending_parent_assocs e).mp he).1
  have frame2 : Frame P s1 s2 := hs2 ▸ parentFold P pp.2 s1
  have frame3 : Frame P s2 s3 := by
    refine ⟨rfl, rfl, rfl, rfl, rfl, rfl, rfl, rfl, rfl,
      fun _ => Or.inl rfl, fun _ => Or.inl rfl, ?_, fun e he => he⟩
    intro e he
    exact ((scanRemove_mem_keep (paPred u) s2.pending_assocs e).mp he).1
  obtain ⟨frame4, hs4un, hs4bd⟩ := assocFold P others s3
  rw [← hs4] at frame4 hs4un hs4bd
  have frameAll : Frame P s s4 :=
    Frame.trans frame1 (Frame.trans frame2 (Frame.trans frame3 frame4))
  have hs4passoc : s4.pending_assocs = pa.1 := by
    rw [hs4]
    exact foldl_proj State.pending_assocs
      (fun st o => associateThreadToProcess st o P) (fun _ _ => rfl) others s3
  have hs4ppar : s4.pending_parent_assocs = pp.1 := by
    rw [hs4]
    have h0 : s3.pending_parent_assocs = pp.1 := hs2ppar
    rw [foldl_proj State.pending_parent_assocs
      (fun st o => associateThreadToProcess st o P) (fun _ _ => rfl) others s3]
    exact h0
  have hs3threads : s3.threads = s.threads := hs2threads
  refine ⟨frameAll, ?_, ?_, ?_, ?_, ?_, ?_⟩
  · rw [hs4passoc, hothers, List.length_map]
    rw [← hs2passoc]
    exact scanRemove_length (paPred u) s2.pending_assocs
  · intro e
    rw [hs4passoc, scanRemove_mem_keep, hs2passoc]
  · intro e
    rw [hs4ppar, scanRemove_mem_keep]
  · intro x
    rw [hothers]
    constructor
    · intro hx
      obtain ⟨e, he, hx2⟩ := List.mem_map.mp hx
      obtain ⟨he1, he2⟩ := (scanRemove_mem_proc (paPred u) s2.pending_assocs e).mp he
      exact ⟨e, hs2passoc ▸ he1, he2, hx2.symm⟩
    · intro ⟨e, he1, he2, hx⟩
      refine List.mem_map.mpr ⟨e, ?_, hx.symm⟩
      exact (scanRemove_mem_proc (paPred u) s2.pending_assocs e).mpr ⟨hs2passoc ▸ he1, he2⟩
  · intro x hx hlt
    have hlt3 : x < s3.threads.length := by
      rw [hs3threads]
      exact hlt
    have hrow := hs4bd x hx hlt3
    rw [State.threadUpid, hrow, boundRow]
  · intro v hv
    have hrow := hs4un v hv
    have h3 : s3.threadRow v = s.threadRow v := by
      unfold State.threadRow
      rw [hs3threads]
    rw [hrow, h3]

theorem resolveGo_fuel (P : Nat) : ∀ (f1 f2 : Nat) (s : State) (w : List Nat),
    w.length + 2 * s.pending_assocs.length ≤ f1 →
    w.length + 2 * s.pending_assocs.length ≤ f2 →
    resolveGo P f1 s w = resolveGo P f2 s w := by
  intro f1
  induction f1 with
  | zero =>
    intro f2 s w h1 _
    have hw : w = [] := by
      cases w with
      | nil => rfl
      | cons x xs => simp [List.length_cons] at h1
    subst hw
    cases f2 <;> rfl
  | succ n ih =>
    intro f2 s w h1 h2
    cases w with
    | nil => cases f2 <;> rfl
    | cons utid rest =>
      cases f2 with
      | zero => simp [List.length_cons] at h2
      | succ m =>
        show resolveGo P (n + 1) s (utid :: rest) = resolveGo P (m + 1) s (utid :: rest)
        simp only [resolveGo]
        have hlen := (resolveStep_facts P s utid).2.1
        apply ih
        · simp only [List.length_append, List.length_reverse, List.length_cons] at h1 ⊢
          omega
        · simp only [List.length_append, List.length_reverse, List.length_cons] at h2 ⊢
          omega

theorem resolveGo_nil (P f : Nat) (s : State) : resolveGo P f s [] = s := by
  cases f <;> rfl

theorem resolveLoop_nil (P : Nat) (s : State) : resolveLoop P s [] = s :=
  resolveGo_nil P _ s

theorem resolveLoop_cons (P : Nat) (s : State) (utid : Nat) (rest : List Nat) :
    resolveLoop P s (utid :: rest) =
      resolveLoop P (resolveStep P s utid).1 ((resolveStep P s utid).2.reverse ++ rest) := by
  unfold resolveLoop
  have h1 : (utid :: rest).length + 2 * s.pending_assocs.length
      = (rest.length + 2 * s.pending_assocs.length) + 1 := by
    simp [List.length_cons]
    omega
  rw [h1]
  show resolveGo P ((rest.length + 2 * s.pending_assocs.length) + 1) s (utid :: rest) = _
  simp only [resolveGo]
  have hlen := (resolveStep_facts P s utid).2.1
  apply resolveGo_fuel
  · simp only [List.length_append, List.length_reverse]
    omega
  · exact Nat.le_refl _

/-- The measure that bounds the number of worklist iterations. -/
def rMeasure (s : State) (w : List Nat) : Nat :=
  w.length + 2 * s.pending_assocs.length

theorem resolveLoop_frame (P : Nat) : ∀ (n : Nat) (s : State) (w : List Nat),
    rMeasure s w ≤ n → Frame P s (resolveLoop P s w) := by
  intro n
  induction n with
  | zero =>
    intro s w h
    have hw : w = [] := by
      cases w with
      | nil => rfl
      | cons x xs => simp [rMeasure, List.length_cons] at h
    subst hw
    rw [resolveLoop_nil]
    exact Frame.refl P s
  | succ n ih =>
    intro s w h
    cases w with
    | nil =>
      rw [resolveLoop_nil]
      exact Frame.refl P s
    | cons utid rest =>
      rw [resolveLoop_cons]
      obtain ⟨fr, hlen, _⟩ := resolveStep_facts P s utid
      refine Frame.trans fr (ih _ _ ?_)
      simp only [rMeasure, List.length_append, List.length_reverse, List.length_cons] at h ⊢
      omega

theorem resolveLoop_frame_all (P : Nat) (s : State) (w : List Nat) :
    Frame P s (resolveLoop P s w) :=
  resolveLoop_frame P (rMeasure s w) s w (Nat.le_refl _)

theorem resolvePendingAssociations_frame (s : State) (utid P : Nat) :
    Frame P s (resolvePendingAssociations s utid P) :=
  resolveLoop_frame_all P s [utid]

/-- Loop invariant of the pending-assoc buffer during resolution towards `P`:
an entry is intact (both sides unbound, or both sides bound to one process),
or the side freshly bound to `P` is still on the worklist. -/
def entryOK (s : State) (P : Nat) (w : List Nat) (e : Nat × Nat) : Prop :=
  (s.threadUpid e.1 = none ∧ s.threadUpid e.2 = none)
  ∨ (∃ Q, s.threadUpid e.1 = some Q ∧ s.threadUpid e.2 = some Q)
  ∨ (s.threadUpid e.1 = some P ∧ s.threadUpid e.2 = none ∧ e.1 ∈ w)
  ∨ (s.threadUpid e.2 = some P ∧ s.threadUpid e.1 = none ∧ e.2 ∈ w)

theorem paPred_false_ne {u : Nat} {e : Nat × Nat} (h : paPred u e = false) :
    e.1 ≠ u ∧ e.2 ≠ u := by
  unfold paPred at h
  rw [Bool.or_eq_false_iff] at h
  exact ⟨by simpa using h.1, by simpa using h.2⟩

theorem resolveLoop_pend (P : Nat) : ∀ (n : Nat) (s : State) (w : List Nat),
    rMeasure s w ≤ n →
    (∀ x ∈ w, x < s.threads.length ∧ s.threadUpid x = some P) →
    (∀ e ∈ s.pending_assocs, e.1 < s.threads.length ∧ e.2 < s.threads.length) →
    (∀ e ∈ s.pending_assocs, entryOK s P w e) →
    ∀ e ∈ (resolveLoop P s w).pending_assocs,
      ((resolveLoop P s w).threadUpid e.1 = none ∧ (resolveLoop P s w).threadUpid e.2 = none)
      ∨ ∃ Q, (resolveLoop P s w).threadUpid e.1 = some Q
          ∧ (resolveLoop P s w).threadUpid e.2 = some Q := by
  intro n
  induction n with
  | zero =>
    intro s w hm hw hb hOK e he
    have hw0 : w = [] := by
      cases w with
      | nil => rfl
      | cons x xs => simp [rMeasure, List.length_cons] at hm
    subst hw0
    rw [resolveLoop_nil] at he ⊢
    rcases hOK e he with h | h | h | h
    · exact Or.inl h
    · exact Or.inr h
    · exact absurd h.2.2 (List.not_mem_nil _)
    · exact absurd h.2.2 (List.not_mem_nil _)
  | succ n ih =>
    intro s w hm hw hb hOK
    cases w with
    | nil =>
      intro e he
      rw [resolveLoop_nil] at he ⊢
      rcases hOK e he with h | h | h | h
      · exact Or.inl h
      · exact Or.inr h
      · exact absurd h.2.2 (List.not_mem_nil _)
      · exact absurd h.2.2 (List.not_mem_nil _)
    | cons utid rest =>
      rw [resolveLoop_cons]
      obtain ⟨fr, hlen, hpa, _, hoth, hbound, hun⟩ := resolveStep_facts P s utid
      have hwu : s.threadUpid utid = some P := (hw utid (List.mem_cons_self utid rest)).2
      have hosBound : ∀ x ∈ (resolveStep P s utid).2, x < s.threads.length := by
        intro x hx
        obtain ⟨e0, he0, _, hx0⟩ := (hoth x).mp hx
        obtain ⟨hb1, hb2⟩ := hb e0 he0
        rw [hx0]
        unfold pickOther
        by_cases h01 : (e0.1 == utid) = true
        · rw [if_pos h01]; exact hb2
        · rw [if_neg h01]; exact hb1
      have hosUpid : ∀ x ∈ (resolveStep P s utid).2,
          (resolveStep P s utid).1.threadUpid x = some P := fun x hx =>
        hbound x hx (hosBound x hx)
      have hUnch : ∀ x, x ∉ (resolveStep P s utid).2 →
          (resolveStep P s utid).1.threadUpid x = s.threadUpid x := by
        intro x hx
        unfold State.threadUpid
        rw [hun x hx]
      have hpartnerOld : ∀ x ∈ (resolveStep P s utid).2,
          s.threadUpid x = none ∨ s.threadUpid x = some P := by
        intro x hx
        obtain ⟨e0, he0, hp0, hx0⟩ := (hoth x).mp hx
        by_cases h01 : (e0.1 == utid) = true
        · have he01 : e0.1 = utid := (by simpa using h01 : e0.1 = utid)
          have hx2 : x = e0.2 := by rw [hx0]; unfold pickOther; rw [if_pos h01]
          subst hx2
          rcases hOK e0 he0 with h | ⟨Q, hq1, hq2⟩ | h | h
          · rw [he01, hwu] at h
            exact absurd h.1 (by simp)
          · rw [he01, hwu] at hq1
            rw [hq2, ← Option.some_inj.mp hq1]
            exact Or.inr rfl
          · exact Or.inl h.2.1
          · exact Or.inr h.1
        · have h02 : (e0.2 == utid) = true := by
            unfold paPred at hp0
            rcases Bool.or_eq_true_iff.mp hp0 with h | h
            · exact absurd h h01
            · exact h
          have he02 : e0.2 = utid := (by simpa using h02 : e0.2 = utid)
          have hx2 : x = e0.1 := by rw [hx0]; unfold pickOther; rw [if_neg h01]
          subst hx2
          rcases hOK e0 he0 with h | ⟨Q, hq1, hq2⟩ | h | h
          · rw [he02, hwu] at h
            exact absurd h.2 (by simp)
          · rw [he02, hwu] at hq2
            rw [hq1, ← Option.some_inj.mp hq2]
            exact Or.inr rfl
          · rw [he02, hwu] at h
            exact absurd h.2.1 (by simp)
          · exact Or.inl h.2.1
      have hmemw : ∀ x ∈ (resolveStep P s utid).2,
          x ∈ (resolveStep P s utid).2.reverse ++ rest := by
        intro x hx
        exact List.mem_append.mpr (Or.inl (List.mem_reverse.mpr hx))
      apply ih
      · simp only [rMeasure, List.length_append, List.length_reverse, List.length_cons]
          at hm ⊢
        omega
      · intro x hx
        rcases List.mem_append.mp hx with h | h
        · have h2 := List.mem_reverse.mp h
          refine ⟨?_, hosUpid x h2⟩
          rw [fr.tlen]
          exact hosBound x h2
        · obtain ⟨hlt, hup⟩ := hw x (List.mem_cons.mpr (Or.inr h))
          refine ⟨by rw [fr.tlen]; exact hlt, Frame.threadUpid_bound fr x hup⟩
      · intro e he
        obtain ⟨he1, _⟩ := (hpa e).mp he
        obtain ⟨h1, h2⟩ := hb e he1
        rw [fr.tlen]
        exact ⟨h1, h2⟩
      · intro e he
        obtain ⟨heOld, hpf⟩ := (hpa e).mp he
        obtain ⟨hne1, hne2⟩ := paPred_false_ne hpf
        by_cases h1 : e.1 ∈ (resolveStep P s utid).2 <;>
          by_cases h2 : e.2 ∈ (resolveStep P s utid).2
        · exact Or.inr (Or.inl ⟨P, hosUpid e.1 h1, hosUpid e.2 h2⟩)
        · rcases hOK e heOld with h | ⟨Q, hq1, hq2⟩ | h | h
          · exact Or.inr (Or.inr (Or.inl
              ⟨hosUpid e.1 h1, (hUnch e.2 h2).trans h.2, hmemw e.1 h1⟩))
          · rcases hpartnerOld e.1 h1 with hc | hc
            · rw [hq1] at hc
              cases hc
            · rw [hq1] at hc
              have hQP : Q = P := Option.some_inj.mp hc
              refine Or.inr (Or.inl ⟨P, hosUpid e.1 h1, ?_⟩)
              rw [hUnch e.2 h2, hq2, hQP]
          · exact Or.inr (Or.inr (Or.inl
              ⟨hosUpid e.1 h1, (hUnch e.2 h2).trans h.2.1, hmemw e.1 h1⟩))
          · refine Or.inr (Or.inl ⟨P, hosUpid e.1 h1, ?_⟩)
            rw [hUnch e.2 h2, h.1]
        · rcases hOK e heOld with h | ⟨Q, hq1, hq2⟩ | h | h
          · exact Or.inr (Or.inr (Or.inr
              ⟨hosUpid e.2 h2, (hUnch e.1 h1).trans h.1, hmemw e.2 h2⟩))
          · rcases hpartnerOld e.2 h2 with hc | hc
            · rw [hq2] at hc
              cases hc
            · rw [hq2] at hc
              have hQP : Q = P := Option.some_inj.mp hc
              refine Or.inr (Or.inl ⟨P, ?_, hosUpid e.2 h2⟩)
              rw [hUnch e.1 h1, hq1, hQP]
          · refine Or.inr (Or.inl ⟨P, ?_, hosUpid e.2 h2⟩)
            rw [hUnch e.1 h1, h.1]
          · exact Or.inr (Or.inr (Or.inr
              ⟨hosUpid e.2 h2, (hUnch e.1 h1).trans h.2.1, hmemw e.2 h2⟩))
        · rcases hOK e heOld with h | ⟨Q, hq1, hq2⟩ | h | h
          · exact Or.inl ⟨(hUnch e.1 h1).trans h.1, (hUnch e.2 h2).trans h.2⟩
          · exact Or.inr (Or.inl ⟨Q, (hUnch e.1 h1).trans hq1, (hUnch e.2 h2).trans hq2⟩)
          · have hw1 : e.1 ∈ rest := by
              rcases List.mem_cons.mp h.2.2 with hc | hc
              · exact absurd hc hne1
              · exact hc
            exact Or.inr (Or.inr (Or.inl
              ⟨(hUnch e.1 h1).trans h.1, (hUnch e.2 h2).trans h.2.1,
                List.mem_append.mpr (Or.inr hw1)⟩))
          · have hw2 : e.2 ∈ rest := by
              rcases List.mem_cons.mp h.2.2 with hc | hc
              · exact absurd hc hne2
              · exact hc
            exact Or.inr (Or.inr (Or.inr
              ⟨(hUnch e.2 h2).trans h.1, (hUnch e.1 h1).trans h.2.1,
                List.mem_append.mpr (Or.inr hw2)⟩))

/-- Connectivity of two utids through the undirected graph formed by
pending-assoc entries. -/
inductive Reach (l : List (Nat × Nat)) : Nat → Nat → Prop where
  | refl (x : Nat) : Reach l x x
  | step {x y z : Nat} : ((x, y) ∈ l ∨ (y, x) ∈ l) → Reach l y z → Reach l x z

theorem reach_no_edge {l : List (Nat × Nat)} {u v : Nat}
    (hl : ∀ e ∈ l, e.1 ≠ u ∧ e.2 ≠ u) (h : Reach l u v) : v = u := by
  cases h with
  | refl => rfl
  | step hedge _ =>
    rcases hedge with he | he
    · exact absurd rfl (hl _ he).1
    · exact absurd rfl (hl _ he).2

theorem reach_decomp {E E2 : List (Nat × Nat)} {others : List Nat} {u : Nat}
    (hE2 : ∀ e, e ∈ E2 ↔ e ∈ E ∧ paPred u e = false)
    (hoth : ∀ z, z ≠ u → ((u, z) ∈ E ∨ (z, u) ∈ E) → z ∈ others) :
    ∀ x v, Reach E x v → v = u ∨ ∃ y, (y = x ∨ y ∈ others) ∧ Reach E2 y v := by
  have hnoe : ∀ e ∈ E2, e.1 ≠ u ∧ e.2 ≠ u := fun e he =>
    paPred_false_ne ((hE2 e).mp he).2
  intro x v h
  induction h with
  | refl x => exact Or.inr ⟨x, Or.inl rfl, Reach.refl x⟩
  | @step x y z hedge htail ihtail =>
    rcases ihtail with hdone | ⟨w, hw, hreach⟩
    · exact Or.inl hdone
    · rcases hw with hw | hw
      · rw [hw] at hreach
        by_cases hyu : y = u
        · rw [hyu] at hreach
          exact Or.inl (reach_no_edge hnoe hreach)
        · by_cases hxu : x = u
          · refine Or.inr ⟨y, Or.inr (hoth y hyu ?_), hreach⟩
            rw [← hxu]
            exact hedge
          · have hedge2 : (x, y) ∈ E2 ∨ (y, x) ∈ E2 := by
              rcases hedge with he | he
              · refine Or.inl ((hE2 _).mpr ⟨he, ?_⟩)
                unfold paPred
                simp [hxu, hyu]
              · refine Or.inr ((hE2 _).mpr ⟨he, ?_⟩)
                unfold paPred
                simp [hxu, hyu]
            exact Or.inr ⟨x, Or.inl rfl, Reach.step hedge2 hreach⟩
      · exact Or.inr ⟨w, Or.inr hw, hreach⟩

theorem resolveLoop_reach (P : Nat) : ∀ (n : Nat) (s : State) (w : List Nat),
    rMeasure s w ≤ n →
    (∀ x ∈ w, x < s.threads.length ∧ s.threadUpid x = some P) →
    (∀ e ∈ s.pending_assocs, e.1 < s.threads.length ∧ e.2 < s.threads.length) →
    ∀ x v, x ∈ w → Reach s.pending_assocs x v →
      (resolveLoop P s w).threadUpid v = some P := by
  intro n
  induction n with
  | zero =>
    intro s w hm _ _ x v hx _
    have hw0 : w = [] := by
      cases w with
      | nil => rfl
      | cons a as => simp [rMeasure, List.length_cons] at hm
    subst hw0
    exact absurd hx (List.not_mem_nil x)
  | succ n ih =>
    intro s w hm hw hb
    cases w with
    | nil =>
      intro x v hx _
      exact absurd hx (List.not_mem_nil x)
    | cons utid rest =>
      rw [resolveLoop_cons]
      obtain ⟨fr, hlen, hpa, _, hoth, hbound, hun⟩ := resolveStep_facts P s utid
      have hosBound : ∀ x ∈ (resolveStep P s utid).2, x < s.threads.length := by
        intro x hx
        obtain ⟨e0, he0, _, hx0⟩ := (hoth x).mp hx
        obtain ⟨hb1, hb2⟩ := hb e0 he0
        rw [hx0]
        unfold pickOther
        by_cases h01 : (e0.1 == utid) = true
        · rw [if_pos h01]; exact hb2
        · rw [if_neg h01]; exact hb1
      have hosUpid : ∀ x ∈ (resolveStep P s utid).2,
          (resolveStep P s utid).1.threadUpid x = some P := fun x hx =>
        hbound x hx (hosBound x hx)
      have hwAll : ∀ x ∈ (resolveStep P s utid).2.reverse ++ rest,
          x < (resolveStep P s utid).1.threads.length
            ∧ (resolveStep P s utid).1.threadUpid x = some P := by
        intro x hx
        rcases List.mem_append.mp hx with h | h
        · have h2 := List.mem_reverse.mp h
          exact ⟨by rw [fr.tlen]; exact hosBound x h2, hosUpid x h2⟩
        · obtain ⟨hlt, hup⟩ := hw x (List.mem_cons.mpr (Or.inr h))
          exact ⟨by rw [fr.tlen]; exact hlt, Frame.threadUpid_bound fr x hup⟩
      have hbAll : ∀ e ∈ (resolveStep P s utid).1.pending_assocs,
          e.1 < (resolveStep P s utid).1.threads.length
            ∧ e.2 < (resolveStep P s utid).1.threads.length := by
        intro e he
        obtain ⟨he1, _⟩ := (hpa e).mp he
        obtain ⟨h1, h2⟩ := hb e he1
        rw [fr.tlen]
        exact ⟨h1, h2⟩
      have hmAll : rMeasure (resolveStep P s utid).1
          ((resolveStep P s utid).2.reverse ++ rest) ≤ n := by
        simp only [rMeasure, List.length_append, List.length_reverse, List.length_cons]
          at hm ⊢
        omega
      have hothz : ∀ z, z ≠ utid →
          ((utid, z) ∈ s.pending_assocs ∨ (z, utid) ∈ s.pending_assocs) →
          z ∈ (resolveStep P s utid).2 := by
        intro z hz hedge
        rcases hedge with he | he
        · refine (hoth z).mpr ⟨(utid, z), he, ?_, ?_⟩
          · unfold paPred; simp
          · unfold pickOther; simp
        · refine (hoth z).mpr ⟨(z, utid), he, ?_, ?_⟩
          · unfold paPred; simp
          · unfold pickOther
            simp [hz]
      intro x v hx hreach
      rcases reach_decomp hpa hothz x v hreach with hv | ⟨y, hy, hreach2⟩
      · rw [hv]
        have h1 : (resolveStep P s utid).1.threadUpid utid = some P :=
          Frame.threadUpid_bound fr utid (hw utid (List.mem_cons_self utid rest)).2
        exact Frame.threadUpid_bound (resolveLoop_frame_all P _ _) utid h1
      · rcases hy with hy | hy
        · rw [hy] at hreach2
          rcases List.mem_cons.mp hx with hxu | hxr
          · rw [hxu] at hreach2
            have hnoe : ∀ e ∈ (resolveStep P s utid).1.pending_assocs,
                e.1 ≠ utid ∧ e.2 ≠ utid := fun e he => paPred_false_ne ((hpa e).mp he).2
            have hv : v = utid := reach_no_edge hnoe hreach2
            rw [hv]
            have h1 : (resolveStep P s utid).1.threadUpid utid = some P :=
              Frame.threadUpid_bound fr utid (hw utid (List.mem_cons_self utid rest)).2
            exact Frame.threadUpid_bound (resolveLoop_frame_all P _ _) utid h1
          · exact ih _ _ hmAll hwAll hbAll x v
              (List.mem_append.mpr (Or.inr hxr)) hreach2
        · exact ih _ _ hmAll hwAll hbAll y v
            (List.mem_append.mpr (Or.inl (List.mem_reverse.mpr hy))) hreach2

/-- Binding a thread to a process and resolving drains the whole connected
component: this is the composition `AssociateThreadToProcess` followed by
`ResolvePendingAssociations` through which every binding operation
(`UpdateThread`, `AssociateThreads` with one bound side) goes. -/
theorem bindResolve_reach (s : State) (x P v : Nat)
    (hx : x < s.threads.length)
    (hb : ∀ e ∈ s.pending_assocs, e.1 < s.threads.length ∧ e.2 < s.threads.length)
    (hreach : Reach s.pending_assocs x v) :
    (resolvePendingAssociations (associateThreadToProcess s x P) x P).threadUpid v
      = some P := by
  have h1 : (associateThreadToProcess s x P).pending_assocs = s.pending_assocs := rfl
  have h2 : (associateThreadToProcess s x P).threads.length = s.threads.length := by
    simp [associateThreadToProcess]
  have h3 : (associateThreadToProcess s x P).threadUpid x = some P := by
    unfold State.threadUpid
    rw [assoc_one_row_self P s x hx, boundRow]
  unfold resolvePendingAssociations
  refine resolveLoop_reach P (rMeasure (associateThreadToProcess s x P) [x]) _ [x]
    (Nat.le_refl _) ?_ ?_ x v (List.mem_cons_self x []) ?_
  · intro y hy
    rcases List.mem_cons.mp hy with hy | hy
    · subst hy
      exact ⟨by rw [h2]; exact hx, h3⟩
    · exact absurd hy (List.not_mem_nil y)
  · intro e he
    rw [h1] at he
    rw [h2]
    exact hb e he
  · rw [h1]
    exact hreach

theorem resolveStep_noop (P : Nat) (s : State) (u : Nat)
    (h1 : ∀ e ∈ s.pending_assocs, e.1 ≠ u ∧ e.2 ≠ u)
    (h2 : ∀ e ∈ s.pending_parent_assocs, e.1 ≠ u) :
    resolveStep P s u = (s, []) := by
  have e1 : scanRemove (ppPred u) s.pending_parent_assocs = (s.pending_parent_assocs, []) := by
    refine scanRemove_all_neg (ppPred u) s.pending_parent_assocs.length _ (Nat.le_refl _) ?_
    intro a ha
    unfold ppPred
    simp [h2 a ha]
  have e2 : scanRemove (paPred u) s.pending_assocs = (s.pending_assocs, []) := by
    refine scanRemove_all_neg (paPred u) s.pending_assocs.length _ (Nat.le_refl _) ?_
    intro a ha
    unfold paPred
    simp [(h1 a ha).1, (h1 a ha).2]
  show (let pp := scanRemove (ppPred u) s.pending_parent_assocs
    let s1 : State := { s with pending_parent_assocs := pp.1 }
    let s2 := pp.2.foldl
      (fun st e => st.setProc e.2 (fun r => { r with parent_upid := some P })) s1
    let pa := scanRemove (paPred u) s2.pending_assocs
    let others := pa.2.map (pickOther u)
    let s3 : State := { s2 with pending_assocs := pa.1 }
    (others.foldl (fun st o => associateThreadToProcess st o P) s3, others)) = (s, [])
  simp only [e1, e2, List.foldl_nil, List.map_nil]

theorem resolve_noop (s : State) (u P : Nat)
    (h1 : ∀ e ∈ s.pending_assocs, e.1 ≠ u ∧ e.2 ≠ u)
    (h2 : ∀ e ∈ s.pending_parent_assocs, e.1 ≠ u) :
    resolvePendingAssociations s u P = s := by
  unfold resolvePendingAssociations resolveLoop
  rw [resolveGo_fuel P _ (0 + 2 * s.pending_assocs.length + 1) s [u]
    (Nat.le_refl _) (by simp [List.length_cons]; omega)]
  show resolveGo P (0 + 2 * s.pending_assocs.length + 1) s (u :: []) = s
  simp only [resolveGo]
  rw [resolveStep_noop P s u h1 h2]
  exact resolveGo_nil P _ s

/-! ### The global invariant -/

/-- Global invariant of the tracker state, preserved by every public call. -/
structure Inv (s : State) : Prop where
  plen : s.thread_name_priorities.length = s.threads.length
  tidsOK : ∀ t l, s.tids t = some l → ∀ u ∈ l,
    u < s.threads.length ∧ s.threadTid u = t ∧ s.threadEndTs u = none
  upidRange : ∀ u, u < s.threads.length → ∀ P, s.threadUpid u = some P →
    P < s.processes.length
  mainFlag : ∀ u, u < s.threads.length → ∀ P, s.threadUpid u = some P →
    s.threadIsMain u = some (s.threadTid u == s.procPid P)
  pendOK : ∀ e ∈ s.pending_assocs, e.1 < s.threads.length ∧ e.2 < s.threads.length ∧
    ((s.threadUpid e.1 = none ∧ s.threadUpid e.2 = none) ∨
      (∃ Q, s.threadUpid e.1 = some Q ∧ s.threadUpid e.2 = some Q))
  pparOK : ∀ e ∈ s.pending_parent_assocs, e.1 < s.threads.length ∧ e.2 < s.processes.length
  pidsOK : ∀ p P, s.pids p = some P → P < s.processes.length ∧ s.procPid P = p
  t0 : 0 < s.threads.length ∧ s.threadTid 0 = 0
  p0 : 0 < s.processes.length ∧ s.procPid 0 = 0
  tids0 : s.tids 0 = none → s.threadEndTs 0 = none

theorem inv_init : Inv initState := by
  refine ⟨rfl, ?_, ?_, ?_, ?_, ?_, ?_, ?_, ?_, ?_⟩
  · intro t l h
    cases h
  · intro u hu P hP
    have hu0 : u = 0 := by
      simp [initState] at hu
      omega
    subst hu0
    simp [initState, State.threadUpid, State.threadRow] at hP
    simp [initState, ← hP]
  · intro u hu P hP
    have hu0 : u = 0 := by
      simp [initState] at hu
      omega
    subst hu0
    simp [initState, State.threadUpid, State.threadRow] at hP
    simp [initState, State.threadIsMain, State.threadRow, State.threadTid, State.procPid,
      State.procRow, ← hP]
  · intro e he
    cases he
  · intro e he
    cases he
  · intro p P h
    cases h
  · exact ⟨by simp [initState], rfl⟩
  · exact ⟨by simp [initState], rfl⟩
  · intro _
    rfl

/-! ### Characterisation of `GetThreadOrNull` results -/

theorem getThreadLoop_mem (s : State) (pid : Option Nat) :
    ∀ (l : List Nat) (u : Nat), getThreadLoop s pid l = some u →
      u ∈ l ∧ isThreadAlive s u = true ∧
        (s.threadUpid u = none ∨ pid = none ∨
          (∃ P, s.threadUpid u = some P ∧ (s.procPid P == pid.getD 0) = true)) := by
  intro l
  induction l with
  | nil => intro u h; cases h
  | cons c rest ih =>
    intro u h
    rw [getThreadLoop] at h
    by_cases halive : isThreadAlive s c = true
    · rw [if_neg (by simp [halive])] at h
      match hup : s.threadUpid c with
      | none =>
        simp only [hup] at h
        have : c = u := Option.some_inj.mp h
        subst this
        exact ⟨List.mem_cons_self c rest, halive, Or.inl hup⟩
      | some up =>
        simp only [hup] at h
        by_cases hcond : (pid.isNone || (s.procPid up == pid.getD 0)) = true
        · rw [if_pos hcond] at h
          have : c = u := Option.some_inj.mp h
          subst this
          refine ⟨List.mem_cons_self c rest, halive, ?_⟩
          rcases Bool.or_eq_true_iff.mp hcond with h2 | h2
          · exact Or.inr (Or.inl (Option.isNone_iff_eq_none.mp h2))
          · exact Or.inr (Or.inr ⟨up, hup, h2⟩)
        · rw [if_neg hcond] at h
          obtain ⟨h1, h2, h3⟩ := ih u h
          exact ⟨List.mem_cons.mpr (Or.inr h1), h2, h3⟩
    · rw [if_pos (by simp [Bool.not_eq_true] at halive ⊢; exact halive)] at h
      obtain ⟨h1, h2, h3⟩ := ih u h
      exact ⟨List.mem_cons.mpr (Or.inr h1), h2, h3⟩

theorem getThreadOrNull_mem (s : State) (tid : Nat) (pid : Option Nat) (u : Nat)
    (h : getThreadOrNull s tid pid = some u) :
    ∃ l, s.tids tid = some l ∧ u ∈ l ∧ isThreadAlive s u = true ∧
      (s.threadUpid u = none ∨ pid = none ∨
        (∃ P, s.threadUpid u = some P ∧ (s.procPid P == pid.getD 0) = true)) := by
  unfold getThreadOrNull at h
  match hv : s.tids tid with
  | none => rw [hv] at h; cases h
  | some vector =>
    rw [hv] at h
    obtain ⟨h1, h2, h3⟩ := getThreadLoop_mem s pid vector.reverse u h
    exact ⟨vector, rfl, List.mem_reverse.mp h1, h2, h3⟩

/-- Facts about a utid returned by `GetThreadOrNull` under the invariant. -/
theorem getThreadOrNull_facts (s : State) (tid : Nat) (pid : Option Nat) (u : Nat)
    (hInv : Inv s) (h : getThreadOrNull s tid pid = some u) :
    u < s.threads.length ∧ s.threadTid u = tid ∧ s.threadEndTs u = none := by
  obtain ⟨l, hl, hm, _, _⟩ := getThreadOrNull_mem s tid pid u h
  exact hInv.tidsOK tid l hl u hm

theorem getD_set_row {α : Type} (l : List α) (i : Nat) (a d : α) (u : Nat) :
    (l.set i a).getD u d = if u = i ∧ i < l.length then a else l.getD u d := by
  by_cases h1 : u = i
  · subst h1
    by_cases h2 : u < l.length
    · rw [if_pos ⟨rfl, h2⟩]
      exact getD_set_self l u a d h2
    · rw [if_neg (fun hc => h2 hc.2), set_oob l u a (Nat.le_of_not_lt h2)]
  · rw [if_neg (fun hc => h1 hc.1)]
    exact getD_set_ne l i u a d h1

theorem getD_append_one {α : Type} (l : List α) (a d : α) (u : Nat) :
    (l ++ [a]).getD u d = if u = l.length then a else l.getD u d := by
  by_cases h : u = l.length
  · rw [if_pos h, h]
    exact getD_append_len l a d
  · rw [if_neg h]
    rcases Nat.lt_or_ge u l.length with h2 | h2
    · exact getD_append_left l [a] u d h2
    · rw [List.getD_eq_default _ _ h2, List.getD_eq_default]
      simp only [List.length_append, List.length_singleton]
      omega

/-! ### `StartNewThread` -/

theorem snt_utid (s : State) (ts : Option Int) (tid : Nat) :
    (startNewThread s ts tid).1 = s.threads.length := rfl

theorem snt_threads (s : State) (ts : Option Int) (tid : Nat) :
    (startNewThread s ts tid).2.threads
      = s.threads ++ [{ tid := tid, start_ts := ts }] := rfl

theorem snt_tlen (s : State) (ts : Option Int) (tid : Nat) :
    (startNewThread s ts tid).2.threads.length = s.threads.length + 1 := by
  rw [snt_threads]
  simp

theorem snt_threadRow (s : State) (ts : Option Int) (tid : Nat) (u : Nat) :
    (startNewThread s ts tid).2.threadRow u =
      if u = s.threads.length then { tid := tid, start_ts := ts } else s.threadRow u := by
  unfold State.threadRow
  rw [snt_threads]
  exact getD_append_one s.threads _ dfltThread u

theorem snt_tids (s : State) (ts : Option Int) (tid : Nat) :
    (startNewThread s ts tid).2.tids
      = fupd s.tids tid (some ((s.tids tid).getD [] ++ [s.threads.length])) := rfl

theorem snt_prios (s : State) (ts : Option Int) (tid : Nat) :
    (startNewThread s ts tid).2.thread_name_priorities
      = s.thread_name_priorities ++ [kOther] := rfl

theorem snt_processes (s : State) (ts : Option Int) (tid : Nat) :
    (startNewThread s ts tid).2.processes = s.processes := rfl

theorem snt_pids (s : State) (ts : Option Int) (tid : Nat) :
    (startNewThread s ts tid).2.pids = s.pids := rfl

theorem snt_passocs (s : State) (ts : Option Int) (tid : Nat) :
    (startNewThread s ts tid).2.pending_assocs = s.pending_assocs := rfl

theorem snt_ppar (s : State) (ts : Option Int) (tid : Nat) :
    (startNewThread s ts tid).2.pending_parent_assocs = s.pending_parent_assocs := rfl

theorem inv_startNewThread (s : State) (ts : Option Int) (tid : Nat) (hInv : Inv s) :
    Inv (startNewThread s ts tid).2 := by
  have hrow := snt_threadRow s ts tid
  have hlen := snt_tlen s ts tid
  have htid : ∀ u, u < s.threads.length →
      (startNewThread s ts tid).2.threadRow u = s.threadRow u := by
    intro u hu
    rw [hrow u, if_neg (by omega)]
  refine ⟨?_, ?_, ?_, ?_, ?_, ?_, ?_, ?_, ?_, ?_⟩
  · rw [snt_prios, hlen]
    simp [hInv.plen]
  · intro t l hl u hu
    rw [snt_tids] at hl
    unfold fupd at hl
    by_cases ht : t = tid
    · rw [if_pos ht] at hl
      have hl2 : l = (s.tids tid).getD [] ++ [s.threads.length] := Option.some_inj.mp hl.symm
      subst hl2
      rcases List.mem_append.mp hu with h | h
      · match hv : s.tids tid with
        | none => rw [hv] at h; cases h
        | some v =>
          rw [hv] at h
          obtain ⟨h1, h2, h3⟩ := hInv.tidsOK tid v hv u h
          have hur := htid u h1
          refine ⟨by omega, ?_, ?_⟩
          · rw [State.threadTid, hur, ht]
            exact h2
          · rw [State.threadEndTs, hur]
            exact h3
      · simp only [List.mem_singleton] at h
        subst h
        refine ⟨by omega, ?_, ?_⟩
        · rw [State.threadTid, hrow, if_pos rfl, ht]
        · rw [State.threadEndTs, hrow, if_pos rfl]
    · rw [if_neg ht] at hl
      obtain ⟨h1, h2, h3⟩ := hInv.tidsOK t l hl u hu
      have hur := htid u h1
      refine ⟨by omega, ?_, ?_⟩
      · rw [State.threadTid, hur]
        exact h2
      · rw [State.threadEndTs, hur]
        exact h3
  · intro u hu P hP
    rw [snt_processes]
    by_cases h : u = s.threads.length
    · rw [State.threadUpid, hrow, if_pos h] at hP
      cases hP
    · rw [State.threadUpid, htid u (by omega)] at hP
      exact hInv.upidRange u (by omega) P hP
  · intro u hu P hP
    by_cases h : u = s.threads.length
    · rw [State.threadUpid, hrow, if_pos h] at hP
      cases hP
    · have hu2 : u < s.threads.length := by omega
      rw [State.threadUpid, htid u hu2] at hP
      have := hInv.mainFlag u hu2 P hP
      rw [State.threadIsMain, htid u hu2, State.threadTid, htid u hu2]
      rw [State.threadIsMain, State.threadTid] at this
      rw [this]
      unfold State.procPid State.procRow
      rw [snt_processes]
  · intro e he
    rw [snt_passocs] at he
    obtain ⟨h1, h2, h3⟩ := hInv.pendOK e he
    refine ⟨by omega, by omega, ?_⟩
    rcases h3 with ⟨ha, hb⟩ | ⟨Q, ha, hb⟩
    · exact Or.inl ⟨by rw [State.threadUpid, htid e.1 h1]; exact ha,
        by rw [State.threadUpid, htid e.2 h2]; exact hb⟩
    · exact Or.inr ⟨Q, by rw [State.threadUpid, htid e.1 h1]; exact ha,
        by rw [State.threadUpid, htid e.2 h2]; exact hb⟩
  · intro e he
    rw [snt_ppar] at he
    obtain ⟨h1, h2⟩ := hInv.pparOK e he
    rw [snt_processes]
    exact ⟨by omega, h2⟩
  · intro p P hp
    rw [snt_pids] at hp
    obtain ⟨h1, h2⟩ := hInv.pidsOK p P hp
    unfold State.procPid State.procRow
    rw [snt_processes]
    exact ⟨h1, h2⟩
  · refine ⟨by omega, ?_⟩
    rw [State.threadTid, htid 0 hInv.t0.1]
    exact hInv.t0.2
  · unfold State.procPid State.procRow
    rw [snt_processes]
    exact hInv.p0
  · intro h0
    rw [snt_tids] at h0
    unfold fupd at h0
    by_cases h : (0 : Nat) = tid
    · rw [if_pos h] at h0
      cases h0
    · rw [if_neg h] at h0
      rw [State.threadEndTs, htid 0 hInv.t0.1]
      exact hInv.tids0 h0

/-! ### `UpdateThreadNameByUtid` -/

theorem inv_updateThreadNameByUtid (s : State) (utid : Nat) (nm : StringId) (prio : Nat)
    (hInv : Inv s) : Inv (updateThreadNameByUtid s utid nm prio) := by
  unfold updateThreadNameByUtid
  by_cases h1 : nm = nullStringId
  · rw [if_pos h1]
    exact hInv
  · rw [if_neg h1]
    by_cases h2 : s.prioAt utid ≤ prio
    · rw [if_pos h2]
      have hrow : ∀ u, ({ s with
          threads := s.threads.set utid
            { (s.threads.getD utid dfltThread) with name := some nm }
          thread_name_priorities := s.thread_name_priorities.set utid prio } : State).threadRow u
          = if u = utid ∧ utid < s.threads.length
            then { s.threadRow u with name := some nm } else s.threadRow u := by
        intro u
        unfold State.threadRow
        rw [getD_set_row]
        by_cases h : u = utid ∧ utid < s.threads.length
        · rw [if_pos h, if_pos h, h.1]
        · rw [if_neg h, if_neg h]
      have hfacts : ∀ u, (∀ r, r = s.threadRow u →
          ({ s.threadRow u with name := some nm } : ThreadRow).tid = r.tid) := by
        intro u r hr
        rw [hr]
      refine ⟨?_, ?_, ?_, ?_, ?_, ?_, ?_, ?_, ?_, ?_⟩
      · simp [hInv.plen]
      · intro t l hl u hu
        obtain ⟨h3, h4, h5⟩ := hInv.tidsOK t l hl u hu
        refine ⟨by simpa using h3, ?_, ?_⟩
        · rw [State.threadTid, hrow]
          by_cases h : u = utid ∧ utid < s.threads.length
          · rw [if_pos h]
            exact h4
          · rw [if_neg h]
            exact h4
        · rw [State.threadEndTs, hrow]
          by_cases h : u = utid ∧ utid < s.threads.length
          · rw [if_pos h]
            exact h5
          · rw [if_neg h]
            exact h5
      · intro u hu P hP
        rw [State.threadUpid, hrow] at hP
        simp only [List.length_set] at hu
        by_cases h : u = utid ∧ utid < s.threads.length
        · rw [if_pos h] at hP
          exact hInv.upidRange u hu P hP
        · rw [if_neg h] at hP
          exact hInv.upidRange u hu P hP
      · intro u hu P hP
        simp only [List.length_set] at hu
        rw [State.threadUpid, hrow] at hP
        rw [State.threadIsMain, State.threadTid, hrow]
        unfold State.procPid State.procRow
        by_cases h : u = utid ∧ utid < s.threads.length
        · rw [if_pos h] at hP ⊢
          have := hInv.mainFlag u hu P hP
          rw [State.threadIsMain, State.threadTid] at this
          exact this
        · rw [if_neg h] at hP ⊢
          have := hInv.mainFlag u hu P hP
          rw [State.threadIsMain, State.threadTid] at this
          exact this
      · intro e he
        obtain ⟨h3, h4, h5⟩ := hInv.pendOK e he
        have hup : ∀ v, ({ s with
            threads := s.threads.set utid
              { (s.threads.getD utid dfltThread) with name := some nm }
            thread_name_priorities :=
              s.thread_name_priorities.set utid prio } : State).threadUpid v
            = s.threadUpid v := by
          intro v
          rw [State.threadUpid, hrow]
          by_cases h : v = utid ∧ utid < s.threads.length
          · rw [if_pos h, h.1]
            rfl
          · rw [if_neg h]
            rfl
        refine ⟨by simpa using h3, by simpa using h4, ?_⟩
        rw [hup e.1, hup e.2]
        exact h5
      · intro e he
        obtain ⟨h3, h4⟩ := hInv.pparOK e he
        exact ⟨by simpa using h3, h4⟩
      · exact hInv.pidsOK
      · refine ⟨by simpa using hInv.t0.1, ?_⟩
        rw [State.threadTid, hrow]
        by_cases h : (0 : Nat) = utid ∧ utid < s.threads.length
        · rw [if_pos h]
          exact hInv.t0.2
        · rw [if_neg h]
          exact hInv.t0.2
      · exact hInv.p0
      · intro h0
        rw [State.threadEndTs, hrow]
        by_cases h : (0 : Nat) = utid ∧ utid < s.threads.length
        · rw [if_pos h]
          exact hInv.tids0 h0
        · rw [if_neg h]
          exact hInv.tids0 h0
    · rw [if_neg h2]
      exact hInv

/-! ### Invariant preservation by the resolution loop -/

theorem inv_resolveLoop (P : Nat) (s : State) (w : List Nat)
    (hplen : s.thread_name_priorities.length = s.threads.length)
    (htids : ∀ t l, s.tids t = some l → ∀ u ∈ l,
      u < s.threads.length ∧ s.threadTid u = t ∧ s.threadEndTs u = none)
    (hupr : ∀ u, u < s.threads.length → ∀ Q, s.threadUpid u = some Q →
      Q < s.processes.length)
    (hmain : ∀ u, u < s.threads.length → ∀ Q, s.threadUpid u = some Q →
      s.threadIsMain u = some (s.threadTid u == s.procPid Q))
    (hpends : ∀ e ∈ s.pending_assocs,
      e.1 < s.threads.length ∧ e.2 < s.threads.length ∧ entryOK s P w e)
    (hppar : ∀ e ∈ s.pending_parent_assocs,
      e.1 < s.threads.length ∧ e.2 < s.processes.length)
    (hpids : ∀ p Q, s.pids p = some Q → Q < s.processes.length ∧ s.procPid Q = p)
    (ht0 : 0 < s.threads.length ∧ s.threadTid 0 = 0)
    (hp0 : 0 < s.processes.length ∧ s.procPid 0 = 0)
    (htids0 : s.tids 0 = none → s.threadEndTs 0 = none)
    (hw : ∀ x ∈ w, x < s.threads.length ∧ s.threadUpid x = some P)
    (hP : P < s.processes.length) :
    Inv (resolveLoop P s w) := by
  have fr : Frame P s (resolveLoop P s w) := resolveLoop_frame_all P s w
  have hpend2 := resolveLoop_pend P (rMeasure s w) s w (Nat.le_refl _) hw
    (fun e he => ⟨(hpends e he).1, (hpends e he).2.1⟩)
    (fun e he => (hpends e he).2.2)
  refine ⟨?_, ?_, ?_, ?_, ?_, ?_, ?_, ?_, ?_, ?_⟩
  · rw [fr.prios, fr.tlen]
    exact hplen
  · intro t l hl u hu
    rw [fr.tids] at hl
    obtain ⟨h1, h2, h3⟩ := htids t l hl u hu
    rw [fr.tlen, fr.threadTid_eq, fr.threadEndTs_eq]
    exact ⟨h1, h2, h3⟩
  · intro u hu Q hQ
    rw [fr.tlen] at hu
    rw [fr.plen]
    rcases fr.threadUpid_cases u with h | h
    · rw [h] at hQ
      exact hupr u hu Q hQ
    · rw [h] at hQ
      rw [← Option.some_inj.mp hQ]
      exact hP
  · intro u hu Q hQ
    rw [fr.tlen] at hu
    rcases fr.trow u with h | ⟨_, h⟩
    · rw [State.threadUpid, h] at hQ
      rw [State.threadIsMain, h, State.threadTid, h]
      have := hmain u hu Q hQ
      rw [State.threadIsMain, State.threadTid] at this
      rw [this, fr.procPid_eq]
    · rw [State.threadUpid, h, boundRow] at hQ
      simp only at hQ
      have hQP : P = Q := Option.some_inj.mp hQ
      rw [State.threadIsMain, h, State.threadTid, h, boundRow, ← hQP, fr.procPid_eq]
      simp [boundRow, State.threadTid]
  · intro e he
    have heOld := fr.passoc e he
    obtain ⟨h1, h2, _⟩ := hpends e heOld
    rw [fr.tlen]
    exact ⟨h1, h2, hpend2 e he⟩
  · intro e he
    have heOld := fr.ppar e he
    obtain ⟨h1, h2⟩ := hppar e heOld
    rw [fr.tlen, fr.plen]
    exact ⟨h1, h2⟩
  · intro p Q hp
    rw [fr.pids] at hp
    obtain ⟨h1, h2⟩ := hpids p Q hp
    rw [fr.plen, fr.procPid_eq]
    exact ⟨h1, h2⟩
  · rw [fr.tlen, fr.threadTid_eq]
    exact ht0
  · rw [fr.plen, fr.procPid_eq]
    exact hp0
  · intro h0
    rw [fr.tids] at h0
    rw [fr.threadEndTs_eq]
    exact htids0 h0

/-- `ResolvePendingAssociations` on an already-bound utid preserves the
invariant. -/
theorem inv_resolve (s : State) (utid P : Nat) (hInv : Inv s)
    (hult : utid < s.threads.length) (hup : s.threadUpid utid = some P)
    (hP : P < s.processes.length) :
    Inv (resolvePendingAssociations s utid P) := by
  refine inv_resolveLoop P s [utid] hInv.plen hInv.tidsOK hInv.upidRange hInv.mainFlag
    ?_ hInv.pparOK hInv.pidsOK hInv.t0 hInv.p0 hInv.tids0 ?_ hP
  · intro e he
    obtain ⟨h1, h2, h3⟩ := hInv.pendOK e he
    refine ⟨h1, h2, ?_⟩
    rcases h3 with h | h
    · exact Or.inl h
    · exact Or.inr (Or.inl h)
  · intro x hx
    rcases List.mem_cons.mp hx with hx | hx
    · rw [hx]
      exact ⟨hult, hup⟩
    · exact absurd hx (List.not_mem_nil x)

theorem assoc_processes (s : State) (u P : Nat) :
    (associateThreadToProcess s u P).processes = s.processes := rfl

theorem assoc_tids (s : State) (u P : Nat) :
    (associateThreadToProcess s u P).tids = s.tids := rfl

theorem assoc_pids (s : State) (u P : Nat) :
    (associateThreadToProcess s u P).pids = s.pids := rfl

theorem assoc_prios (s : State) (u P : Nat) :
    (associateThreadToProcess s u P).thread_name_priorities
      = s.thread_name_priorities := rfl

theorem assoc_passocs (s : State) (u P : Nat) :
    (associateThreadToProcess s u P).pending_assocs = s.pending_assocs := rfl

theorem assoc_ppar (s : State) (u P : Nat) :
    (associateThreadToProcess s u P).pending_parent_assocs
      = s.pending_parent_assocs := rfl

theorem assoc_procRow (s : State) (u P q : Nat) :
    (associateThreadToProcess s u P).procRow q = s.procRow q := rfl

/-- `AssociateThreadToProcess` followed by `ResolvePendingAssociations`
preserves the invariant (this is the only way a upid is ever written). -/
theorem inv_bindResolve (s : State) (utid P : Nat) (hInv : Inv s)
    (hult : utid < s.threads.length) (hP : P < s.processes.length)
    (hnp : s.threadUpid utid = none ∨ s.threadUpid utid = some P) :
    Inv (resolvePendingAssociations (associateThreadToProcess s utid P) utid P) := by
  have hrow1 : ∀ v, (associateThreadToProcess s utid P).threadRow v
      = if v = utid then boundRow s P utid else s.threadRow v := by
    intro v
    by_cases h : v = utid
    · rw [if_pos h, h]
      exact assoc_one_row_self P s utid hult
    · rw [if_neg h]
      exact assoc_one_row_ne P s utid v h
  have hup1 : ∀ v, (associateThreadToProcess s utid P).threadUpid v
      = if v = utid then some P else s.threadUpid v := by
    intro v
    rw [State.threadUpid, hrow1]
    by_cases h : v = utid
    · rw [if_pos h, if_pos h, boundRow]
    · rw [if_neg h, if_neg h]
      rfl
  have htlen1 : (associateThreadToProcess s utid P).threads.length = s.threads.length := by
    simp [associateThreadToProcess]
  refine inv_resolveLoop P (associateThreadToProcess s utid P) [utid] ?_ ?_ ?_ ?_ ?_ ?_ ?_
    ?_ ?_ ?_ ?_ (by rw [assoc_processes]; exact hP)
  · rw [htlen1, assoc_prios]
    exact hInv.plen
  · intro t l hl u hu
    rw [assoc_tids] at hl
    obtain ⟨h1, h2, h3⟩ := hInv.tidsOK t l hl u hu
    rw [htlen1, State.threadTid, State.threadEndTs, hrow1]
    by_cases h : u = utid
    · rw [if_pos h]
      refine ⟨h1, ?_, ?_⟩
      · rw [boundRow]
        simp only [State.threadTid] at h2 ⊢
        rw [← h, h2]
      · rw [boundRow]
        simp only [State.threadEndTs] at h3 ⊢
        rw [← h]
        exact h3
    · rw [if_neg h]
      exact ⟨h1, h2, h3⟩
  · intro u hu Q hQ
    rw [htlen1] at hu
    rw [hup1] at hQ
    rw [assoc_processes]
    by_cases h : u = utid
    · rw [if_pos h] at hQ
      rw [← Option.some_inj.mp hQ]
      exact hP
    · rw [if_neg h] at hQ
      exact hInv.upidRange u hu Q hQ
  · intro u hu Q hQ
    rw [htlen1] at hu
    rw [hup1] at hQ
    rw [State.threadIsMain, hrow1, State.threadTid, hrow1]
    have hpp : ∀ q, (associateThreadToProcess s utid P).procPid q = s.procPid q := by
      intro q
      rw [State.procPid, assoc_procRow]
      rfl
    by_cases h : u = utid
    · rw [if_pos h] at hQ ⊢
      have hQP : P = Q := Option.some_inj.mp hQ
      rw [boundRow, hpp, ← hQP]
      simp [State.threadTid]
    · rw [if_neg h] at hQ ⊢
      have := hInv.mainFlag u hu Q hQ
      rw [hpp]
      exact this
  · intro e he
    rw [assoc_passocs] at he
    obtain ⟨h1, h2, h3⟩ := hInv.pendOK e he
    rw [htlen1]
    refine ⟨h1, h2, ?_⟩
    unfold entryOK
    rw [hup1, hup1]
    by_cases hc1 : e.1 = utid <;> by_cases hc2 : e.2 = utid
    · rw [if_pos hc1, if_pos hc2]
      exact Or.inr (Or.inl ⟨P, rfl, rfl⟩)
    · rw [if_pos hc1, if_neg hc2]
      rcases h3 with ⟨ha, hb⟩ | ⟨Q, ha, hb⟩
      · exact Or.inr (Or.inr (Or.inl ⟨rfl, hb, by rw [hc1]; exact List.mem_cons_self utid []⟩))
      · rcases hnp with hn | hn
        · rw [← hc1, ha] at hn
          cases hn
        · rw [← hc1, ha] at hn
          rw [hb, Option.some_inj.mp hn]
          exact Or.inr (Or.inl ⟨P, rfl, rfl⟩)
    · rw [if_neg hc1, if_pos hc2]
      rcases h3 with ⟨ha, hb⟩ | ⟨Q, ha, hb⟩
      · exact Or.inr (Or.inr (Or.inr ⟨rfl, ha, by rw [hc2]; exact List.mem_cons_self utid []⟩))
      · rcases hnp with hn | hn
        · rw [← hc2, hb] at hn
          cases hn
        · rw [← hc2, hb] at hn
          rw [ha, Option.some_inj.mp hn]
          exact Or.inr (Or.inl ⟨P, rfl, rfl⟩)
    · rw [if_neg hc1, if_neg hc2]
      rcases h3 with h | h
      · exact Or.inl h
      · exact Or.inr (Or.inl h)
  · intro e he
    rw [assoc_ppar] at he
    rw [htlen1, assoc_processes]
    exact hInv.pparOK e he
  · intro p Q hp
    rw [assoc_pids] at hp
    rw [assoc_processes, State.procPid, assoc_procRow]
    exact hInv.pidsOK p Q hp
  · rw [htlen1, State.threadTid, hrow1]
    refine ⟨hInv.t0.1, ?_⟩
    by_cases h : (0 : Nat) = utid
    · rw [if_pos h, boundRow]
      simp only [State.threadTid]
      rw [← h]
      exact hInv.t0.2
    · rw [if_neg h]
      exact hInv.t0.2
  · rw [assoc_processes, State.procPid, assoc_procRow]
    exact hInv.p0
  · intro h0
    rw [assoc_tids] at h0
    rw [State.threadEndTs, hrow1]
    by_cases h : (0 : Nat) = utid
    · rw [if_pos h, boundRow]
      simp only [State.threadEndTs]
      rw [← h]
      exact hInv.tids0 h0
    · rw [if_neg h]
      exact hInv.tids0 h0
  · intro x hx
    rcases List.mem_cons.mp hx with hx | hx
    · rw [hx, htlen1, hup1, if_pos rfl]
      exact ⟨hult, rfl⟩
    · exact absurd hx (List.not_mem_nil x)

/-! ### `UpdateThread` and `GetOrCreateProcess` -/

/-- A live thread bound to a process whose pid is still in `pids_` is bound to
exactly the upid recorded there. -/
theorem alive_upid_pids (s : State) (u Q : Nat) (halive : isThreadAlive s u = true)
    (hup : s.threadUpid u = some Q) :
    s.pids (s.procPid Q) = none ∨ s.pids (s.procPid Q) = some Q := by
  unfold isThreadAlive at halive
  rw [hup] at halive
  by_cases h1 : (s.threadEndTs u).isSome
  · rw [if_pos h1] at halive
    cases halive
  · rw [if_neg h1] at halive
    simp only at halive
    by_cases h2 : (s.procEndTs Q).isSome
    · rw [if_pos h2] at halive
      cases halive
    · rw [if_neg h2] at halive
      match hpid : s.pids (s.procPid Q) with
      | none => exact Or.inl rfl
      | some other =>
        rw [hpid] at halive
        simp only [beq_iff_eq] at halive
        rw [halive]
        exact Or.inr rfl

theorem updateThreadNested_found (s : State) (tid pid u0 : Nat)
    (hfound : getThreadOrNull s tid (some pid) = some u0) :
    updateThreadNested s tid pid =
      (u0,
        let s2 := if (s.threadUpid u0).isNone then
            match s.pids pid with
            | some upid => associateThreadToProcess s u0 upid
            | none => s
          else s
        resolvePendingAssociations s2 u0 ((s2.threadUpid u0).getD 0)) := by
  unfold updateThreadNested
  rw [hfound]
  rfl

theorem updateThreadNested_none (s : State) (tid pid : Nat)
    (hfound : getThreadOrNull s tid (some pid) = none) :
    updateThreadNested s tid pid =
      (s.threads.length,
        let s1 := (startNewThread s none tid).2
        let s2 := if (s1.threadUpid s.threads.length).isNone then
            match s1.pids pid with
            | some upid => associateThreadToProcess s1 s.threads.length upid
            | none => s1
          else s1
        resolvePendingAssociations s2 s.threads.length
          ((s2.threadUpid s.threads.length).getD 0)) := by
  unfold updateThreadNested
  rw [hfound]
  rfl

/-- Field bookkeeping of `AssociateThreadToProcess` followed by
`ResolvePendingAssociations` on the bound thread. -/
theorem bindResolve_facts (s : State) (u0 U : Nat) (hu0 : u0 < s.threads.length) :
    resolvePendingAssociations (associateThreadToProcess s u0 U) u0
        (((associateThreadToProcess s u0 U).threadUpid u0).getD 0)
      = resolvePendingAssociations (associateThreadToProcess s u0 U) u0 U
    ∧ (resolvePendingAssociations (associateThreadToProcess s u0 U) u0 U).pids = s.pids
    ∧ (resolvePendingAssociations (associateThreadToProcess s u0 U) u0 U).processes.length
        = s.processes.length
    ∧ (∀ p, (resolvePendingAssociations (associateThreadToProcess s u0 U) u0 U).procPid p
        = s.procPid p)
    ∧ (∀ p, (resolvePendingAssociations (associateThreadToProcess s u0 U) u0 U).procEndTs p
        = s.procEndTs p)
    ∧ (resolvePendingAssociations (associateThreadToProcess s u0 U) u0 U).threads.length
        = s.threads.length
    ∧ (resolvePendingAssociations (associateThreadToProcess s u0 U) u0 U).tids = s.tids
    ∧ (∀ u, (resolvePendingAssociations (associateThreadToProcess s u0 U) u0 U).threadUpid u
        = s.threadUpid u
        ∨ (resolvePendingAssociations (associateThreadToProcess s u0 U) u0 U).threadUpid u
          = some U)
    ∧ (resolvePendingAssociations (associateThreadToProcess s u0 U) u0 U).threadUpid u0
        = some U
    ∧ (∀ u, (resolvePendingAssociations (associateThreadToProcess s u0 U) u0 U).threadTid u
        = s.threadTid u) := by
  have hassoc : (associateThreadToProcess s u0 U).threadUpid u0 = some U := by
    unfold State.threadUpid
    rw [assoc_one_row_self U s u0 hu0, boundRow]
  have fr : Frame U (associateThreadToProcess s u0 U)
      (resolvePendingAssociations (associateThreadToProcess s u0 U) u0 U) :=
    resolvePendingAssociations_frame _ u0 U
  refine ⟨by rw [hassoc]; rfl, ?_, ?_, ?_, ?_, ?_, ?_, ?_, ?_, ?_⟩
  · rw [fr.pids, assoc_pids]
  · rw [fr.plen, assoc_processes]
  · intro p
    rw [fr.procPid_eq, State.procPid, assoc_procRow]
    rfl
  · intro p
    rw [fr.procEndTs_eq, State.procEndTs, assoc_procRow]
    rfl
  · rw [fr.tlen]
    simp [associateThreadToProcess]
  · rw [fr.tids, assoc_tids]
  · intro u
    rcases fr.threadUpid_cases u with h | h
    · rw [h]
      by_cases hu : u = u0
      · rw [hu, hassoc]
        exact Or.inr rfl
      · left
        unfold State.threadUpid
        rw [assoc_one_row_ne U s u0 u hu]
    · exact Or.inr h
  · exact Frame.threadUpid_bound fr u0 hassoc
  · intro u
    rw [fr.threadTid_eq u]
    unfold State.threadTid
    by_cases h : u = u0
    · rw [h, assoc_one_row_self U s u0 hu0, boundRow]
    · rw [assoc_one_row_ne U s u0 u h]

/-- Field bookkeeping of `ResolvePendingAssociations` on an already-bound
thread. -/
theorem resolve_facts (s : State) (u0 Q : Nat) (hup : s.threadUpid u0 = some Q) :
    resolvePendingAssociations s u0 ((s.threadUpid u0).getD 0)
      = resolvePendingAssociations s u0 Q
    ∧ (resolvePendingAssociations s u0 Q).pids = s.pids
    ∧ (resolvePendingAssociations s u0 Q).processes.length = s.processes.length
    ∧ (∀ p, (resolvePendingAssociations s u0 Q).procPid p = s.procPid p)
    ∧ (∀ p, (resolvePendingAssociations s u0 Q).procEndTs p = s.procEndTs p)
    ∧ (resolvePendingAssociations s u0 Q).threads.length = s.threads.length
    ∧ (resolvePendingAssociations s u0 Q).tids = s.tids
    ∧ (∀ u, (resolvePendingAssociations s u0 Q).threadUpid u = s.threadUpid u
        ∨ (resolvePendingAssociations s u0 Q).threadUpid u = some Q)
    ∧ (resolvePendingAssociations s u0 Q).threadUpid u0 = some Q
    ∧ (∀ u, (resolvePendingAssociations s u0 Q).threadTid u = s.threadTid u) := by
  have fr : Frame Q s (resolvePendingAssociations s u0 Q) :=
    resolvePendingAssociations_frame s u0 Q
  refine ⟨by rw [hup]; rfl, fr.pids, fr.plen, fun p => fr.procPid_eq p, fun p => fr.procEndTs_eq p,
    fr.tlen, fr.tids, fun u => fr.threadUpid_cases u, Frame.threadUpid_bound fr u0 hup,
    fun u => fr.threadTid_eq u⟩

theorem inv_updateThreadNested (s : State) (tid pid U : Nat) (hInv : Inv s)
    (hpid : s.pids pid = some U) :
    Inv (updateThreadNested s tid pid).2
    ∧ (updateThreadNested s tid pid).2.pids = s.pids
    ∧ (updateThreadNested s tid pid).2.processes.length = s.processes.length
    ∧ (∀ p, (updateThreadNested s tid pid).2.procPid p = s.procPid p)
    ∧ (∀ p, (updateThreadNested s tid pid).2.procEndTs p = s.procEndTs p)
    ∧ s.threads.length ≤ (updateThreadNested s tid pid).2.threads.length
    ∧ (∀ u, (updateThreadNested s tid pid).2.threadUpid u = s.threadUpid u
        ∨ (updateThreadNested s tid pid).2.threadUpid u = some U)
    ∧ (∀ t, t ≠ tid → (updateThreadNested s tid pid).2.tids t = s.tids t)
    ∧ (∀ u, u < s.threads.length →
        (updateThreadNested s tid pid).2.threadTid u = s.threadTid u) := by
  have hU : U < s.processes.length := (hInv.pidsOK pid U hpid).1
  cases hfound : getThreadOrNull s tid (some pid) with
  | some u0 =>
    obtain ⟨hu0, htid0, hend0⟩ := getThreadOrNull_facts s tid (some pid) u0 hInv hfound
    obtain ⟨l0, hl0, hm0, halive, hdisj⟩ := getThreadOrNull_mem s tid (some pid) u0 hfound
    have heq := updateThreadNested_found s tid pid u0 hfound
    cases hupid : s.threadUpid u0 with
    | none =>
      have heq2 : (updateThreadNested s tid pid).2
          = resolvePendingAssociations (associateThreadToProcess s u0 U) u0
            (((associateThreadToProcess s u0 U).threadUpid u0).getD 0) := by
        rw [heq]
        simp only [hupid, hpid, Option.isNone_none, if_true]
      obtain ⟨bf1, bf2, bf3, bf4, bf5, bf6, bf7, bf8, _, bf10⟩ := bindResolve_facts s u0 U hu0
      rw [heq2, bf1]
      refine ⟨?_, bf2, bf3, bf4, bf5, by rw [bf6], bf8, fun t _ => by rw [bf7],
        fun u _ => bf10 u⟩
      exact inv_bindResolve s u0 U hInv hu0 hU (Or.inl hupid)
    | some Q =>
      have hprocQ : s.procPid Q = pid := by
        rcases hdisj with h | h | ⟨Q2, hQ2, hbeq⟩
        · rw [hupid] at h
          cases h
        · cases h
        · rw [hupid] at hQ2
          have : Q2 = Q := (Option.some_inj.mp hQ2).symm
          subst this
          simpa using hbeq
      have hQU : Q = U := by
        rcases alive_upid_pids s u0 Q halive hupid with h | h
        · rw [hprocQ, hpid] at h
          cases h
        · rw [hprocQ, hpid] at h
          exact (Option.some_inj.mp h).symm
      have hupU : s.threadUpid u0 = some U := by
        rw [hupid, hQU]
      have heq2 : (updateThreadNested s tid pid).2
          = resolvePendingAssociations s u0 ((s.threadUpid u0).getD 0) := by
        rw [heq]
        simp only [hupid, Option.isNone_some, Bool.false_eq_true, if_false]
      obtain ⟨rf1, rf2, rf3, rf4, rf5, rf6, rf7, rf8, _, rf10⟩ := resolve_facts s u0 U hupU
      rw [heq2, rf1]
      refine ⟨?_, rf2, rf3, rf4, rf5, by rw [rf6], rf8, fun t _ => by rw [rf7],
        fun u _ => rf10 u⟩
      exact inv_resolve s u0 U hInv hu0 hupU hU
  | none =>
    have hInv1 : Inv (startNewThread s none tid).2 := inv_startNewThread s none tid hInv
    have hulen : s.threads.length < (startNewThread s none tid).2.threads.length := by
      rw [snt_tlen]
      omega
    have hupfresh : (startNewThread s none tid).2.threadUpid s.threads.length = none := by
      unfold State.threadUpid
      rw [snt_threadRow, if_pos rfl]
    have hsntup : ∀ u, (startNewThread s none tid).2.threadUpid u = s.threadUpid u := by
      intro u
      unfold State.threadUpid
      rw [snt_threadRow]
      by_cases h : u = s.threads.length
      · rw [if_pos h]
        unfold State.threadRow
        rw [h, List.getD_eq_default _ _ (Nat.le_refl _)]
        rfl
      · rw [if_neg h]
    have hpid1 : (startNewThread s none tid).2.pids pid = some U := by
      rw [snt_pids]
      exact hpid
    have heq2 : (updateThreadNested s tid pid).2
        = resolvePendingAssociations
            (associateThreadToProcess (startNewThread s none tid).2 s.threads.length U)
            s.threads.length
            (((associateThreadToProcess (startNewThread s none tid).2
              s.threads.length U).threadUpid s.threads.length).getD 0) := by
      rw [updateThreadNested_none s tid pid hfound]
      simp only [hupfresh, hpid1, Option.isNone_none, if_true]
    obtain ⟨bf1, bf2, bf3, bf4, bf5, bf6, bf7, bf8, _, bf10⟩ :=
      bindResolve_facts (startNewThread s none tid).2 s.threads.length U hulen
    rw [heq2, bf1]
    have hU1 : U < (startNewThread s none tid).2.processes.length := by
      rw [snt_processes]
      exact hU
    refine ⟨?_, ?_, ?_, ?_, ?_, ?_, ?_, ?_, ?_⟩
    · exact inv_bindResolve (startNewThread s none tid).2 s.threads.length U hInv1 hulen hU1
        (Or.inl hupfresh)
    · rw [bf2, snt_pids]
    · rw [bf3, snt_processes]
    · intro p
      rw [bf4 p]
      unfold State.procPid State.procRow
      rw [snt_processes]
    · intro p
      rw [bf5 p]
      unfold State.procEndTs State.procRow
      rw [snt_processes]
    · rw [bf6, snt_tlen]
      omega
    · intro u
      rcases bf8 u with h | h
      · rw [h, hsntup u]
        exact Or.inl rfl
      · exact Or.inr h
    · intro t ht
      rw [bf7, snt_tids]
      unfold fupd
      rw [if_neg ht]
    · intro u hu
      rw [bf10 u]
      unfold State.threadTid
      rw [snt_threadRow, if_neg (by omega)]

theorem gocp_present (s : State) (pid U : Nat) (h : s.pids pid = some U) :
    getOrCreateProcess s pid = (U, s) := by
  unfold getOrCreateProcess
  rw [h]

theorem gocp_absent (s : State) (pid : Nat) (h : s.pids pid = none) :
    getOrCreateProcess s pid = (s.processes.length,
      (updateThreadNested { s with
        pids := fupd s.pids pid (some s.processes.length)
        processes := s.processes ++ [{ pid := pid }] } pid pid).2) := by
  unfold getOrCreateProcess
  rw [h]

/-- Inserting a fresh process row and recording it in `pids_` preserves the
invariant. -/
theorem inv_insertProcess (s : State) (pid : Nat) (hInv : Inv s) :
    Inv { s with
      pids := fupd s.pids pid (some s.processes.length)
      processes := s.processes ++ [{ pid := pid }] } := by
  have hrow : ∀ p, ({ s with
      pids := fupd s.pids pid (some s.processes.length)
      processes := s.processes ++ [{ pid := pid }] } : State).procRow p
      = if p = s.processes.length then { pid := pid } else s.procRow p := by
    intro p
    unfold State.procRow
    exact getD_append_one s.processes _ dfltProcess p
  refine ⟨hInv.plen, hInv.tidsOK, ?_, ?_, hInv.pendOK, ?_, ?_, hInv.t0, ?_, hInv.tids0⟩
  · intro u hu Q hQ
    have := hInv.upidRange u hu Q hQ
    simp only [List.length_append, List.length_singleton]
    omega
  · intro u hu Q hQ
    have hu2 : u < s.threads.length := hu
    have hQ2 : s.threadUpid u = some Q := hQ
    have h2 : Q < s.processes.length := hInv.upidRange u hu2 Q hQ2
    have h1 := hInv.mainFlag u hu2 Q hQ2
    rw [State.procPid, hrow Q, if_neg (by omega)]
    exact h1
  · intro e he
    obtain ⟨h1, h2⟩ := hInv.pparOK e he
    simp only [List.length_append, List.length_singleton]
    exact ⟨h1, by omega⟩
  · intro p Q hp
    have hp2 : fupd s.pids pid (some s.processes.length) p = some Q := hp
    unfold fupd at hp2
    by_cases h : p = pid
    · rw [if_pos h] at hp2
      have hQ : Q = s.processes.length := (Option.some_inj.mp hp2).symm
      subst hQ
      refine ⟨by simp, ?_⟩
      rw [State.procPid, hrow, if_pos rfl, h]
    · rw [if_neg h] at hp2
      obtain ⟨h1, h2⟩ := hInv.pidsOK p Q hp2
      refine ⟨by simp; omega, ?_⟩
      rw [State.procPid, hrow, if_neg (by omega)]
      exact h2
  · obtain ⟨h1, h2⟩ := hInv.p0
    refine ⟨by simp, ?_⟩
    rw [State.procPid, hrow, if_neg (by omega)]
    exact h2

theorem inv_getOrCreateProcess (s : State) (pid : Nat) (hInv : Inv s) :
    Inv (getOrCreateProcess s pid).2
    ∧ (getOrCreateProcess s pid).2.pids pid = some (getOrCreateProcess s pid).1
    ∧ (getOrCreateProcess s pid).1 < (getOrCreateProcess s pid).2.processes.length
    ∧ (getOrCreateProcess s pid).2.procPid (getOrCreateProcess s pid).1 = pid
    ∧ s.threads.length ≤ (getOrCreateProcess s pid).2.threads.length
    ∧ s.processes.length ≤ (getOrCreateProcess s pid).2.processes.length
    ∧ (∀ p, p < s.processes.length →
        (getOrCreateProcess s pid).2.procPid p = s.procPid p)
    ∧ (∀ u, (getOrCreateProcess s pid).2.threadUpid u = s.threadUpid u
        ∨ (getOrCreateProcess s pid).2.threadUpid u = some (getOrCreateProcess s pid).1)
    ∧ (∀ t, t ≠ pid → (getOrCreateProcess s pid).2.tids t = s.tids t)
    ∧ (∀ q, q ≠ pid → (getOrCreateProcess s pid).2.pids q = s.pids q)
    ∧ (∀ u, u < s.threads.length →
        (getOrCreateProcess s pid).2.threadTid u = s.threadTid u) := by
  cases hp : s.pids pid with
  | some U =>
    rw [gocp_present s pid U hp]
    obtain ⟨h1, h2⟩ := hInv.pidsOK pid U hp
    exact ⟨hInv, hp, h1, h2, Nat.le_refl _, Nat.le_refl _, fun _ _ => rfl,
      fun u => Or.inl rfl, fun _ _ => rfl, fun _ _ => rfl, fun _ _ => rfl⟩
  | none =>
    rw [gocp_absent s pid hp]
    have hInv1 : Inv { s with
        pids := fupd s.pids pid (some s.processes.length)
        processes := s.processes ++ [{ pid := pid }] } := inv_insertProcess s pid hInv
    have hpid1 : ({ s with
        pids := fupd s.pids pid (some s.processes.length)
        processes := s.processes ++ [{ pid := pid }] } : State).pids pid
        = some s.processes.length := by
      show fupd s.pids pid (some s.processes.length) pid = some s.processes.length
      unfold fupd
      rw [if_pos rfl]
    obtain ⟨n1, n2, n3, n4, n5, n6, n7, n8, n9⟩ :=
      inv_updateThreadNested _ pid pid s.processes.length hInv1 hpid1
    refine ⟨n1, ?_, ?_, ?_, ?_, ?_, ?_, ?_, ?_, ?_, ?_⟩
    · rw [n2]
      exact hpid1
    · rw [n3]
      simp
    · rw [n4 s.processes.length]
      unfold State.procPid State.procRow
      simp only
      rw [getD_append_one, if_pos rfl]
    · exact n6
    · rw [n3]
      simp
    · intro p hplt
      rw [n4 p]
      unfold State.procPid State.procRow
      simp only
      rw [getD_append_one, if_neg (by omega)]
    · intro u
      exact n7 u
    · intro t ht
      rw [n8 t ht]
    · intro q hq
      rw [n2]
      show fupd s.pids pid (some s.processes.length) q = s.pids q
      unfold fupd
      rw [if_neg hq]
    · intro u hu
      rw [n9 u hu]
      unfold State.threadTid State.threadRow
      simp only

theorem updateThread_found (s : State) (tid pid u0 : Nat)
    (hfound : getThreadOrNull s tid (some pid) = some u0) :
    updateThread s tid pid = (u0,
      let s2 := if (s.threadUpid u0).isNone then
          associateThreadToProcess (getOrCreateProcess s pid).2 u0
            (getOrCreateProcess s pid).1
        else s
      resolvePendingAssociations s2 u0 ((s2.threadUpid u0).getD 0)) := by
  unfold updateThread
  rw [hfound]
  rfl

theorem updateThread_none (s : State) (tid pid : Nat)
    (hfound : getThreadOrNull s tid (some pid) = none) :
    updateThread s tid pid = (s.threads.length,
      let s1 := (startNewThread s none tid).2
      let s2 := if (s1.threadUpid s.threads.length).isNone then
          associateThreadToProcess (getOrCreateProcess s1 pid).2 s.threads.length
            (getOrCreateProcess s1 pid).1
        else s1
      resolvePendingAssociations s2 s.threads.length
        ((s2.threadUpid s.threads.length).getD 0)) := by
  unfold updateThread
  rw [hfound]
  rfl

theorem inv_updateThread (s : State) (tid pid : Nat) (hInv : Inv s) :
    Inv (updateThread s tid pid).2
    ∧ (updateThread s tid pid).1 < (updateThread s tid pid).2.threads.length
    ∧ (updateThread s tid pid).2.threadTid (updateThread s tid pid).1 = tid
    ∧ ∃ Pp, (updateThread s tid pid).2.threadUpid (updateThread s tid pid).1 = some Pp
        ∧ (updateThread s tid pid).2.procPid Pp = pid := by
  cases hfound : getThreadOrNull s tid (some pid) with
  | some u0 =>
    obtain ⟨hu0, htid0, hend0⟩ := getThreadOrNull_facts s tid (some pid) u0 hInv hfound
    obtain ⟨l0, hl0, hm0, halive, hdisj⟩ := getThreadOrNull_mem s tid (some pid) u0 hfound
    have heq := updateThread_found s tid pid u0 hfound
    have hfst : (updateThread s tid pid).1 = u0 := by
      rw [heq]
    cases hupid : s.threadUpid u0 with
    | none =>
      obtain ⟨g1, g2, g3, g4, g5, g6, g7, g8, g9, g10, g11⟩ :=
        inv_getOrCreateProcess s pid hInv
      have hu0g : u0 < (getOrCreateProcess s pid).2.threads.length :=
        Nat.lt_of_lt_of_le hu0 g5
      have heq2 : (updateThread s tid pid).2 = resolvePendingAssociations
          (associateThreadToProcess (getOrCreateProcess s pid).2 u0
            (getOrCreateProcess s pid).1) u0
          (((associateThreadToProcess (getOrCreateProcess s pid).2 u0
            (getOrCreateProcess s pid).1).threadUpid u0).getD 0) := by
        rw [heq]
        simp only [hupid, Option.isNone_none, if_true]
      obtain ⟨bf1, bf2, bf3, bf4, bf5, bf6, bf7, bf8, bf9, bf10⟩ :=
        bindResolve_facts (getOrCreateProcess s pid).2 u0 (getOrCreateProcess s pid).1 hu0g
      have hnp : (getOrCreateProcess s pid).2.threadUpid u0 = none
          ∨ (getOrCreateProcess s pid).2.threadUpid u0 = some (getOrCreateProcess s pid).1 := by
        rcases g8 u0 with h | h
        · rw [h, hupid]
          exact Or.inl rfl
        · exact Or.inr h
      rw [hfst, heq2, bf1]
      refine ⟨inv_bindResolve _ u0 _ g1 hu0g g3 hnp, ?_, ?_, ?_⟩
      · rw [bf6]
        exact hu0g
      · rw [bf10 u0, g11 u0 hu0]
        exact htid0
      · exact ⟨(getOrCreateProcess s pid).1, bf9, by rw [bf4]; exact g4⟩
    | some Q =>
      have hprocQ : s.procPid Q = pid := by
        rcases hdisj with h | h | ⟨Q2, hQ2, hbeq⟩
        · rw [hupid] at h
          cases h
        · cases h
        · rw [hupid] at hQ2
          have : Q2 = Q := (Option.some_inj.mp hQ2).symm
          subst this
          simpa using hbeq
      have hQlt : Q < s.processes.length := hInv.upidRange u0 hu0 Q hupid
      have heq2 : (updateThread s tid pid).2
          = resolvePendingAssociations s u0 ((s.threadUpid u0).getD 0) := by
        rw [heq]
        simp only [hupid, Option.isNone_some, Bool.false_eq_true, if_false]
      obtain ⟨rf1, rf2, rf3, rf4, rf5, rf6, rf7, rf8, rf9, rf10⟩ :=
        resolve_facts s u0 Q hupid
      rw [hfst, heq2, rf1]
      refine ⟨inv_resolve s u0 Q hInv hu0 hupid hQlt, ?_, ?_, ?_⟩
      · rw [rf6]
        exact hu0
      · rw [rf10 u0]
        exact htid0
      · exact ⟨Q, rf9, by rw [rf4]; exact hprocQ⟩
  | none =>
    have hInv1 : Inv (startNewThread s none tid).2 := inv_startNewThread s none tid hInv
    have hupfresh : (startNewThread s none tid).2.threadUpid s.threads.length = none := by
      unfold State.threadUpid
      rw [snt_threadRow, if_pos rfl]
    have heq := updateThread_none s tid pid hfound
    have hfst : (updateThread s tid pid).1 = s.threads.length := by
      rw [heq]
    obtain ⟨g1, g2, g3, g4, g5, g6, g7, g8, g9, g10, g11⟩ :=
      inv_getOrCreateProcess (startNewThread s none tid).2 pid hInv1
    have hulen : s.threads.length < (startNewThread s none tid).2.threads.length := by
      rw [snt_tlen]
      omega
    have hu0g : s.threads.length
        < (getOrCreateProcess (startNewThread s none tid).2 pid).2.threads.length :=
      Nat.lt_of_lt_of_le hulen g5
    have heq2 : (updateThread s tid pid).2 = resolvePendingAssociations
        (associateThreadToProcess
          (getOrCreateProcess (startNewThread s none tid).2 pid).2 s.threads.length
          (getOrCreateProcess (startNewThread s none tid).2 pid).1) s.threads.length
        (((associateThreadToProcess
          (getOrCreateProcess (startNewThread s none tid).2 pid).2 s.threads.length
          (getOrCreateProcess (startNewThread s none tid).2 pid).1).threadUpid
            s.threads.length).getD 0) := by
      rw [heq]
      simp only [hupfresh, Option.isNone_none, if_true]
    obtain ⟨bf1, bf2, bf3, bf4, bf5, bf6, bf7, bf8, bf9, bf10⟩ :=
      bindResolve_facts (getOrCreateProcess (startNewThread s none tid).2 pid).2
        s.threads.length (getOrCreateProcess (startNewThread s none tid).2 pid).1 hu0g
    have hnp : (getOrCreateProcess (startNewThread s none tid).2 pid).2.threadUpid
          s.threads.length = none
        ∨ (getOrCreateProcess (startNewThread s none tid).2 pid).2.threadUpid
          s.threads.length
          = some (getOrCreateProcess (startNewThread s none tid).2 pid).1 := by
      rcases g8 s.threads.length with h | h
      · rw [h, hupfresh]
        exact Or.inl rfl
      · exact Or.inr h
    rw [hfst, heq2, bf1]
    refine ⟨inv_bindResolve _ s.threads.length _ g1 hu0g g3 hnp, ?_, ?_, ?_⟩
    · rw [bf6]
      exact hu0g
    · rw [bf10 s.threads.length, g11 s.threads.length hulen]
      unfold State.threadTid
      rw [snt_threadRow, if_pos rfl]
    · exact ⟨(getOrCreateProcess (startNewThread s none tid).2 pid).1, bf9,
        by rw [bf4]; exact g4⟩

/-- A process-row mutation that leaves `pid` unchanged preserves the
invariant. -/
theorem inv_setProcPidPreserving (s : State) (p : Nat) (f : ProcessRow → ProcessRow)
    (hInv : Inv s) (hf : ∀ r, (f r).pid = r.pid) : Inv (s.setProc p f) := by
  have hpp : ∀ q, (s.setProc p f).procPid q = s.procPid q := by
    intro q
    rw [State.procPid, procRow_setProc]
    by_cases h : q = p ∧ p < s.processes.length
    · rw [if_pos h, hf, h.1]
      rfl
    · rw [if_neg h]
      rfl
  refine ⟨hInv.plen, hInv.tidsOK, ?_, ?_, hInv.pendOK, ?_, ?_, hInv.t0, ?_, hInv.tids0⟩
  · intro u hu Q hQ
    rw [setProc_plen]
    exact hInv.upidRange u hu Q hQ
  · intro u hu Q hQ
    rw [hpp]
    exact hInv.mainFlag u hu Q hQ
  · intro e he
    rw [setProc_plen]
    exact hInv.pparOK e he
  · intro q Q hq
    rw [setProc_plen, hpp]
    exact hInv.pidsOK q Q hq
  · rw [setProc_plen, hpp]
    exact hInv.p0

theorem inv_getOrCreateThread (s : State) (tid : Nat) (hInv : Inv s) :
    Inv (getOrCreateThread s tid).2
    ∧ (getOrCreateThread s tid).1 < (getOrCreateThread s tid).2.threads.length := by
  unfold getOrCreateThread
  cases hfound : getThreadOrNull1 s tid with
  | some u =>
    obtain ⟨hu, _, _⟩ := getThreadOrNull_facts s tid none u hInv hfound
    exact ⟨hInv, hu⟩
  | none =>
    refine ⟨inv_startNewThread s none tid hInv, ?_⟩
    rw [snt_utid, snt_tlen]
    omega

theorem inv_updateThreadName (s : State) (tid : Nat) (nm : StringId) (prio : Nat)
    (hInv : Inv s) : Inv (updateThreadName s tid nm prio).2 := by
  unfold updateThreadName
  exact inv_updateThreadNameByUtid _ _ nm prio (inv_getOrCreateThread s tid hInv).1

theorem inv_updateTrustedPid (s : State) (tp uuid : Nat) (hInv : Inv s) :
    Inv (updateTrustedPid s tp uuid) :=
  ⟨hInv.plen, hInv.tidsOK, hInv.upidRange, hInv.mainFlag, hInv.pendOK, hInv.pparOK,
    hInv.pidsOK, hInv.t0, hInv.p0, hInv.tids0⟩

theorem inv_updateNamespacedProcess (s : State) (pid : Nat) (nspid : List Nat)
    (hInv : Inv s) : Inv (updateNamespacedProcess s pid nspid) :=
  ⟨hInv.plen, hInv.tidsOK, hInv.upidRange, hInv.mainFlag, hInv.pendOK, hInv.pparOK,
    hInv.pidsOK, hInv.t0, hInv.p0, hInv.tids0⟩

theorem inv_updateNamespacedThread (s : State) (pid tid : Nat) (nstid : List Nat)
    (hInv : Inv s) : Inv (updateNamespacedThread s pid tid nstid) :=
  ⟨hInv.plen, hInv.tidsOK, hInv.upidRange, hInv.mainFlag, hInv.pendOK, hInv.pparOK,
    hInv.pidsOK, hInv.t0, hInv.p0, hInv.tids0⟩

/-! ### `EndThread` -/

theorem endThread_found (s : State) (ts : Int) (tid utid : Nat)
    (h : getThreadOrNull1 s tid = some utid) :
    endThread s ts tid =
      (let s1 := s.setThread utid (fun r => { r with end_ts := some ts })
       let s2 := { s1 with tids := fupd s1.tids tid (some (((s1.tids tid).getD []).filter (fun u => u ≠ utid))) }
       match s2.threadUpid utid with
       | none => s2
       | some opt_upid =>
         if s2.procPid opt_upid ≠ tid then s2
         else
           let s3 := s2.setProc opt_upid (fun r => { r with end_ts := some ts })
           { s3 with pids := fupd s3.pids tid none }) := by
  unfold endThread
  rw [h]

theorem inv_endThread (s : State) (ts : Int) (tid : Nat) (hInv : Inv s) :
    Inv (endThread s ts tid) := by
  cases hfound : getThreadOrNull1 s tid with
  | none =>
    unfold endThread
    rw [hfound]
    exact hInv
  | some utid =>
    obtain ⟨hu, htid, hend⟩ := getThreadOrNull_facts s tid none utid hInv hfound
    obtain ⟨l0, hl0, hm0, _, _⟩ := getThreadOrNull_mem s tid none utid hfound
    rw [endThread_found s ts tid utid hfound]
    simp only []
    set sA := s.setThread utid (fun r => { r with end_ts := some ts }) with hsA
    set s2 : State := { sA with tids := fupd sA.tids tid (some (((sA.tids tid).getD []).filter (fun u => u ≠ utid))) } with hs2
    have hRow : ∀ v, s2.threadRow v
        = if v = utid then { s.threadRow utid with end_ts := some ts }
          else s.threadRow v := by
      intro v
      have h1 : s2.threadRow v = sA.threadRow v := rfl
      rw [h1, hsA, threadRow_setThread]
      by_cases h : v = utid
      · rw [if_pos ⟨h, hu⟩, if_pos h]
      · rw [if_neg (fun hc => h hc.1), if_neg h]
    have hTid : ∀ v, s2.threadTid v = s.threadTid v := by
      intro v
      rw [State.threadTid, hRow]
      by_cases h : v = utid
      · rw [if_pos h, h]
        rfl
      · rw [if_neg h]
        rfl
    have hUp : ∀ v, s2.threadUpid v = s.threadUpid v := by
      intro v
      rw [State.threadUpid, hRow]
      by_cases h : v = utid
      · rw [if_pos h, h]
        rfl
      · rw [if_neg h]
        rfl
    have hMain : ∀ v, s2.threadIsMain v = s.threadIsMain v := by
      intro v
      rw [State.threadIsMain, hRow]
      by_cases h : v = utid
      · rw [if_pos h, h]
        rfl
      · rw [if_neg h]
        rfl
    have hEnd : ∀ v, v ≠ utid → s2.threadEndTs v = s.threadEndTs v := by
      intro v hv
      rw [State.threadEndTs, hRow, if_neg hv]
      rfl
    have h2len : s2.threads.length = s.threads.length := by
      have h1 : s2.threads = sA.threads := rfl
      rw [h1, hsA]
      simp
    have h2tids : s2.tids = fupd s.tids tid
        (some (((s.tids tid).getD []).filter (fun u => u ≠ utid))) := rfl
    have h2procs : s2.processes = s.processes := rfl
    have h2pids : s2.pids = s.pids := rfl
    have h2prios : s2.thread_name_priorities = s.thread_name_priorities := rfl
    have h2passoc : s2.pending_assocs = s.pending_assocs := rfl
    have h2ppar : s2.pending_parent_assocs = s.pending_parent_assocs := rfl
    have hPP : ∀ p, s2.procPid p = s.procPid p := fun p => rfl
    have hInv2 : Inv s2 := by
      refine ⟨?_, ?_, ?_, ?_, ?_, ?_, ?_, ?_, ?_, ?_⟩
      · rw [h2prios, h2len]
        exact hInv.plen
      · intro t l hl v hv
        rw [h2tids] at hl
        have hl2 : fupd s.tids tid
            (some (((s.tids tid).getD []).filter (fun u => u ≠ utid))) t = some l := hl
        unfold fupd at hl2
        by_cases ht : t = tid
        · rw [if_pos ht] at hl2
          have hleq : l = ((s.tids tid).getD []).filter (fun u => u ≠ utid) :=
            (Option.some_inj.mp hl2).symm
          subst hleq
          rw [hl0] at hv
          simp only [Option.getD_some] at hv
          obtain ⟨hvm, hvne⟩ := List.mem_filter.mp hv
          have hvne2 : v ≠ utid := by simpa using hvne
          obtain ⟨ha, hb, hc⟩ := hInv.tidsOK tid l0 hl0 v hvm
          refine ⟨by rw [h2len]; exact ha, ?_, ?_⟩
          · rw [hTid, ht]
            exact hb
          · rw [hEnd v hvne2]
            exact hc
        · rw [if_neg ht] at hl2
          obtain ⟨ha, hb, hc⟩ := hInv.tidsOK t l hl2 v hv
          have hvne2 : v ≠ utid := by
            intro hc2
            rw [hc2] at hb
            rw [htid] at hb
            exact ht hb.symm
          refine ⟨by rw [h2len]; exact ha, ?_, ?_⟩
          · rw [hTid]
            exact hb
          · rw [hEnd v hvne2]
            exact hc
      · intro u hu2 P hP
        rw [h2len] at hu2
        rw [hUp] at hP
        have h1 : s2.processes.length = s.processes.length := by rw [h2procs]
        rw [h1]
        exact hInv.upidRange u hu2 P hP
      · intro u hu2 P hP
        rw [h2len] at hu2
        rw [hUp] at hP
        rw [hMain, hTid, hPP]
        exact hInv.mainFlag u hu2 P hP
      · intro e he
        rw [h2passoc] at he
        obtain ⟨h1, h2, h3⟩ := hInv.pendOK e he
        refine ⟨by rw [h2len]; exact h1, by rw [h2len]; exact h2, ?_⟩
        rw [hUp, hUp]
        exact h3
      · intro e he
        rw [h2ppar] at he
        obtain ⟨h1, h2⟩ := hInv.pparOK e he
        have h3 : s2.processes.length = s.processes.length := by rw [h2procs]
        rw [h2len, h3]
        exact ⟨h1, h2⟩
      · intro p P hp
        rw [h2pids] at hp
        have h3 : s2.processes.length = s.processes.length := by rw [h2procs]
        rw [h3, hPP]
        exact hInv.pidsOK p P hp
      · refine ⟨by rw [h2len]; exact hInv.t0.1, ?_⟩
        rw [hTid]
        exact hInv.t0.2
      · have h3 : s2.processes.length = s.processes.length := by rw [h2procs]
        rw [h3, hPP]
        exact hInv.p0
      · intro h0
        rw [h2tids] at h0
        have h02 : fupd s.tids tid
            (some (((s.tids tid).getD []).filter (fun u => u ≠ utid))) 0 = none := h0
        unfold fupd at h02
        by_cases h00 : (0 : Nat) = tid
        · rw [if_pos h00] at h02
          cases h02
        · rw [if_neg h00] at h02
          have hune : (0 : Nat) ≠ utid := by
            intro hc
            rw [← hc] at htid
            rw [hInv.t0.2] at htid
            exact h00 htid
          rw [hEnd 0 hune]
          exact hInv.tids0 h02
    cases hup2 : s2.threadUpid utid with
    | none =>
      exact hInv2
    | some P =>
      simp only []
      by_cases hppt : s2.procPid P ≠ tid
      · rw [if_pos hppt]
        exact hInv2
      · rw [if_neg hppt]
        have hInvB : Inv (s2.setProc P (fun r => { r with end_ts := some ts })) :=
          inv_setProcPidPreserving s2 P _ hInv2 (fun r => rfl)
        refine ⟨hInvB.plen, hInvB.tidsOK, hInvB.upidRange, hInvB.mainFlag, hInvB.pendOK,
          hInvB.pparOK, ?_, hInvB.t0, hInvB.p0, hInvB.tids0⟩
        intro q Q hq
        have hq2 : fupd (s2.setProc P (fun r => { r with end_ts := some ts })).pids tid
            none q = some Q := hq
        unfold fupd at hq2
        by_cases hqt : q = tid
        · rw [if_pos hqt] at hq2
          cases hq2
        · rw [if_neg hqt] at hq2
          exact hInvB.pidsOK q Q hq2

/-! ### `AssociateThreads` -/

theorem associateThreads_bind2 (s : State) (u1 u2 P : Nat)
    (hA : s.threadUpid u1 = some P) (hB : s.threadUpid u2 = none) :
    associateThreads s u1 u2
      = resolvePendingAssociations (associateThreadToProcess s u2 P) u2 P := by
  unfold associateThreads
  rw [hA, hB]
  rfl

theorem associateThreads_bind1 (s : State) (u1 u2 Q : Nat)
    (hA : s.threadUpid u1 = none) (hB : s.threadUpid u2 = some Q) :
    associateThreads s u1 u2
      = resolvePendingAssociations (associateThreadToProcess s u1 Q) u1 Q := by
  unfold associateThreads
  rw [hA, hB]
  rfl

theorem associateThreads_err (s : State) (u1 u2 P Q : Nat)
    (hA : s.threadUpid u1 = some P) (hB : s.threadUpid u2 = some Q) (hne : P ≠ Q) :
    associateThreads s u1 u2
      = { s with process_tracker_errors := s.process_tracker_errors + 1 } := by
  unfold associateThreads
  rw [hA, hB]
  rw [if_neg (by simp), if_neg (by simp), if_pos (by simp [hne])]

theorem associateThreads_pend_nn (s : State) (u1 u2 : Nat)
    (hA : s.threadUpid u1 = none) (hB : s.threadUpid u2 = none) :
    associateThreads s u1 u2
      = { s with pending_assocs := s.pending_assocs ++ [(u1, u2)] } := by
  unfold associateThreads
  rw [hA, hB]
  rfl

theorem associateThreads_pend_ss (s : State) (u1 u2 P : Nat)
    (hA : s.threadUpid u1 = some P) (hB : s.threadUpid u2 = some P) :
    associateThreads s u1 u2
      = { s with pending_assocs := s.pending_assocs ++ [(u1, u2)] } := by
  unfold associateThreads
  rw [hA, hB]
  rw [if_neg (by simp), if_neg (by simp), if_neg (by simp)]

theorem inv_pendAppend (s : State) (u1 u2 : Nat) (hInv : Inv s)
    (h1 : u1 < s.threads.length) (h2 : u2 < s.threads.length)
    (hok : (s.threadUpid u1 = none ∧ s.threadUpid u2 = none)
      ∨ ∃ Q, s.threadUpid u1 = some Q ∧ s.threadUpid u2 = some Q) :
    Inv { s with pending_assocs := s.pending_assocs ++ [(u1, u2)] } := by
  refine ⟨hInv.plen, hInv.tidsOK, hInv.upidRange, hInv.mainFlag, ?_, hInv.pparOK,
    hInv.pidsOK, hInv.t0, hInv.p0, hInv.tids0⟩
  intro e he
  have he2 : e ∈ s.pending_assocs ++ [(u1, u2)] := he
  rcases List.mem_append.mp he2 with h | h
  · exact hInv.pendOK e h
  · simp only [List.mem_singleton] at h
    subst h
    exact ⟨h1, h2, hok⟩

theorem inv_associateThreads (s : State) (u1 u2 : Nat) (hInv : Inv s)
    (h1 : u1 < s.threads.length) (h2 : u2 < s.threads.length) :
    Inv (associateThreads s u1 u2) := by
  cases hA : s.threadUpid u1 with
  | none =>
    cases hB : s.threadUpid u2 with
    | none =>
      rw [associateThreads_pend_nn s u1 u2 hA hB]
      exact inv_pendAppend s u1 u2 hInv h1 h2 (Or.inl ⟨hA, hB⟩)
    | some Q =>
      rw [associateThreads_bind1 s u1 u2 Q hA hB]
      exact inv_bindResolve s u1 Q hInv h1 (hInv.upidRange u2 h2 Q hB) (Or.inl hA)
  | some P =>
    cases hB : s.threadUpid u2 with
    | none =>
      rw [associateThreads_bind2 s u1 u2 P hA hB]
      exact inv_bindResolve s u2 P hInv h2 (hInv.upidRange u1 h1 P hA) (Or.inl hB)
    | some Q =>
      by_cases hPQ : P = Q
      · subst hPQ
        rw [associateThreads_pend_ss s u1 u2 P hA hB]
        exact inv_pendAppend s u1 u2 hInv h1 h2 (Or.inr ⟨P, hA, hB⟩)
      · rw [associateThreads_err s u1 u2 P Q hA hB hPQ]
        exact ⟨hInv.plen, hInv.tidsOK, hInv.upidRange, hInv.mainFlag, hInv.pendOK,
          hInv.pparOK, hInv.pidsOK, hInv.t0, hInv.p0, hInv.tids0⟩

/-! ### The simple process setters -/

theorem inv_setProcessUid (s : State) (upid uid : Nat) (hInv : Inv s) :
    Inv (setProcessUid s upid uid) :=
  inv_setProcPidPreserving s upid _ hInv (fun _ => rfl)

theorem inv_setProcessNameIfUnset (s : State) (upid : Nat) (nm : StringId) (hInv : Inv s) :
    Inv (setProcessNameIfUnset s upid nm) := by
  unfold setProcessNameIfUnset
  by_cases h : (s.procName upid).isSome
  · rw [if_pos h]
    exact hInv
  · rw [if_neg h]
    exact inv_setProcPidPreserving s upid _ hInv (fun _ => rfl)

theorem inv_setStartTsIfUnset (s : State) (upid : Nat) (ts : Int) (hInv : Inv s) :
    Inv (setStartTsIfUnset s upid ts) := by
  unfold setStartTsIfUnset
  by_cases h : (s.procStartTs upid).isSome
  · rw [if_pos h]
    exact hInv
  · rw [if_neg h]
    exact inv_setProcPidPreserving s upid _ hInv (fun _ => rfl)

theorem inv_updateThreadNameAndMaybeProcessName (s : State) (tid : Nat) (nm : StringId)
    (prio : Nat) (hInv : Inv s) :
    Inv (updateThreadNameAndMaybeProcessName s tid nm prio) := by
  unfold updateThreadNameAndMaybeProcessName
  simp only []
  have hInv1 : Inv (updateThreadName s tid nm prio).2 :=
    inv_updateThreadName s tid nm prio hInv
  cases hup : (updateThreadName s tid nm prio).2.threadUpid
      (updateThreadName s tid nm prio).1 with
  | none => exact hInv1
  | some opt_upid =>
    simp only []
    by_cases h : ((updateThreadName s tid nm prio).2.procPid opt_upid == tid) = true
    · rw [if_pos h]
      exact inv_setProcPidPreserving _ opt_upid _ hInv1 (fun _ => rfl)
    · rw [if_neg h]
      exact hInv1

/-! ### `SetPidZeroIsUpidZeroIdleProcess` -/

theorem inv_setPidZero (s : State) (hInv : Inv s) :
    Inv (setPidZeroIsUpidZeroIdleProcess s) := by
  unfold setPidZeroIsUpidZeroIdleProcess
  have hInv1 : Inv (if (s.tids 0).isNone
      then { s with tids := fupd s.tids 0 (some [0]) } else s) := by
    by_cases h : (s.tids 0).isNone
    · rw [if_pos h]
      have h0 : s.tids 0 = none := Option.isNone_iff_eq_none.mp h
      refine ⟨hInv.plen, ?_, hInv.upidRange, hInv.mainFlag, hInv.pendOK, hInv.pparOK,
        hInv.pidsOK, hInv.t0, hInv.p0, ?_⟩
      · intro t l hl v hv
        have hl2 : fupd s.tids 0 (some [0]) t = some l := hl
        unfold fupd at hl2
        by_cases ht : t = 0
        · rw [if_pos ht] at hl2
          have hleq : l = [0] := (Option.some_inj.mp hl2).symm
          subst hleq
          simp only [List.mem_singleton] at hv
          subst hv
          refine ⟨hInv.t0.1, ?_, hInv.tids0 h0⟩
          show s.threadTid 0 = t
          rw [hInv.t0.2, ht]
        · rw [if_neg ht] at hl2
          exact hInv.tidsOK t l hl2 v hv
      · intro hc
        have hc2 : fupd s.tids 0 (some [0]) 0 = none := hc
        unfold fupd at hc2
        rw [if_pos rfl] at hc2
        cases hc2
    · rw [if_neg h]
      exact hInv
  have hInv2 : Inv (let s1 := if (s.tids 0).isNone
        then { s with tids := fupd s.tids 0 (some [0]) } else s
      if (s1.pids 0).isNone then { s1 with pids := fupd s1.pids 0 (some 0) } else s1) := by
    simp only []
    by_cases h : ((if (s.tids 0).isNone
        then { s with tids := fupd s.tids 0 (some [0]) } else s : State).pids 0).isNone
    · rw [if_pos h]
      refine ⟨hInv1.plen, hInv1.tidsOK, hInv1.upidRange, hInv1.mainFlag, hInv1.pendOK,
        hInv1.pparOK, ?_, hInv1.t0, hInv1.p0, hInv1.tids0⟩
      intro p P hp
      have hp2 : fupd (if (s.tids 0).isNone
          then { s with tids := fupd s.tids 0 (some [0]) } else s : State).pids 0
          (some 0) p = some P := hp
      unfold fupd at hp2
      by_cases hpz : p = 0
      · rw [if_pos hpz] at hp2
        have hP : P = 0 := (Option.some_inj.mp hp2).symm
        subst hP
        rw [hpz]
        exact hInv1.p0
      · rw [if_neg hpz] at hp2
        exact hInv1.pidsOK p P hp2
    · rw [if_neg h]
      exact hInv1
  exact inv_updateThreadName _ 0 swapperStringId kTraceProcessorConstant hInv2

/-! ### `StartNewProcess` and `SetProcessMetadata` -/

theorem inv_pidsErase (s : State) (pid : Nat) (hInv : Inv s) :
    Inv { s with pids := fupd s.pids pid none } := by
  refine ⟨hInv.plen, hInv.tidsOK, hInv.upidRange, hInv.mainFlag, hInv.pendOK, hInv.pparOK,
    ?_, hInv.t0, hInv.p0, hInv.tids0⟩
  intro p P hp
  have hp2 : fupd s.pids pid none p = some P := hp
  unfold fupd at hp2
  by_cases h : p = pid
  · rw [if_pos h] at hp2
    cases hp2
  · rw [if_neg h] at hp2
    exact hInv.pidsOK p P hp2

theorem inv_pparAppend (s : State) (u P : Nat) (hInv : Inv s)
    (hu : u < s.threads.length) (hP : P < s.processes.length) :
    Inv { s with pending_parent_assocs := s.pending_parent_assocs ++ [(u, P)] } := by
  refine ⟨hInv.plen, hInv.tidsOK, hInv.upidRange, hInv.mainFlag, hInv.pendOK, ?_,
    hInv.pidsOK, hInv.t0, hInv.p0, hInv.tids0⟩
  intro e he
  have he2 : e ∈ s.pending_parent_assocs ++ [(u, P)] := he
  rw [List.mem_append] at he2
  cases he2 with
  | inl h => exact hInv.pparOK e h
  | inr h =>
    have he3 : e = (u, P) := by simpa using h
    subst he3
    exact ⟨hu, hP⟩

theorem gocthread_processes (s : State) (tid : Nat) :
    (getOrCreateThread s tid).2.processes = s.processes := by
  unfold getOrCreateThread
  cases getThreadOrNull1 s tid with
  | some u => rfl
  | none => exact snt_processes s none tid

/-- The parent-association tail of `StartNewProcess`, for an arbitrary
intermediate state `s4`. -/
theorem inv_snpTail (s4 : State) (upid pt : Nat) (hInv4 : Inv s4)
    (hub : upid < s4.processes.length) :
    Inv (match (getOrCreateThread s4 pt).2.threadUpid (getOrCreateThread s4 pt).1 with
      | some parent_upid => (upid, (getOrCreateThread s4 pt).2.setProc upid
          (fun r => { r with parent_upid := some parent_upid }))
      | none => (upid, { (getOrCreateThread s4 pt).2 with pending_parent_assocs :=
          (getOrCreateThread s4 pt).2.pending_parent_assocs
            ++ [((getOrCreateThread s4 pt).1, upid)] })).2 := by
  obtain ⟨hInv5, hplt⟩ := inv_getOrCreateThread s4 pt hInv4
  cases hpu : (getOrCreateThread s4 pt).2.threadUpid (getOrCreateThread s4 pt).1 with
  | some pu =>
    simp only []
    exact inv_setProcPidPreserving _ upid _ hInv5 (fun _ => rfl)
  | none =>
    simp only []
    refine inv_pparAppend _ _ _ hInv5 hplt ?_
    rw [gocthread_processes]
    exact hub

theorem inv_startNewProcess (s : State) (ts : Option Int) (ptid : Option Nat)
    (pid : Nat) (mtn : StringId) (prio : Nat) (hInv : Inv s) :
    Inv (startNewProcess s ts ptid pid mtn prio).2 := by
  unfold startNewProcess
  simp only []
  set s0 : State := { s with pids := fupd s.pids pid none } with hs0
  set pr1 := startNewThread s0 ts pid with hpr1
  set s1 := updateThreadNameByUtid pr1.2 pr1.1 mtn prio with hs1
  set pr2 := getOrCreateProcess s1 pid with hpr2
  have hInv0 : Inv s0 := inv_pidsErase s pid hInv
  have hInvP1 : Inv pr1.2 := inv_startNewThread s0 ts pid hInv0
  have hInvS1 : Inv s1 := inv_updateThreadNameByUtid pr1.2 pr1.1 mtn prio hInvP1
  have hg := inv_getOrCreateProcess s1 pid hInvS1
  have hInvS2 : Inv pr2.2 := hg.1
  have hub : pr2.1 < pr2.2.processes.length := hg.2.2.1
  clear hg hInvS1 hInvP1 hInv0 hInv hs0 hpr1 hs1 hpr2
  clear_value pr2 s1 pr1 s0
  cases ts with
  | none =>
    simp only []
    have hInv4 : Inv (pr2.2.setProc pr2.1 (fun r => { r with name := some mtn })) :=
      inv_setProcPidPreserving pr2.2 pr2.1 _ hInvS2 (fun _ => rfl)
    have hub4 : pr2.1 < (pr2.2.setProc pr2.1
        (fun r => { r with name := some mtn })).processes.length := by
      rw [setProc_plen]
      exact hub
    cases ptid with
    | none => exact hInv4
    | some pt =>
      simp only []
      exact inv_snpTail _ pr2.1 pt hInv4 hub4
  | some t =>
    simp only []
    have hInv3 : Inv (pr2.2.setProc pr2.1 (fun r => { r with start_ts := some t })) :=
      inv_setProcPidPreserving pr2.2 pr2.1 _ hInvS2 (fun _ => rfl)
    have hInv4 : Inv ((pr2.2.setProc pr2.1
          (fun r => { r with start_ts := some t })).setProc pr2.1
        (fun r => { r with name := some mtn })) :=
      inv_setProcPidPreserving _ pr2.1 _ hInv3 (fun _ => rfl)
    have hub4 : pr2.1 < ((pr2.2.setProc pr2.1
          (fun r => { r with start_ts := some t })).setProc pr2.1
        (fun r => { r with name := some mtn })).processes.length := by
      rw [setProc_plen, setProc_plen]
      exact hub
    cases ptid with
    | none => exact hInv4
    | some pt =>
      simp only []
      exact inv_snpTail _ pr2.1 pt hInv4 hub4

theorem inv_setProcessMetadata (s : State) (pid : Nat) (ppid : Option Nat)
    (nm cl : StringId) (hInv : Inv s) : Inv (setProcessMetadata s pid ppid nm cl).2 := by
  cases ppid with
  | none =>
    unfold setProcessMetadata
    simp only []
    exact inv_setProcPidPreserving _ _ _ (inv_getOrCreateProcess s pid hInv).1 (fun _ => rfl)
  | some pp =>
    unfold setProcessMetadata
    simp only []
    have h1 : Inv (getOrCreateProcess s pp).2 := (inv_getOrCreateProcess s pp hInv).1
    have h2 : Inv (getOrCreateProcess (getOrCreateProcess s pp).2 pid).2 :=
      (inv_getOrCreateProcess _ pid h1).1
    exact inv_setProcPidPreserving _ _ _
      (inv_setProcPidPreserving _ _ _ h2 (fun _ => rfl)) (fun _ => rfl)

/-! ### The invariant holds along every valid call sequence -/

theorem inv_step (s : State) (c : Cmd) (hInv : Inv s) (hv : validCmd s c = true) :
    Inv (step s c) := by
  cases c with
  | startNewThread ts tid => exact inv_startNewThread s ts tid hInv
  | endThread ts tid => exact inv_endThread s ts tid hInv
  | getOrCreateThread tid => exact (inv_getOrCreateThread s tid hInv).1
  | updateThreadName tid nm prio => exact inv_updateThreadName s tid nm prio hInv
  | updateThreadNameByUtid utid nm prio =>
      exact inv_updateThreadNameByUtid s utid nm prio hInv
  | updateThread tid pid => exact (inv_updateThread s tid pid hInv).1
  | updateTrustedPid tp uuid => exact inv_updateTrustedPid s tp uuid hInv
  | startNewProcess ts ptid pid nm prio =>
      exact inv_startNewProcess s ts ptid pid nm prio hInv
  | setProcessMetadata pid ppid nm cl => exact inv_setProcessMetadata s pid ppid nm cl hInv
  | setProcessUid upid uid => exact inv_setProcessUid s upid uid hInv
  | setProcessNameIfUnset upid nm => exact inv_setProcessNameIfUnset s upid nm hInv
  | setStartTsIfUnset upid ts => exact inv_setStartTsIfUnset s upid ts hInv
  | updateThreadNameAndMaybeProcessName tid nm prio =>
      exact inv_updateThreadNameAndMaybeProcessName s tid nm prio hInv
  | getOrCreateProcess pid => exact (inv_getOrCreateProcess s pid hInv).1
  | associateThreads u1 u2 =>
      have hv2 : (decide (u1 < s.threads.length)
          && decide (u2 < s.threads.length)) = true := hv
      rw [Bool.and_eq_true, decide_eq_true_iff, decide_eq_true_iff] at hv2
      exact inv_associateThreads s u1 u2 hInv hv2.1 hv2.2
  | setPidZeroIsUpidZeroIdleProcess => exact inv_setPidZero s hInv
  | updateNamespacedProcess pid nspid => exact inv_updateNamespacedProcess s pid nspid hInv
  | updateNamespacedThread pid tid nstid =>
      exact inv_updateNamespacedThread s pid tid nstid hInv

theorem inv_run (s : State) (cs : List Cmd) (hInv : Inv s) (hv : validSeq s cs = true) :
    Inv (run s cs) := by
  induction cs generalizing s with
  | nil => exact hInv
  | cons c cs ih =>
    have hv2 : (validCmd s c && validSeq (step s c) cs) = true := hv
    rw [Bool.and_eq_true] at hv2
    exact ih (step s c) (inv_step s c hInv hv2.1) hv2.2

/-! ### Priority monotonicity -/

theorem prioLE_refl (s : State) : PrioLE s s := fun _ => Nat.le_refl _

theorem prioLE_trans {s t r : State} (h1 : PrioLE s t) (h2 : PrioLE t r) : PrioLE s r :=
  fun u => Nat.le_trans (h1 u) (h2 u)

theorem prioLE_of_eq {s t : State}
    (h : t.thread_name_priorities = s.thread_name_priorities) : PrioLE s t := by
  intro u
  unfold State.prioAt
  rw [h]

theorem ite_prios_eq {c : Prop} [Decidable c] {a b : State} {p : List Nat}
    (ha : a.thread_name_priorities = p) (hb : b.thread_name_priorities = p) :
    (if c then a else b).thread_name_priorities = p := by
  by_cases h : c
  · rw [if_pos h]
    exact ha
  · rw [if_neg h]
    exact hb

theorem snt_prioLE (s : State) (ts : Option Int) (tid : Nat) :
    PrioLE s (startNewThread s ts tid).2 := by
  intro u
  show s.prioAt u ≤ (startNewThread s ts tid).2.thread_name_priorities.getD u 0
  rw [snt_prios]
  by_cases h : u < s.thread_name_priorities.length
  · rw [getD_append_left _ _ _ _ h]
    exact Nat.le_refl _
  · have hL : s.prioAt u = 0 := by
      show s.thread_name_priorities.getD u 0 = 0
      exact List.getD_eq_default _ _ (Nat.le_of_not_lt h)
    rw [hL]
    exact Nat.zero_le _

theorem utnbu_prioLE (s : State) (utid : Nat) (nm : StringId) (prio : Nat) :
    PrioLE s (updateThreadNameByUtid s utid nm prio) := by
  unfold updateThreadNameByUtid
  by_cases h1 : nm = nullStringId
  · rw [if_pos h1]
    exact prioLE_refl s
  · rw [if_neg h1]
    by_cases h2 : s.prioAt utid ≤ prio
    · rw [if_pos h2]
      intro u
      show s.prioAt u ≤ (s.thread_name_priorities.set utid prio).getD u 0
      by_cases h3 : u = utid
      · subst h3
        by_cases h4 : u < s.thread_name_priorities.length
        · rw [getD_set_self _ _ _ _ h4]
          exact h2
        · rw [set_oob _ _ _ (Nat.le_of_not_lt h4)]
          exact Nat.le_refl _
      · rw [getD_set_ne _ _ _ _ _ h3]
        exact Nat.le_refl _
    · rw [if_neg h2]
      exact prioLE_refl s

theorem resolve_prios (s : State) (u P : Nat) :
    (resolvePendingAssociations s u P).thread_name_priorities
      = s.thread_name_priorities :=
  (resolvePendingAssociations_frame s u P).prios

theorem utn_prioLE (s : State) (tid pid : Nat) :
    PrioLE s (updateThreadNested s tid pid).2 := by
  cases hfound : getThreadOrNull s tid (some pid) with
  | some u0 =>
    rw [updateThreadNested_found s tid pid u0 hfound]
    simp only []
    refine prioLE_of_eq ?_
    rw [resolve_prios]
    by_cases h : (s.threadUpid u0).isNone
    · rw [if_pos h]
      cases s.pids pid with
      | some upid => exact assoc_prios s u0 upid
      | none => rfl
    · rw [if_neg h]
  | none =>
    rw [updateThreadNested_none s tid pid hfound]
    simp only []
    refine prioLE_trans (snt_prioLE s none tid) (prioLE_of_eq ?_)
    rw [resolve_prios]
    by_cases h : ((startNewThread s none tid).2.threadUpid s.threads.length).isNone
    · rw [if_pos h]
      cases (startNewThread s none tid).2.pids pid with
      | some upid => exact assoc_prios _ s.threads.length upid
      | none => rfl
    · rw [if_neg h]

theorem gocp_prioLE (s : State) (pid : Nat) :
    PrioLE s (getOrCreateProcess s pid).2 := by
  cases hp : s.pids pid with
  | some U =>
    rw [gocp_present s pid U hp]
    exact prioLE_refl s
  | none =>
    rw [gocp_absent s pid hp]
    show PrioLE s (updateThreadNested { s with
      pids := fupd s.pids pid (some s.processes.length)
      processes := s.processes ++ [{ pid := pid }] } pid pid).2
    exact prioLE_trans (prioLE_of_eq rfl) (utn_prioLE { s with
      pids := fupd s.pids pid (some s.processes.length)
      processes := s.processes ++ [{ pid := pid }] } pid pid)

theorem goct_prioLE (s : State) (tid : Nat) :
    PrioLE s (getOrCreateThread s tid).2 := by
  unfold getOrCreateThread
  cases getThreadOrNull1 s tid with
  | some u => exact prioLE_refl s
  | none => exact snt_prioLE s none tid

theorem updateThreadName_prioLE (s : State) (tid : Nat) (nm : StringId) (prio : Nat) :
    PrioLE s (updateThreadName s tid nm prio).2 := by
  unfold updateThreadName
  exact prioLE_trans (goct_prioLE s tid)
    (utnbu_prioLE (getOrCreateThread s tid).2 (getOrCreateThread s tid).1 nm prio)

theorem updateThread_prioLE (s : State) (tid pid : Nat) :
    PrioLE s (updateThread s tid pid).2 := by
  cases hfound : getThreadOrNull s tid (some pid) with
  | some u0 =>
    rw [updateThread_found s tid pid u0 hfound]
    simp only []
    refine prioLE_trans ?_ (prioLE_of_eq (resolve_prios _ _ _))
    by_cases h : (s.threadUpid u0).isNone
    · rw [if_pos h]
      exact prioLE_trans (gocp_prioLE s pid) (prioLE_of_eq (assoc_prios _ _ _))
    · rw [if_neg h]
      exact prioLE_refl s
  | none =>
    rw [updateThread_none s tid pid hfound]
    simp only []
    refine prioLE_trans ?_ (prioLE_of_eq (resolve_prios _ _ _))
    refine prioLE_trans (snt_prioLE s none tid) ?_
    by_cases h : ((startNewThread s none tid).2.threadUpid s.threads.length).isNone
    · rw [if_pos h]
      exact prioLE_trans (gocp_prioLE _ pid) (prioLE_of_eq (assoc_prios _ _ _))
    · rw [if_neg h]
      exact prioLE_refl _

/-- Priorities are untouched by the tail of `EndThread`, for an arbitrary
intermediate state `s2`. -/
theorem endThread_tail_prios (s2 : State) (ts : Int) (tid utid : Nat) :
    (match s2.threadUpid utid with
      | none => s2
      | some opt_upid =>
        if s2.procPid opt_upid ≠ tid then s2
        else
          { s2.setProc opt_upid (fun r => { r with end_ts := some ts }) with
            pids := fupd (s2.setProc opt_upid
              (fun r => { r with end_ts := some ts })).pids tid
              none }).thread_name_priorities
      = s2.thread_name_priorities := by
  cases s2.threadUpid utid with
  | none => rfl
  | some opt_upid =>
    simp only []
    by_cases h : s2.procPid opt_upid ≠ tid
    · rw [if_pos h]
    · rw [if_neg h]
      rfl

theorem endThread_prios (s : State) (ts : Int) (tid : Nat) :
    (endThread s ts tid).thread_name_priorities = s.thread_name_priorities := by
  unfold endThread
  cases getThreadOrNull1 s tid with
  | none => rfl
  | some utid =>
    simp only []
    exact endThread_tail_prios _ ts tid utid

/-- Priorities are untouched by the parent-association tail of
`StartNewProcess`. -/
theorem snpTail_prios (s4 : State) (upid pt : Nat) :
    (match (getOrCreateThread s4 pt).2.threadUpid (getOrCreateThread s4 pt).1 with
      | some parent_upid => (upid, (getOrCreateThread s4 pt).2.setProc upid
          (fun r => { r with parent_upid := some parent_upid }))
      | none => (upid, { (getOrCreateThread s4 pt).2 with pending_parent_assocs :=
          (getOrCreateThread s4 pt).2.pending_parent_assocs
            ++ [((getOrCreateThread s4 pt).1, upid)] })).2.thread_name_priorities
      = (getOrCreateThread s4 pt).2.thread_name_priorities := by
  cases (getOrCreateThread s4 pt).2.threadUpid (getOrCreateThread s4 pt).1 with
  | some pu => rfl
  | none => rfl

theorem snp_prioLE (s : State) (ts : Option Int) (ptid : Option Nat) (pid : Nat)
    (mtn : StringId) (prio : Nat) :
    PrioLE s (startNewProcess s ts ptid pid mtn prio).2 := by
  unfold startNewProcess
  simp only []
  set s0 : State := { s with pids := fupd s.pids pid none } with hs0
  set pr1 := startNewThread s0 ts pid with hpr1
  set s1 := updateThreadNameByUtid pr1.2 pr1.1 mtn prio with hs1
  set pr2 := getOrCreateProcess s1 pid with hpr2
  have h0 : PrioLE s s0 := prioLE_of_eq rfl
  have h1 : PrioLE s pr1.2 := prioLE_trans h0 (snt_prioLE s0 ts pid)
  have h2 : PrioLE s s1 := prioLE_trans h1 (utnbu_prioLE pr1.2 pr1.1 mtn prio)
  have h3 : PrioLE s pr2.2 := prioLE_trans h2 (gocp_prioLE s1 pid)
  clear h0 h1 h2 hs0 hpr1 hs1 hpr2
  clear_value pr2 s1 pr1 s0
  cases ts with
  | none =>
    simp only []
    have h4 : PrioLE s (pr2.2.setProc pr2.1 (fun r => { r with name := some mtn })) :=
      prioLE_trans h3 (prioLE_of_eq rfl)
    cases ptid with
    | none => exact h4
    | some pt =>
      simp only []
      refine prioLE_trans (prioLE_trans h4 (goct_prioLE _ pt)) (prioLE_of_eq ?_)
      exact snpTail_prios _ pr2.1 pt
  | some t =>
    simp only []
    have h4 : PrioLE s ((pr2.2.setProc pr2.1
        (fun r => { r with start_ts := some t })).setProc pr2.1
          (fun r => { r with name := some mtn })) :=
      prioLE_trans h3 (prioLE_of_eq rfl)
    cases ptid with
    | none => exact h4
    | some pt =>
      simp only []
      refine prioLE_trans (prioLE_trans h4 (goct_prioLE _ pt)) (prioLE_of_eq ?_)
      exact snpTail_prios _ pr2.1 pt

theorem spm_prioLE (s : State) (pid : Nat) (ppid : Option Nat) (nm cl : StringId) :
    PrioLE s (setProcessMetadata s pid ppid nm cl).2 := by
  cases ppid with
  | none =>
    unfold setProcessMetadata
    simp only []
    exact prioLE_trans (gocp_prioLE s pid) (prioLE_of_eq rfl)
  | some pp =>
    unfold setProcessMetadata
    simp only []
    exact prioLE_trans (prioLE_trans (gocp_prioLE s pp) (gocp_prioLE _ pid))
      (prioLE_of_eq rfl)

theorem utnampn_prioLE (s : State) (tid : Nat) (nm : StringId) (prio : Nat) :
    PrioLE s (updateThreadNameAndMaybeProcessName s tid nm prio) := by
  unfold updateThreadNameAndMaybeProcessName
  simp only []
  refine prioLE_trans (updateThreadName_prioLE s tid nm prio) (prioLE_of_eq ?_)
  cases hup : (updateThreadName s tid nm prio).2.threadUpid
      (updateThreadName s tid nm prio).1 with
  | none => rfl
  | some opt_upid =>
    simp only []
    by_cases h : ((updateThreadName s tid nm prio).2.procPid opt_upid == tid) = true
    · rw [if_pos h]
      rfl
    · rw [if_neg h]

theorem associateThreads_prioLE (s : State) (u1 u2 : Nat) :
    PrioLE s (associateThreads s u1 u2) := by
  cases hA : s.threadUpid u1 with
  | none =>
    cases hB : s.threadUpid u2 with
    | none =>
      rw [associateThreads_pend_nn s u1 u2 hA hB]
      exact prioLE_of_eq rfl
    | some Q =>
      rw [associateThreads_bind1 s u1 u2 Q hA hB]
      exact prioLE_of_eq (by rw [resolve_prios, assoc_prios])
  | some P =>
    cases hB : s.threadUpid u2 with
    | none =>
      rw [associateThreads_bind2 s u1 u2 P hA hB]
      exact prioLE_of_eq (by rw [resolve_prios, assoc_prios])
    | some Q =>
      by_cases hPQ : P = Q
      · subst hPQ
        rw [associateThreads_pend_ss s u1 u2 P hA hB]
        exact prioLE_of_eq rfl
      · rw [associateThreads_err s u1 u2 P Q hA hB hPQ]
        exact prioLE_of_eq rfl

theorem setPidZero_prioLE (s : State) :
    PrioLE s (setPidZeroIsUpidZeroIdleProcess s) := by
  unfold setPidZeroIsUpidZeroIdleProcess
  simp only []
  refine prioLE_trans (prioLE_of_eq ?_)
    (updateThreadName_prioLE _ 0 swapperStringId kTraceProcessorConstant)
  split <;> split <;> rfl

theorem step_prioLE (s : State) (c : Cmd) : PrioLE s (step s c) := by
  cases c with
  | startNewThread ts tid => exact snt_prioLE s ts tid
  | endThread ts tid => exact prioLE_of_eq (endThread_prios s ts tid)
  | getOrCreateThread tid => exact goct_prioLE s tid
  | updateThreadName tid nm prio => exact updateThreadName_prioLE s tid nm prio
  | updateThreadNameByUtid utid nm prio => exact utnbu_prioLE s utid nm prio
  | updateThread tid pid => exact updateThread_prioLE s tid pid
  | updateTrustedPid tp uuid => exact prioLE_of_eq rfl
  | startNewProcess ts ptid pid nm prio => exact snp_prioLE s ts ptid pid nm prio
  | setProcessMetadata pid ppid nm cl => exact spm_prioLE s pid ppid nm cl
  | setProcessUid upid uid => exact prioLE_of_eq rfl
  | setProcessNameIfUnset upid nm =>
      exact prioLE_of_eq (ite_prios_eq rfl rfl)
  | setStartTsIfUnset upid ts =>
      exact prioLE_of_eq (ite_prios_eq rfl rfl)
  | updateThreadNameAndMaybeProcessName tid nm prio => exact utnampn_prioLE s tid nm prio
  | getOrCreateProcess pid => exact gocp_prioLE s pid
  | associateThreads u1 u2 => exact associateThreads_prioLE s u1 u2
  | setPidZeroIsUpidZeroIdleProcess => exact setPidZero_prioLE s
  | updateNamespacedProcess pid nspid => exact prioLE_of_eq rfl
  | updateNamespacedThread pid tid nstid => exact prioLE_of_eq rfl

theorem run_prioLE (s : State) (cs : List Cmd) : PrioLE s (run s cs) := by
  induction cs generalizing s with
  | nil => exact prioLE_refl s
  | cons c cs ih => exact prioLE_trans (step_prioLE s c) (ih (step s c))

/-! ### The spec-side thread lookup coincides with the source's -/

theorem isThreadAlive_eq_spec (s : State) (u : Nat) :
    isThreadAlive s u = isThreadAliveSpec s u := by
  unfold isThreadAlive isThreadAliveSpec
  cases hend : s.threadEndTs u with
  | some e => rfl
  | none =>
    cases hup : s.threadUpid u with
    | none => rfl
    | some P =>
      simp only []
      cases hpe : s.procEndTs P with
      | some e2 => rfl
      | none =>
        cases hq : s.pids (s.procPid P) with
        | none => rfl
        | some Q => rfl

theorem getThreadLoop_eq_find (s : State) (pid : Option Nat) (l : List Nat) :
    getThreadLoop s pid l = l.find? (fun u =>
      isThreadAliveSpec s u &&
        (pid.isNone || (s.threadUpid u).isNone
          || (s.procPid ((s.threadUpid u).getD 0) == pid.getD 0))) := by
  induction l with
  | nil => rfl
  | cons c rest ih =>
    have hspec := isThreadAlive_eq_spec s c
    cases halive : isThreadAlive s c with
    | false =>
      rw [List.find?_cons_of_neg _ (by simp [← hspec, halive])]
      simp only [getThreadLoop, halive, Bool.not_false]
      rw [if_pos (by trivial)]
      exact ih
    | true =>
      simp only [getThreadLoop, halive, Bool.not_true]
      rw [if_neg (by simp)]
      cases hup : s.threadUpid c with
      | none =>
        rw [List.find?_cons_of_pos _ (by simp [← hspec, halive, hup])]
      | some P =>
        simp only []
        by_cases hcond : (pid.isNone || (s.procPid P == pid.getD 0)) = true
        · rw [if_pos hcond]
          rw [List.find?_cons_of_pos _ (by
            rw [← hspec, halive, hup]
            simpa using hcond)]
        · rw [if_neg hcond]
          rw [List.find?_cons_of_neg _ (by
            rw [← hspec, halive, hup]
            simpa using hcond)]
          exact ih

theorem getThreadOrNull_eq_spec (s : State) (tid : Nat) (pid : Option Nat) :
    getThreadOrNull s tid pid = getThreadOrNullSpec s tid pid := by
  unfold getThreadOrNull getThreadOrNullSpec
  cases ht : s.tids tid with
  | none => rfl
  | some vector =>
    simp only [Option.getD_some]
    exact getThreadLoop_eq_find s pid vector.reverse

/-! ### Field bookkeeping of `StartNewProcess` -/

theorem setProc_procPid (s : State) (p : Nat) (f : ProcessRow → ProcessRow)
    (hf : ∀ r, (f r).pid = r.pid) (q : Nat) :
    (s.setProc p f).procPid q = s.procPid q := by
  rw [State.procPid, procRow_setProc]
  by_cases h : q = p ∧ p < s.processes.length
  · rw [if_pos h, hf, h.1]
    rfl
  · rw [if_neg h]
    rfl

theorem gocthread_pids (s : State) (tid : Nat) :
    (getOrCreateThread s tid).2.pids = s.pids := by
  unfold getOrCreateThread
  cases getThreadOrNull1 s tid with
  | some u => rfl
  | none => exact snt_pids s none tid

theorem gocthread_procPid (s : State) (tid q : Nat) :
    (getOrCreateThread s tid).2.procPid q = s.procPid q := by
  unfold State.procPid State.procRow
  rw [gocthread_processes]

theorem utnbu_processes (s : State) (utid : Nat) (nm : StringId) (p : Nat) :
    (updateThreadNameByUtid s utid nm p).processes = s.processes := by
  unfold updateThreadNameByUtid
  split
  · rfl
  · split <;> rfl

theorem utnbu_pids (s : State) (utid : Nat) (nm : StringId) (p : Nat) :
    (updateThreadNameByUtid s utid nm p).pids = s.pids := by
  unfold updateThreadNameByUtid
  split
  · rfl
  · split <;> rfl

theorem snpTail_fst (s4 : State) (upid pt : Nat) :
    (match (getOrCreateThread s4 pt).2.threadUpid (getOrCreateThread s4 pt).1 with
      | some parent_upid => (upid, (getOrCreateThread s4 pt).2.setProc upid
          (fun r => { r with parent_upid := some parent_upid }))
      | none => (upid, { (getOrCreateThread s4 pt).2 with pending_parent_assocs :=
          (getOrCreateThread s4 pt).2.pending_parent_assocs
            ++ [((getOrCreateThread s4 pt).1, upid)] })).1 = upid := by
  cases (getOrCreateThread s4 pt).2.threadUpid (getOrCreateThread s4 pt).1 with
  | some pu => rfl
  | none => rfl

theorem snpTail_pids (s4 : State) (upid pt : Nat) :
    (match (getOrCreateThread s4 pt).2.threadUpid (getOrCreateThread s4 pt).1 with
      | some parent_upid => (upid, (getOrCreateThread s4 pt).2.setProc upid
          (fun r => { r with parent_upid := some parent_upid }))
      | none => (upid, { (getOrCreateThread s4 pt).2 with pending_parent_assocs :=
          (getOrCreateThread s4 pt).2.pending_parent_assocs
            ++ [((getOrCreateThread s4 pt).1, upid)] })).2.pids = s4.pids := by
  cases (getOrCreateThread s4 pt).2.threadUpid (getOrCreateThread s4 pt).1 with
  | some pu =>
    show ((getOrCreateThread s4 pt).2.setProc upid _).pids = s4.pids
    rw [setProc_pids, gocthread_pids]
  | none =>
    show (getOrCreateThread s4 pt).2.pids = s4.pids
    exact gocthread_pids s4 pt

theorem snpTail_procPid (s4 : State) (upid pt q : Nat) :
    (match (getOrCreateThread s4 pt).2.threadUpid (getOrCreateThread s4 pt).1 with
      | some parent_upid => (upid, (getOrCreateThread s4 pt).2.setProc upid
          (fun r => { r with parent_upid := some parent_upid }))
      | none => (upid, { (getOrCreateThread s4 pt).2 with pending_parent_assocs :=
          (getOrCreateThread s4 pt).2.pending_parent_assocs
            ++ [((getOrCreateThread s4 pt).1, upid)] })).2.procPid q = s4.procPid q := by
  cases (getOrCreateThread s4 pt).2.threadUpid (getOrCreateThread s4 pt).1 with
  | some pu =>
    exact (setProc_procPid (getOrCreateThread s4 pt).2 upid
      (fun r => { r with parent_upid := some pu }) (fun _ => rfl) q).trans
      (gocthread_procPid s4 pt q)
  | none =>
    show (getOrCreateThread s4 pt).2.procPid q = s4.procPid q
    exact gocthread_procPid s4 pt q

/-- The observable bookkeeping of `StartNewProcess`: a fresh UPID equal to the
old process-table size is returned, `pids_[pid]` is remapped to it, and the
pid column of every pre-existing process row is untouched. -/
theorem snp_facts (s : State) (ts : Option Int) (ptid : Option Nat) (pid : Nat)
    (mtn : StringId) (prio : Nat) (hInv : Inv s) :
    (startNewProcess s ts ptid pid mtn prio).1 = s.processes.length
    ∧ (startNewProcess s ts ptid pid mtn prio).2.pids pid = some s.processes.length
    ∧ (∀ p, p < s.processes.length →
        (startNewProcess s ts ptid pid mtn prio).2.procPid p = s.procPid p) := by
  unfold startNewProcess
  simp only []
  set s0 : State := { s with pids := fupd s.pids pid none } with hs0
  set pr1 := startNewThread s0 ts pid with hpr1
  set s1 := updateThreadNameByUtid pr1.2 pr1.1 mtn prio with hs1
  set pr2 := getOrCreateProcess s1 pid with hpr2
  have hInv0 : Inv s0 := inv_pidsErase s pid hInv
  have hInvP1 : Inv pr1.2 := inv_startNewThread s0 ts pid hInv0
  have hInvS1 : Inv s1 := inv_updateThreadNameByUtid pr1.2 pr1.1 mtn prio hInvP1
  have hproc1 : s1.processes = s.processes := by
    rw [hs1, utnbu_processes, hpr1, snt_processes]
  have hpid1 : s1.pids pid = none := by
    rw [hs1, utnbu_pids, hpr1, snt_pids]
    show fupd s.pids pid none pid = none
    unfold fupd
    rw [if_pos rfl]
  have hg := inv_getOrCreateProcess s1 pid hInvS1
  have hfst : pr2.1 = s.processes.length := by
    rw [hpr2, gocp_absent s1 pid hpid1]
    show s1.processes.length = s.processes.length
    rw [hproc1]
  have hpid2 : pr2.2.pids pid = some pr2.1 := hg.2.1
  have hpp2 : ∀ p, p < s.processes.length → pr2.2.procPid p = s.procPid p := by
    intro p hp
    have h7 : (getOrCreateProcess s1 pid).2.procPid p = s1.procPid p :=
      hg.2.2.2.2.2.2.1 p (by rw [hproc1]; exact hp)
    have h8 : s1.procPid p = s.procPid p := by
      unfold State.procPid State.procRow
      rw [hproc1]
    exact h7.trans h8
  rw [hfst] at hpid2
  clear hg hInvS1 hInvP1 hInv0 hInv hs0 hpr1 hs1 hpr2 hproc1 hpid1
  clear_value pr2 s1 pr1 s0
  cases ts with
  | none =>
    cases ptid with
    | none =>
      refine ⟨hfst, ?_, ?_⟩
      · show (pr2.2.setProc pr2.1 (fun r => { r with name := some mtn })).pids pid
          = some s.processes.length
        rw [setProc_pids]
        exact hpid2
      · intro p hp
        exact (setProc_procPid pr2.2 pr2.1 (fun r => { r with name := some mtn })
          (fun _ => rfl) p).trans (hpp2 p hp)
    | some pt =>
      simp only []
      refine ⟨?_, ?_, ?_⟩
      · rw [snpTail_fst]
        exact hfst
      · rw [snpTail_pids, setProc_pids]
        exact hpid2
      · intro p hp
        rw [snpTail_procPid]
        exact (setProc_procPid pr2.2 pr2.1 (fun r => { r with name := some mtn })
          (fun _ => rfl) p).trans (hpp2 p hp)
  | some t =>
    cases ptid with
    | none =>
      refine ⟨hfst, ?_, ?_⟩
      · show ((pr2.2.setProc pr2.1 (fun r => { r with start_ts := some t })).setProc pr2.1
            (fun r => { r with name := some mtn })).pids pid = some s.processes.length
        rw [setProc_pids, setProc_pids]
        exact hpid2
      · intro p hp
        exact ((setProc_procPid
            (pr2.2.setProc pr2.1 (fun r => { r with start_ts := some t })) pr2.1
            (fun r => { r with name := some mtn }) (fun _ => rfl) p).trans
          (setProc_procPid pr2.2 pr2.1 (fun r => { r with start_ts := some t })
            (fun _ => rfl) p)).trans (hpp2 p hp)
    | some pt =>
      simp only []
      refine ⟨?_, ?_, ?_⟩
      · rw [snpTail_fst]
        exact hfst
      · rw [snpTail_pids, setProc_pids, setProc_pids]
        exact hpid2
      · intro p hp
        rw [snpTail_procPid]
        exact ((setProc_procPid
            (pr2.2.setProc pr2.1 (fun r => { r with start_ts := some t })) pr2.1
            (fun r => { r with name := some mtn }) (fun _ => rfl) p).trans
          (setProc_procPid pr2.2 pr2.1 (fun r => { r with start_ts := some t })
            (fun _ => rfl) p)).trans (hpp2 p hp)

/-- A thread whose process's pid has been remapped to a different UPID is not
alive. -/
theorem dead_of_pid_remapped (s : State) (u X Y : Nat)
    (hup : s.threadUpid u = some X)
    (hmap : s.pids (s.procPid X) = some Y) (hne : Y ≠ X) :
    isThreadAlive s u = false := by
  unfold isThreadAlive
  rw [hup]
  by_cases h : (s.threadEndTs u).isSome
  · rw [if_pos h]
  · rw [if_neg h]
    simp only []
    by_cases h2 : (s.procEndTs X).isSome
    · rw [if_pos h2]
    · rw [if_neg h2]
      rw [hmap]
      simp [hne]

theorem getThreadLoop_none (s : State) (pid : Option Nat) (l : List Nat)
    (h : ∀ u ∈ l, isThreadAlive s u = false) : getThreadLoop s pid l = none := by
  induction l with
  | nil => rfl
  | cons c rest ih =>
    simp only [getThreadLoop, h c (List.mem_cons_self c rest), Bool.not_false]
    rw [if_pos (by trivial)]
    exact ih (fun u hu => h u (List.mem_cons_of_mem c hu))

theorem getThreadOrNull_none_of_dead (s : State) (tid : Nat) (pid : Option Nat)
    (l : List Nat) (hl : s.tids tid = some l)
    (h : ∀ u ∈ l, isThreadAlive s u = false) :
    getThreadOrNull s tid pid = none := by
  unfold getThreadOrNull
  rw [hl]
  exact getThreadLoop_none s pid l.reverse (fun u hu => h u (List.mem_reverse.mp hu))

/-! ### Ascending iteration order of the namespaced thread set -/

theorem insertAsc_eq_orderedInsert (x : Nat) (l : List Nat) :
    insertAsc x l = List.orderedInsert (· ≤ ·) x l := by
  induction l with
  | nil => rfl
  | cons y ys ih =>
    unfold insertAsc List.orderedInsert
    by_cases h : x ≤ y
    · rw [if_pos h, if_pos h]
    · rw [if_neg h, if_neg h, ih]

theorem sortAsc_eq_insertionSort (l : List Nat) :
    sortAsc l = List.insertionSort (· ≤ ·) l := by
  induction l with
  | nil => rfl
  | cons y ys ih =>
    show insertAsc y (sortAsc ys) = _
    rw [ih, insertAsc_eq_orderedInsert]
    rfl

theorem mem_sortAsc {x : Nat} {l : List Nat} : x ∈ sortAsc l ↔ x ∈ l := by
  rw [sortAsc_eq_insertionSort]
  exact (List.perm_insertionSort (· ≤ ·) l).mem_iff

theorem sortAsc_sorted (l : List Nat) : List.Sorted (· ≤ ·) (sortAsc l) := by
  rw [sortAsc_eq_insertionSort]
  exact List.sorted_insertionSort (· ≤ ·) l

theorem find_sorted_min {p : Nat → Bool} : ∀ (l : List Nat), List.Sorted (· ≤ ·) l →
    ∀ t, l.find? p = some t → ∀ y ∈ l, p y = true → t ≤ y := by
  intro l
  induction l with
  | nil =>
    intro _ t h
    cases h
  | cons a as ih =>
    intro hs t hf y hy hpy
    cases hpa : p a with
    | true =>
      rw [List.find?_cons_of_pos _ hpa] at hf
      have ht : t = a := (Option.some_inj.mp hf).symm
      subst ht
      rcases List.mem_cons.mp hy with h | h
      · rw [h]
      · exact (List.sorted_cons.mp hs).1 y h
    | false =>
      rw [List.find?_cons_of_neg _ (by simp [hpa])] at hf
      rcases List.mem_cons.mp hy with h | h
      · rw [h] at hpy
        rw [hpy] at hpa
        cases hpa
      · exact ih (List.sorted_cons.mp hs).2 t hf y h hpy

/-! ### The claims -/

theorem nat_beq_comm (a b : Nat) : (a == b) = (b == a) := by
  by_cases h : a = b
  · subst h
    rfl
  · simp [h, Ne.symm h]

/-- C3: `GetThreadOrNull(tid, pid)` traverses `tids_[tid]` from newest to
oldest and returns the first UTID that is alive and either has no upid, or no
pid was given, or whose process has the requested pid (nullopt when no such
UTID exists), where aliveness is as the spec words it
(`isThreadAliveSpec`/`getThreadOrNullSpec` are written from the spec's words
and proved equal to the source translation). -/
theorem C3_getThreadOrNull_spec (s : State) (tid : Nat) (pid : Option Nat) (u : Nat) :
    getThreadOrNull s tid pid = getThreadOrNullSpec s tid pid
    ∧ isThreadAlive s u = isThreadAliveSpec s u :=
  ⟨getThreadOrNull_eq_spec s tid pid, isThreadAlive_eq_spec s u⟩

/-- C5: after any valid sequence of public calls on a fresh tracker, every
thread row with `upid` set has `is_main_thread` set and equal to
`process.pid[upid] == thread.tid[u]`. -/
theorem C5_main_thread_flag (cs : List Cmd) (hv : validSeq initState cs = true) :
    ∀ u P, u < (run initState cs).threads.length →
      (run initState cs).threadUpid u = some P →
      (run initState cs).threadIsMain u
        = some ((run initState cs).procPid P == (run initState cs).threadTid u) := by
  intro u P hu hP
  rw [(inv_run initState cs inv_init hv).mainFlag u hu P hP, nat_beq_comm]

/-- C6: `AssociateThreads` on two threads bound to two distinct UPIDs only
increments the `process_tracker_errors` stat: no thread or process row
changes, no pending entry is added, and the call returns normally. -/
theorem C6_conflicting_association (s : State) (a b P Q : Nat)
    (hA : s.threadUpid a = some P) (hB : s.threadUpid b = some Q) (hne : P ≠ Q) :
    associateThreads s a b
      = { s with process_tracker_errors := s.process_tracker_errors + 1 }
    ∧ (associateThreads s a b).threads = s.threads
    ∧ (associateThreads s a b).processes = s.processes
    ∧ (associateThreads s a b).pending_assocs = s.pending_assocs
    ∧ (associateThreads s a b).pending_parent_assocs = s.pending_parent_assocs
    ∧ (associateThreads s a b).process_tracker_errors
        = s.process_tracker_errors + 1 := by
  have h := associateThreads_err s a b P Q hA hB hne
  exact ⟨h, by rw [h], by rw [h], by rw [h], by rw [h], by rw [h]⟩

/-- C7 is refuted: `AssociateThreads` on two threads that are both already
bound to the same process appends a `pending_assocs_` entry whose two threads
both have upids, so the claimed invariant fails after a valid call
sequence. -/
theorem C7_counterexample_pending_both_bound :
    validSeq initState [Cmd.updateThread 1 100, Cmd.updateThread 5 100,
        Cmd.associateThreads 1 2] = true
    ∧ (1, 2) ∈ (run initState [Cmd.updateThread 1 100, Cmd.updateThread 5 100,
        Cmd.associateThreads 1 2]).pending_assocs
    ∧ (run initState [Cmd.updateThread 1 100, Cmd.updateThread 5 100,
        Cmd.associateThreads 1 2]).threadUpid 1 = some 1
    ∧ (run initState [Cmd.updateThread 1 100, Cmd.updateThread 5 100,
        Cmd.associateThreads 1 2]).threadUpid 2 = some 1 := by
  refine ⟨by decide, by decide, by decide, by decide⟩

/-- C7 (amended): after any valid sequence of public calls on a fresh tracker,
every `pending_assocs_` entry has either both thread upids unset, or both set
to the same UPID (entries with two equal bound upids are kept by
`AssociateThreads`, contradicting the claimed "no entry with both upids set"
but satisfying this weaker invariant). -/
theorem C7_amended_pending_entries (cs : List Cmd) (hv : validSeq initState cs = true) :
    ∀ e ∈ (run initState cs).pending_assocs,
      ((run initState cs).threadUpid e.1 = none
        ∧ (run initState cs).threadUpid e.2 = none)
      ∨ ∃ Q, (run initState cs).threadUpid e.1 = some Q
          ∧ (run initState cs).threadUpid e.2 = some Q :=
  fun e he => ((inv_run initState cs inv_init hv).pendOK e he).2.2

/-- C8: the recorded thread-name priority is non-decreasing across any
sequence of public calls, and `UpdateThreadNameByUtid(u, name, p)` is a no-op
when `name` is null, writes the name and the priority when
`p >= name_priority[u]`, and leaves the state unchanged when
`p < name_priority[u]`. -/
theorem C8_priority_monotonicity (s : State) (cs : List Cmd) (u : Nat)
    (nm : StringId) (p : Nat) (hu1 : u < s.threads.length)
    (hu2 : u < s.thread_name_priorities.length) :
    s.prioAt u ≤ (run s cs).prioAt u
    ∧ (nm = nullStringId → updateThreadNameByUtid s u nm p = s)
    ∧ (nm ≠ nullStringId → s.prioAt u ≤ p →
        (updateThreadNameByUtid s u nm p).threadName u = some nm
        ∧ (updateThreadNameByUtid s u nm p).prioAt u = p)
    ∧ (p < s.prioAt u → updateThreadNameByUtid s u nm p = s) := by
  refine ⟨run_prioLE s cs u, ?_, ?_, ?_⟩
  · intro h
    unfold updateThreadNameByUtid
    rw [if_pos h]
  · intro h1 h2
    unfold updateThreadNameByUtid
    rw [if_neg h1, if_pos h2]
    constructor
    · show (((s.threads.set u
        { (s.threads.getD u dfltThread) with name := some nm }).getD u dfltThread)).name
        = some nm
      rw [getD_set_self _ _ _ _ hu1]
    · show (s.thread_name_priorities.set u p).getD u 0 = p
      rw [getD_set_self _ _ _ _ hu2]
  · intro h3
    unfold updateThreadNameByUtid
    by_cases h1 : nm = nullStringId
    · rw [if_pos h1]
    · rw [if_neg h1, if_neg (Nat.not_le.mpr h3)]

/-- C10: the UTID returned by `UpdateThread(tid, pid)` is always left bound:
its row has `tid` in the tid column and `upid = some P` for a process row `P`
whose pid column holds `pid`. -/
theorem C10_updateThread_binds (s : State) (tid pid : Nat) (hInv : Inv s) :
    (updateThread s tid pid).2.threadTid (updateThread s tid pid).1 = tid
    ∧ ∃ P, (updateThread s tid pid).2.threadUpid (updateThread s tid pid).1 = some P
        ∧ (updateThread s tid pid).2.procPid P = pid := by
  obtain ⟨_, _, h3, h4⟩ := inv_updateThread s tid pid hInv
  exact ⟨h3, h4⟩

/-- C1: if `AssociateThreads(a,b)` and `AssociateThreads(b,c)` are called
while none of `a`, `b`, `c` has a upid, then a subsequent operation that binds
any one `x` of them to a process with UPID `P` (every binding site performs
the `AssociateThreadToProcess` + `ResolvePendingAssociations` combination
below) leaves all three threads with `upid = some P`: the chain is drained
transitively through the `pending_assocs_` worklist. -/
theorem C1_association_transitivity (s : State) (a b c P x : Nat) (hInv : Inv s)
    (ha : a < s.threads.length) (hb : b < s.threads.length) (hc : c < s.threads.length)
    (hA : s.threadUpid a = none) (hB : s.threadUpid b = none) (hC : s.threadUpid c = none)
    (hx : x = a ∨ x = b ∨ x = c) :
    ((resolvePendingAssociations (associateThreadToProcess
        (associateThreads (associateThreads s a b) b c) x P) x P).threadUpid a = some P)
    ∧ ((resolvePendingAssociations (associateThreadToProcess
        (associateThreads (associateThreads s a b) b c) x P) x P).threadUpid b = some P)
    ∧ ((resolvePendingAssociations (associateThreadToProcess
        (associateThreads (associateThreads s a b) b c) x P) x P).threadUpid c
        = some P) := by
  have hB1 : ({ s with pending_assocs := s.pending_assocs ++ [(a, b)] } : State).threadUpid b
      = none := hB
  have hC1 : ({ s with pending_assocs := s.pending_assocs ++ [(a, b)] } : State).threadUpid c
      = none := hC
  have h1 := associateThreads_pend_nn s a b hA hB
  have h2 := associateThreads_pend_nn
    { s with pending_assocs := s.pending_assocs ++ [(a, b)] } b c hB1 hC1
  have hs2 : associateThreads (associateThreads s a b) b c
      = { s with pending_assocs := (s.pending_assocs ++ [(a, b)]) ++ [(b, c)] } := by
    rw [h1, h2]
  have hInv1 : Inv (associateThreads s a b) := inv_associateThreads s a b hInv ha hb
  have hb1 : b < (associateThreads s a b).threads.length := by
    rw [h1]
    exact hb
  have hc1 : c < (associateThreads s a b).threads.length := by
    rw [h1]
    exact hc
  have hInv2 : Inv (associateThreads (associateThreads s a b) b c) :=
    inv_associateThreads _ b c hInv1 hb1 hc1
  rw [hs2] at hInv2
  rw [hs2]
  have hbound : ∀ e ∈ (s.pending_assocs ++ [(a, b)]) ++ [(b, c)],
      e.1 < ({ s with pending_assocs := (s.pending_assocs ++ [(a, b)]) ++ [(b, c)] }
          : State).threads.length
      ∧ e.2 < ({ s with pending_assocs := (s.pending_assocs ++ [(a, b)]) ++ [(b, c)] }
          : State).threads.length :=
    fun e he => ⟨(hInv2.pendOK e he).1, (hInv2.pendOK e he).2.1⟩
  have hab : (a, b) ∈ (s.pending_assocs ++ [(a, b)]) ++ [(b, c)] := by simp
  have hbc : (b, c) ∈ (s.pending_assocs ++ [(a, b)]) ++ [(b, c)] := by simp
  have rab : Reach ((s.pending_assocs ++ [(a, b)]) ++ [(b, c)]) a b :=
    Reach.step (Or.inl hab) (Reach.refl b)
  have rba : Reach ((s.pending_assocs ++ [(a, b)]) ++ [(b, c)]) b a :=
    Reach.step (Or.inr hab) (Reach.refl a)
  have rbc : Reach ((s.pending_assocs ++ [(a, b)]) ++ [(b, c)]) b c :=
    Reach.step (Or.inl hbc) (Reach.refl c)
  have rcb : Reach ((s.pending_assocs ++ [(a, b)]) ++ [(b, c)]) c b :=
    Reach.step (Or.inr hbc) (Reach.refl b)
  have rac : Reach ((s.pending_assocs ++ [(a, b)]) ++ [(b, c)]) a c :=
    Reach.step (Or.inl hab) rbc
  have rca : Reach ((s.pending_assocs ++ [(a, b)]) ++ [(b, c)]) c a :=
    Reach.step (Or.inr hbc) rba
  have hxlt : x < ({ s with
      pending_assocs := (s.pending_assocs ++ [(a, b)]) ++ [(b, c)] } : State).threads.length := by
    rcases hx with h | h | h
    · rw [h]
      exact ha
    · rw [h]
      exact hb
    · rw [h]
      exact hc
  have hra : Reach ((s.pending_assocs ++ [(a, b)]) ++ [(b, c)]) x a := by
    rcases hx with h | h | h
    · rw [h]
      exact Reach.refl a
    · rw [h]
      exact rba
    · rw [h]
      exact rca
  have hrb : Reach ((s.pending_assocs ++ [(a, b)]) ++ [(b, c)]) x b := by
    rcases hx with h | h | h
    · rw [h]
      exact rab
    · rw [h]
      exact Reach.refl b
    · rw [h]
      exact rcb
  have hrc : Reach ((s.pending_assocs ++ [(a, b)]) ++ [(b, c)]) x c := by
    rcases hx with h | h | h
    · rw [h]
      exact rac
    · rw [h]
      exact rbc
    · rw [h]
      exact Reach.refl c
  exact ⟨bindResolve_reach _ x P a hxlt hbound hra,
    bindResolve_reach _ x P b hxlt hbound hrb,
    bindResolve_reach _ x P c hxlt hbound hrc⟩

/-- Thread rows and the `tids_` index are untouched by the process-finishing
tail of `EndThread`, for an arbitrary intermediate state `s2`. -/
theorem endThread_tail_fields (s2 : State) (ts : Int) (tid utid : Nat) :
    (match s2.threadUpid utid with
      | none => s2
      | some opt_upid =>
        if s2.procPid opt_upid ≠ tid then s2
        else
          { s2.setProc opt_upid (fun r => { r with end_ts := some ts }) with
            pids := fupd (s2.setProc opt_upid
              (fun r => { r with end_ts := some ts })).pids tid none }).threads
      = s2.threads
    ∧ (match s2.threadUpid utid with
      | none => s2
      | some opt_upid =>
        if s2.procPid opt_upid ≠ tid then s2
        else
          { s2.setProc opt_upid (fun r => { r with end_ts := some ts }) with
            pids := fupd (s2.setProc opt_upid
              (fun r => { r with end_ts := some ts })).pids tid none }).tids
      = s2.tids := by
  cases s2.threadUpid utid with
  | none => exact ⟨rfl, rfl⟩
  | some opt_upid =>
    simp only []
    by_cases h : s2.procPid opt_upid ≠ tid
    · rw [if_pos h]
      exact ⟨rfl, rfl⟩
    · rw [if_neg h]
      exact ⟨rfl, rfl⟩

/-- C2: after any valid sequence of public calls on a fresh tracker, every
UTID whose row has `end_ts` set is absent from `tids_[tid[u]]`; and within the
single `EndThread` call the looked-up UTID both gets `end_ts` and is removed
from its `tids_` list. -/
theorem C2_alive_list_integrity (cs : List Cmd) (hv : validSeq initState cs = true) :
    (∀ u l, (run initState cs).tids ((run initState cs).threadTid u) = some l →
      (run initState cs).threadEndTs u ≠ none → u ∉ l)
    ∧ (∀ ts tid utid, getThreadOrNull1 (run initState cs) tid = some utid →
        (endThread (run initState cs) ts tid).threadEndTs utid = some ts
        ∧ ∀ l, (endThread (run initState cs) ts tid).tids tid = some l → utid ∉ l) := by
  have hInv := inv_run initState cs inv_init hv
  constructor
  · intro u l hl hne hmem
    exact hne (hInv.tidsOK _ l hl u hmem).2.2
  · intro ts tid utid hf
    have hu : utid < (run initState cs).threads.length :=
      (getThreadOrNull_facts _ tid none utid hInv hf).1
    rw [endThread_found (run initState cs) ts tid utid hf]
    simp only []
    obtain ⟨hth, htd⟩ := endThread_tail_fields
      { (run initState cs).setThread utid (fun r => { r with end_ts := some ts }) with
        tids := fupd ((run initState cs).setThread utid
            (fun r => { r with end_ts := some ts })).tids tid
          (some (((((run initState cs).setThread utid
              (fun r => { r with end_ts := some ts })).tids tid).getD []).filter
            (fun u => u ≠ utid))) } ts tid utid
    constructor
    · show (State.threadRow _ utid).end_ts = some ts
      unfold State.threadRow
      rw [hth]
      show (((run initState cs).threads.set utid
        { ((run initState cs).threads.getD utid dfltThread) with
          end_ts := some ts }).getD utid dfltThread).end_ts = some ts
      rw [getD_set_self _ _ _ _ hu]
    · intro l hl
      rw [htd] at hl
      have hl2 : fupd ((run initState cs).setThread utid
          (fun r => { r with end_ts := some ts })).tids tid
          (some (((((run initState cs).setThread utid
              (fun r => { r with end_ts := some ts })).tids tid).getD []).filter
            (fun u => u ≠ utid))) tid = some l := hl
      unfold fupd at hl2
      rw [if_pos rfl] at hl2
      have hleq := (Option.some_inj.mp hl2).symm
      subst hleq
      intro hmem
      have := List.of_mem_filter hmem
      simp at this

/-- C4: when `pids_[pid]` is already mapped to UPID `X`, `StartNewProcess`
remaps `pids_[pid]` to the fresh returned UPID (distinct from `X`), after
which every thread still bound to `X` fails `IsThreadAlive`, and
`GetThreadOrNull` on a tid whose live list only holds such threads returns
nullopt. -/
theorem C4_pid_reuse_kills_old_threads (s : State) (ts : Option Int)
    (ptid : Option Nat) (pid : Nat) (mtn : StringId) (prio : Nat) (X : Nat)
    (hInv : Inv s) (hmap : s.pids pid = some X) :
    X ≠ (startNewProcess s ts ptid pid mtn prio).1
    ∧ (startNewProcess s ts ptid pid mtn prio).2.pids pid
        = some (startNewProcess s ts ptid pid mtn prio).1
    ∧ (∀ u, (startNewProcess s ts ptid pid mtn prio).2.threadUpid u = some X →
        isThreadAlive (startNewProcess s ts ptid pid mtn prio).2 u = false)
    ∧ (∀ tid l, (startNewProcess s ts ptid pid mtn prio).2.tids tid = some l →
        (∀ u ∈ l, (startNewProcess s ts ptid pid mtn prio).2.threadUpid u = some X) →
        getThreadOrNull (startNewProcess s ts ptid pid mtn prio).2 tid none = none) := by
  obtain ⟨hfst, hpids, hpp⟩ := snp_facts s ts ptid pid mtn prio hInv
  obtain ⟨hXlt, hXpid⟩ := hInv.pidsOK pid X hmap
  have hne : X ≠ (startNewProcess s ts ptid pid mtn prio).1 := by
    rw [hfst]
    omega
  have hprocX : (startNewProcess s ts ptid pid mtn prio).2.procPid X = pid := by
    rw [hpp X hXlt]
    exact hXpid
  have hdead : ∀ u, (startNewProcess s ts ptid pid mtn prio).2.threadUpid u = some X →
      isThreadAlive (startNewProcess s ts ptid pid mtn prio).2 u = false := by
    intro u hu
    refine dead_of_pid_remapped _ u X s.processes.length hu ?_ (by omega)
    rw [hprocX, hpids]
  refine ⟨hne, ?_, hdead, ?_⟩
  · rw [hfst]
    exact hpids
  · intro tid l hl hall
    exact getThreadOrNull_none_of_dead _ tid none l hl (fun u hu => hdead u (hall u hu))

/-- C9 is refuted: with two matching namespaced threads registered in
descending tid order, the source iterates the `std::set` in ascending tid
order and returns the smaller tid, while the spec's "first registered thread"
(`resolveNamespacedTidSpec`, written from the spec's words) returns the one
registered first. -/
theorem C9_counterexample_registration_order :
    validSeq initState [Cmd.updateNamespacedProcess 100 [100, 1],
        Cmd.updateNamespacedThread 100 105 [105, 7],
        Cmd.updateNamespacedThread 100 103 [103, 7]] = true
    ∧ resolveNamespacedTid (run initState [Cmd.updateNamespacedProcess 100 [100, 1],
        Cmd.updateNamespacedThread 100 105 [105, 7],
        Cmd.updateNamespacedThread 100 103 [103, 7]]) 100 7 = some 103
    ∧ resolveNamespacedTidSpec (run initState [Cmd.updateNamespacedProcess 100 [100, 1],
        Cmd.updateNamespacedThread 100 105 [105, 7],
        Cmd.updateNamespacedThread 100 103 [103, 7]]) 100 7 = some 105 := by
  refine ⟨by decide, by decide, by decide⟩

/-- C9 (amended): `ResolveNamespacedTid(root_pid, ns_local_id)` returns
nullopt when `root_pid` is 0 or unregistered; returns `root_pid` when
`nspid.back() == ns_local_id`; otherwise, with `depth = nspid.len() - 1`, it
returns nullopt when no registered thread of the process matches
`nstid[depth] == ns_local_id`, and when matches exist it returns the recorded
tid of the matching thread with the SMALLEST root-level tid (the ascending
iteration order of the source's `std::set`), not the first-registered one. -/
theorem C9_amended_resolveNamespacedTid (s : State) (rp tid : Nat) :
    (resolveNamespacedTid s 0 tid = none)
    ∧ (s.namespaced_processes rp = none → resolveNamespacedTid s rp tid = none)
    ∧ (∀ proc, rp ≠ 0 → s.namespaced_processes rp = some proc →
        ((proc.nspid.getLastD 0 = tid → resolveNamespacedTid s rp tid = some rp)
        ∧ (proc.nspid.getLastD 0 ≠ tid →
            (∀ t ∈ proc.threads,
              ((((s.namespaced_threads t).getD dfltNsThread).nstid.getD
                (proc.nspid.length - 1) 0) == tid) = false) →
            resolveNamespacedTid s rp tid = none)
        ∧ (proc.nspid.getLastD 0 ≠ tid → ∀ t ∈ proc.threads,
            ((((s.namespaced_threads t).getD dfltNsThread).nstid.getD
              (proc.nspid.length - 1) 0) == tid) = true →
            ∃ t0, t0 ∈ proc.threads
              ∧ ((((s.namespaced_threads t0).getD dfltNsThread).nstid.getD
                  (proc.nspid.length - 1) 0) == tid) = true
              ∧ (∀ t1 ∈ proc.threads,
                  ((((s.namespaced_threads t1).getD dfltNsThread).nstid.getD
                    (proc.nspid.length - 1) 0) == tid) = true → t0 ≤ t1)
              ∧ resolveNamespacedTid s rp tid
                  = some ((s.namespaced_threads t0).getD dfltNsThread).tid))) := by
  refine ⟨?_, ?_, ?_⟩
  · unfold resolveNamespacedTid
    rw [if_pos rfl]
  · intro h
    unfold resolveNamespacedTid
    by_cases hrp : rp = 0
    · rw [if_pos hrp]
    · rw [if_neg hrp, h]
  · intro proc hrp hproc
    have hred : resolveNamespacedTid s rp tid
        = (if proc.nspid.getLastD 0 = tid then some rp
          else match (sortAsc proc.threads).find? (fun root_level_tid =>
              (((s.namespaced_threads root_level_tid).getD dfltNsThread).nstid.getD
                (proc.nspid.length - 1) 0) == tid) with
            | some root_level_tid =>
              some ((s.namespaced_threads root_level_tid).getD dfltNsThread).tid
            | none => none) := by
      unfold resolveNamespacedTid
      rw [if_neg hrp, hproc]
    refine ⟨?_, ?_, ?_⟩
    · intro hmain
      rw [hred, if_pos hmain]
    · intro hmain hnone
      rw [hred, if_neg hmain]
      have hfind : (sortAsc proc.threads).find? (fun root_level_tid =>
          (((s.namespaced_threads root_level_tid).getD dfltNsThread).nstid.getD
            (proc.nspid.length - 1) 0) == tid) = none := by
        rw [List.find?_eq_none]
        intro x hx
        rw [hnone x (mem_sortAsc.mp hx)]
        exact Bool.false_ne_true
      rw [hfind]
    · intro hmain t ht hpt
      cases hF : (sortAsc proc.threads).find? (fun root_level_tid =>
          (((s.namespaced_threads root_level_tid).getD dfltNsThread).nstid.getD
            (proc.nspid.length - 1) 0) == tid) with
      | none =>
        exact absurd hpt (List.find?_eq_none.mp hF t (mem_sortAsc.mpr ht))
      | some t0 =>
        have hmem0 : t0 ∈ sortAsc proc.threads := List.mem_of_find?_eq_some hF
        have hp0 := List.find?_some hF
        refine ⟨t0, mem_sortAsc.mp hmem0, hp0, ?_, ?_⟩
        · intro t1 ht1 hp1
          exact find_sorted_min (sortAsc proc.threads) (sortAsc_sorted proc.threads)
            t0 hF t1 (mem_sortAsc.mpr ht1) hp1
        · rw [hred, if_neg hmain, hF]

/-! ### Witnesses: the claim theorems at concrete inputs -/

/-- Witness of C1: three fresh unbound threads 1, 2, 3 chained by two
associations and bound through thread 2 to UPID 0. -/
theorem C1_association_transitivity_witness :
    ((run initState [Cmd.startNewThread none 10, Cmd.startNewThread none 11,
        Cmd.startNewThread none 12]).threadUpid 1 = none
      ∧ (run initState [Cmd.startNewThread none 10, Cmd.startNewThread none 11,
        Cmd.startNewThread none 12]).threadUpid 2 = none
      ∧ (run initState [Cmd.startNewThread none 10, Cmd.startNewThread none 11,
        Cmd.startNewThread none 12]).threadUpid 3 = none)
    ∧ ((resolvePendingAssociations (associateThreadToProcess
          (associateThreads (associateThreads (run initState [Cmd.startNewThread none 10,
            Cmd.startNewThread none 11, Cmd.startNewThread none 12]) 1 2) 2 3) 2 0)
          2 0).threadUpid 1 = some 0
      ∧ (resolvePendingAssociations (associateThreadToProcess
          (associateThreads (associateThreads (run initState [Cmd.startNewThread none 10,
            Cmd.startNewThread none 11, Cmd.startNewThread none 12]) 1 2) 2 3) 2 0)
          2 0).threadUpid 2 = some 0
      ∧ (resolvePendingAssociations (associateThreadToProcess
          (associateThreads (associateThreads (run initState [Cmd.startNewThread none 10,
            Cmd.startNewThread none 11, Cmd.startNewThread none 12]) 1 2) 2 3) 2 0)
          2 0).threadUpid 3 = some 0) := by
  refine ⟨⟨by decide, by decide, by decide⟩, ?_⟩
  exact C1_association_transitivity _ 1 2 3 0 2
    (inv_run initState [Cmd.startNewThread none 10, Cmd.startNewThread none 11,
      Cmd.startNewThread none 12] inv_init (by decide))
    (by decide) (by decide) (by decide) (by decide) (by decide) (by decide)
    (Or.inr (Or.inl rfl))

/-- Witness of C2: ending tid 7 stamps `end_ts` on UTID 1 and removes it from
`tids_[7]`. -/
theorem C2_alive_list_integrity_witness :
    validSeq initState [Cmd.updateThread 7 7] = true
    ∧ (endThread (run initState [Cmd.updateThread 7 7]) 5 7).threadEndTs 1 = some 5
    ∧ (∀ l, (endThread (run initState [Cmd.updateThread 7 7]) 5 7).tids 7 = some l →
        1 ∉ l) := by
  refine ⟨by decide, ?_, ?_⟩
  · exact ((C2_alive_list_integrity [Cmd.updateThread 7 7] (by decide)).2 5 7 1
      (by decide)).1
  · exact ((C2_alive_list_integrity [Cmd.updateThread 7 7] (by decide)).2 5 7 1
      (by decide)).2

/-- Witness of C4: the spec's pid-reuse scenario, `pid = 50` remapped from
UPID 1 to the fresh UPID 2. -/
theorem C4_pid_reuse_witness :
    validSeq initState [Cmd.updateThread 50 50, Cmd.updateThread 51 50] = true
    ∧ (run initState [Cmd.updateThread 50 50, Cmd.updateThread 51 50]).pids 50 = some 1
    ∧ 1 ≠ (startNewProcess (run initState [Cmd.updateThread 50 50,
        Cmd.updateThread 51 50]) none none 50 77 4).1
    ∧ getThreadOrNull (startNewProcess (run initState [Cmd.updateThread 50 50,
        Cmd.updateThread 51 50]) none none 50 77 4).2 51 none = none := by
  refine ⟨by decide, by decide, ?_, ?_⟩
  · exact (C4_pid_reuse_kills_old_threads (run initState [Cmd.updateThread 50 50,
      Cmd.updateThread 51 50]) none none 50 77 4 1
      (inv_run initState [Cmd.updateThread 50 50, Cmd.updateThread 51 50] inv_init
        (by decide)) (by decide)).1
  · exact (C4_pid_reuse_kills_old_threads (run initState [Cmd.updateThread 50 50,
      Cmd.updateThread 51 50]) none none 50 77 4 1
      (inv_run initState [Cmd.updateThread 50 50, Cmd.updateThread 51 50] inv_init
        (by decide)) (by decide)).2.2.2 51 [2] (by decide) (by decide)

/-- Witness of C5: the main thread of pid 7 has its flag computed from the
process row. -/
theorem C5_main_thread_flag_witness :
    validSeq initState [Cmd.updateThread 7 7] = true
    ∧ (run initState [Cmd.updateThread 7 7]).threadIsMain 1
        = some ((run initState [Cmd.updateThread 7 7]).procPid 1
          == (run initState [Cmd.updateThread 7 7]).threadTid 1) := by
  refine ⟨by decide, ?_⟩
  exact C5_main_thread_flag [Cmd.updateThread 7 7] (by decide) 1 1 (by decide) (by decide)

/-- Witness of C6: the spec's conflicting-association scenario (threads of
pid 100 and pid 200). -/
theorem C6_conflicting_association_witness :
    (run initState [Cmd.updateThread 1 100,
        Cmd.updateThread 2 200]).threadUpid 1 = some 1
    ∧ (run initState [Cmd.updateThread 1 100,
        Cmd.updateThread 2 200]).threadUpid 3 = some 2
    ∧ associateThreads (run initState [Cmd.updateThread 1 100,
        Cmd.updateThread 2 200]) 1 3
        = { (run initState [Cmd.updateThread 1 100, Cmd.updateThread 2 200]) with
            process_tracker_errors := (run initState [Cmd.updateThread 1 100,
              Cmd.updateThread 2 200]).process_tracker_errors + 1 } := by
  refine ⟨by decide, by decide, ?_⟩
  exact (C6_conflicting_association (run initState [Cmd.updateThread 1 100,
    Cmd.updateThread 2 200]) 1 3 1 2 (by decide) (by decide) (by decide)).1

/-- Witness of C7 (amended): on the very run that refutes the original claim,
every pending entry has equal (or absent) upids on both sides. -/
theorem C7_amended_pending_entries_witness :
    validSeq initState [Cmd.updateThread 1 100, Cmd.updateThread 5 100,
        Cmd.associateThreads 1 2] = true
    ∧ ∀ e ∈ (run initState [Cmd.updateThread 1 100, Cmd.updateThread 5 100,
        Cmd.associateThreads 1 2]).pending_assocs,
        ((run initState [Cmd.updateThread 1 100, Cmd.updateThread 5 100,
            Cmd.associateThreads 1 2]).threadUpid e.1 = none
          ∧ (run initState [Cmd.updateThread 1 100, Cmd.updateThread 5 100,
            Cmd.associateThreads 1 2]).threadUpid e.2 = none)
        ∨ ∃ Q, (run initState [Cmd.updateThread 1 100, Cmd.updateThread 5 100,
            Cmd.associateThreads 1 2]).threadUpid e.1 = some Q
          ∧ (run initState [Cmd.updateThread 1 100, Cmd.updateThread 5 100,
            Cmd.associateThreads 1 2]).threadUpid e.2 = some Q :=
  ⟨by decide, C7_amended_pending_entries [Cmd.updateThread 1 100, Cmd.updateThread 5 100,
    Cmd.associateThreads 1 2] (by decide)⟩

/-- Witness of C8: writing name 7 at priority 3 over the fresh priority 0 of
UTID 0. -/
theorem C8_priority_monotonicity_witness :
    0 < initState.threads.length ∧ 0 < initState.thread_name_priorities.length
    ∧ (updateThreadNameByUtid initState 0 7 3).threadName 0 = some 7
    ∧ (updateThreadNameByUtid initState 0 7 3).prioAt 0 = 3 := by
  refine ⟨by decide, by decide, ?_⟩
  exact (C8_priority_monotonicity initState [] 0 7 3 (by decide) (by decide)).2.2.1
    (by decide) (by decide)

/-- Witness of C10: `UpdateThread(9, 9)` on the fresh tracker returns UTID 1
bound to the new process of pid 9. -/
theorem C10_updateThread_binds_witness :
    (updateThread initState 9 9).2.threadTid (updateThread initState 9 9).1 = 9
    ∧ ∃ P, (updateThread initState 9 9).2.threadUpid (updateThread initState 9 9).1
        = some P ∧ (updateThread initState 9 9).2.procPid P = 9 :=
  C10_updateThread_binds initState 9 9 inv_init

end PerfettoProcessTracker
